import Mathlib

/-! The dynamic-module bridge (src/src/emacs-module.c) and the memory limit
warnings (src/src/vm-limit.c).

A shallow embedding of the module runtime: the value codec, the per-call
environment with its pending non-local exit, the environment functions, the
function environments with their invocation path, and the global reference
table; and of `check_memory_limits`.

Machine words are kept as natural numbers, the unsigned residue of the C
object: a `Lisp_Object` is its `EMACS_INT` word (`XLI`), below `2 ^ intBits`;
an `emacs_value` is the pointer-wide word, below `2 ^ ptrBits`.  Both are of
type `Nat` here: parameters named `o`, `sym`, `data` are Lisp objects,
parameters named `v`, `ref` are handles.  Masks with `2^k - 1` are written
`% 2^k`, right shifts `/ 2^k`, left shifts `* 2^k` reduced modulo the width of the C type.
-/

namespace EmacsModule

/-! ## Platform and the constants of lisp.h -/

/-- The build parameters the codec depends on: the width of `intptr_t` (and of
`emacs_value`), the width of `EMACS_INT` (and of `Lisp_Object`), where the tag
bits live, and whether the compiler aligns structures as requested. -/
structure Platform where
  ptrBits : Nat
  intBits : Nat
  USE_LSB_TAG : Bool
  HAVE_STRUCT_ATTRIBUTE_ALIGNED : Bool

/-- The widths this development covers: 32- or 64-bit hosts with an
`EMACS_INT` as wide as a pointer, and 32-bit hosts with a 64-bit `EMACS_INT`
(wide integers). -/
def Platform.Supported (p : Platform) : Prop :=
  (p.ptrBits = 32 ∧ p.intBits = 32) ∨ (p.ptrBits = 64 ∧ p.intBits = 64) ∨
    (p.ptrBits = 32 ∧ p.intBits = 64)

/-- The enum `plain_values`: `Lisp_Object` and `emacs_value` have the same
size, alignment and maximum. -/
def plain_values (p : Platform) : Bool := p.ptrBits == p.intBits

/-- The constant `GCTYPEBITS` of lisp.h. -/
def GCTYPEBITS : Nat := 3

/-- The constant `GCALIGNMENT` of lisp.h. -/
def GCALIGNMENT : Nat := 8

/-- The constant `INTTYPEBITS` of lisp.h, `GCTYPEBITS - 1`. -/
def INTTYPEBITS : Nat := GCTYPEBITS - 1

/-- The constant `VALBITS` of lisp.h, `EMACS_INT_WIDTH - GCTYPEBITS`. -/
def VALBITS (p : Platform) : Nat := p.intBits - GCTYPEBITS

/-- The largest `EMACS_INT`. -/
def EMACS_INT_MAX (p : Platform) : Nat := 2 ^ (p.intBits - 1) - 1

/-- The largest `intptr_t`. -/
def INTPTR_MAX (p : Platform) : Nat := 2 ^ (p.ptrBits - 1) - 1

/-- The largest `ptrdiff_t`; it is as wide as a pointer. -/
def PTRDIFF_MAX (p : Platform) : Int := 2 ^ (p.ptrBits - 1) - 1

/-- The constant `VAL_MAX` of lisp.h, `EMACS_INT_MAX >> (GCTYPEBITS - 1)`. -/
def VAL_MAX (p : Platform) : Nat := EMACS_INT_MAX p / 2 ^ (GCTYPEBITS - 1)

/-- The constant `VALMASK` of lisp.h: `- (1 << GCTYPEBITS)` with tags in the
low bits, `VAL_MAX` otherwise; as an `EMACS_INT` bit pattern. -/
def VALMASK (p : Platform) : Nat :=
  if p.USE_LSB_TAG then 2 ^ p.intBits - 2 ^ GCTYPEBITS else VAL_MAX p

/-- The constant `MOST_POSITIVE_FIXNUM` of lisp.h, `EMACS_INT_MAX >> INTTYPEBITS`. -/
def MOST_POSITIVE_FIXNUM (p : Platform) : Int := ((EMACS_INT_MAX p / 2 ^ INTTYPEBITS : Nat) : Int)

/-- The constant `MOST_NEGATIVE_FIXNUM` of lisp.h, `-1 - MOST_POSITIVE_FIXNUM`. -/
def MOST_NEGATIVE_FIXNUM (p : Platform) : Int := -1 - MOST_POSITIVE_FIXNUM p

/-- Tag `Lisp_Symbol` of `enum Lisp_Type`. -/
def Lisp_Symbol : Nat := 0

/-- Tag `Lisp_Misc` of `enum Lisp_Type`. -/
def Lisp_Misc : Nat := 1

/-- Tag `Lisp_Int0` of `enum Lisp_Type`. -/
def Lisp_Int0 : Nat := 2

/-- Tag `Lisp_Int1` of `enum Lisp_Type`: `USE_LSB_TAG ? 6 : 3`. -/
def Lisp_Int1 (p : Platform) : Nat := if p.USE_LSB_TAG then 6 else 3

/-- Tag `Lisp_String` of `enum Lisp_Type`. -/
def Lisp_String : Nat := 4

/-- Tag `Lisp_Vectorlike` of `enum Lisp_Type`. -/
def Lisp_Vectorlike : Nat := 5

/-- Tag `Lisp_Cons` of `enum Lisp_Type`: `USE_LSB_TAG ? 3 : 6`. -/
def Lisp_Cons (p : Platform) : Nat := if p.USE_LSB_TAG then 3 else 6

/-- Tag `Lisp_Float` of `enum Lisp_Type`. -/
def Lisp_Float : Nat := 7

/-- The object `Qnil`; `verify (NIL_IS_ZERO)` makes it the zero word. -/
def Qnil : Nat := 0

/-- The macro `XTYPE` of lisp.h: `XLI (a) & ~VALMASK` with tags in the low
bits, `(EMACS_UINT) XLI (a) >> VALBITS` otherwise. -/
def XTYPE (p : Platform) (a : Nat) : Nat :=
  if p.USE_LSB_TAG then a % 2 ^ GCTYPEBITS else a / 2 ^ VALBITS p

/-- The macro `INTEGERP` of lisp.h:
`(XTYPE (x) & (Lisp_Int0 | ~Lisp_Int1)) == Lisp_Int0`, the complement taken
within the three tag bits. -/
def INTEGERP (p : Platform) (x : Nat) : Bool :=
  (XTYPE p x &&& (Lisp_Int0 ||| (7 - Lisp_Int1 p))) == Lisp_Int0

/-- The macro `EQ` of lisp.h: the two words are the same. -/
def EQ (x y : Nat) : Bool := x == y

/-- The macro `NILP` of lisp.h. -/
def NILP (x : Nat) : Bool := EQ x Qnil

/-- The macro `CONSP` of lisp.h. -/
def CONSP (p : Platform) (x : Nat) : Bool := XTYPE p x == Lisp_Cons p

/-- The conversion of an `intptr_t` bit pattern to `EMACS_INT` (or to
`EMACS_UINT`): the value is kept, so the sign bit is extended. -/
def intptr_to_EMACS_INT (p : Platform) (i : Nat) : Nat :=
  if i < 2 ^ (p.ptrBits - 1) then i else i + (2 ^ p.intBits - 2 ^ p.ptrBits)

/-- The macro `XIL` of lisp.h: the word as a Lisp_Object. -/
def XIL (i : Nat) : Nat := i

/-- The macro `XLI` of lisp.h: the Lisp_Object as a word. -/
def XLI (o : Nat) : Nat := o

/-- The function `XUNTAG` of lisp.h, the pointer bits of `a`:
`(intptr_t) (XLI (a) - type)` with tags in the low bits,
`(intptr_t) (XLI (a) & VALMASK)` otherwise. -/
def XUNTAG (p : Platform) (a : Nat) (type : Nat) : Nat :=
  if p.USE_LSB_TAG then (XLI a + 2 ^ p.intBits - type) % 2 ^ p.ptrBits
  else (XLI a % 2 ^ VALBITS p) % 2 ^ p.ptrBits

/-- The macro `XCONS` of lisp.h: the address of the cons cell. -/
def XCONS (p : Platform) (a : Nat) : Nat := XUNTAG p a (Lisp_Cons p)

/-- The function `make_lisp_ptr` of lisp.h, `XIL (TAG_PTR (type, ptr))`: with
tags in the low bits `(intptr_t) (ptr) + (tag)`, sign-extended; otherwise
`((EMACS_UINT) (tag) << VALBITS) + (uintptr_t) (ptr)`, zero-extended. -/
def make_lisp_ptr (p : Platform) (ptr : Nat) (type : Nat) : Nat :=
  if p.USE_LSB_TAG then XIL (intptr_to_EMACS_INT p ((ptr + type) % 2 ^ p.ptrBits))
  else XIL ((type * 2 ^ VALBITS p + ptr) % 2 ^ p.intBits)

/-- The function `make_natnum` of lisp.h, for the `EMACS_INT` `n`:
`USE_LSB_TAG ? make_number (n) : XIL (n + (int0 << VALBITS))`. -/
def make_natnum (p : Platform) (n : Int) : Nat :=
  if p.USE_LSB_TAG then XIL (((n * 2 ^ INTTYPEBITS + Lisp_Int0) % 2 ^ p.intBits).toNat)
  else XIL (((n + Lisp_Int0 * 2 ^ VALBITS p) % 2 ^ p.intBits).toNat)

/-- The signed value of an `EMACS_INT` bit pattern. -/
def EMACS_INT_of_bits (p : Platform) (r : Nat) : Int :=
  if r < 2 ^ (p.intBits - 1) then (r : Int) else (r : Int) - 2 ^ p.intBits

/-- The function `XINT` of lisp.h, the signed value of a fixnum: an arithmetic
right shift by `INTTYPEBITS` with tags in the low bits; otherwise the word is
shifted left by `INTTYPEBITS` and then arithmetically right by the same
amount. -/
def XINT (p : Platform) (a : Nat) : Int :=
  if p.USE_LSB_TAG then
    (if a < 2 ^ (p.intBits - 1) then ((a / 2 ^ INTTYPEBITS : Nat) : Int)
     else ((a / 2 ^ INTTYPEBITS : Nat) : Int) - 2 ^ (p.intBits - INTTYPEBITS))
  else
    (if a % 2 ^ (p.intBits - INTTYPEBITS) < 2 ^ (p.intBits - INTTYPEBITS - 1)
     then ((a % 2 ^ (p.intBits - INTTYPEBITS) : Nat) : Int)
     else ((a % 2 ^ (p.intBits - INTTYPEBITS) : Nat) : Int) - 2 ^ (p.intBits - INTTYPEBITS))

/-- The function `XFASTINT` of lisp.h, the value of a non-negative fixnum:
`USE_LSB_TAG ? XINT (a) : XLI (a) - (Lisp_Int0 << VALBITS)`. -/
def XFASTINT (p : Platform) (a : Nat) : Int :=
  if p.USE_LSB_TAG then XINT p a
  else EMACS_INT_of_bits p ((XLI a + 2 ^ p.intBits - Lisp_Int0 * 2 ^ VALBITS p) % 2 ^ p.intBits)

/-- The function `make_number` of lisp.h: with tags in the low bits
`(n << INTTYPEBITS) + Lisp_Int0`; otherwise the low `FIXNUM_BITS` bits of `n`
(`n & INTMASK`) plus `Lisp_Int0 << VALBITS`. -/
def make_number (p : Platform) (n : Int) : Nat :=
  if p.USE_LSB_TAG then XIL (((n * 2 ^ INTTYPEBITS + Lisp_Int0) % 2 ^ p.intBits).toNat)
  else XIL ((n % 2 ^ (p.intBits - INTTYPEBITS)).toNat + Lisp_Int0 * 2 ^ VALBITS p)

/-! ## Host memory -/

/-- The record `struct module_fun_env`: the arity bounds, the foreign function
pointer and the user data of a module function. -/
structure module_fun_env where
  min_arity : Int
  max_arity : Int
  subr : Nat
  data : Nat

/-- The handler kinds of `enum handlertype` this file pushes, and the others. -/
inductive handlertype where
  | CATCHER
  | CONDITION_CASE
  | CATCHER_ALL
deriving DecidableEq, Repr

/-- The part of the host process the bridge reads and writes.  Objects live at
addresses; every field that is a map is indexed by the address of the object.
`free` lists the addresses the allocator hands out next, in order: an
allocation takes the first one and fails (the host signals that memory is
exhausted) when there is none. -/
structure World where
  /-- Field `car` of the cons cell at an address. -/
  car : Nat → Nat
  /-- Field `u.cdr` of the cons cell at an address. -/
  cdr : Nat → Nat
  /-- The addresses still to be handed out by the allocator. -/
  free : List Nat
  /-- The static variable `ltv_mark`. -/
  ltv_mark : Nat
  /-- Field `type` of the misc object at an address. -/
  misc_type : Nat → Nat
  /-- The type of slot 0 of the save value at an address. -/
  save_type : Nat → Nat
  /-- The pointer in slot 0 of the save value at an address. -/
  save_pointer : Nat → Nat
  /-- Field `finalizer` of the user pointer at an address. -/
  user_ptr_finalizer : Nat → Nat
  /-- Field `p` of the user pointer at an address. -/
  user_ptr_p : Nat → Nat
  /-- The double held by the float at an address, as its bit pattern. -/
  float_data : Nat → Nat
  /-- The bytes of the string at an address, without the terminator. -/
  string_data : Nat → List Nat
  /-- Whether the vectorlike object at an address has `PSEUDOVECTOR_FLAG`. -/
  pseudovector : Nat → Bool
  /-- The elements of the vector at an address. -/
  contents : Nat → List Nat
  /-- The `struct module_fun_env` allocated at an address. -/
  fun_envs : Nat → module_fun_env
  /-- The hash table `Vmodule_refs_hash`: its entries, key and value. -/
  Vmodule_refs_hash : List (Nat × Nat)
  /-- The variable `Vmodule_environments`, a Lisp list. -/
  Vmodule_environments : Nat
  /-- The handler stack `handlerlist`, innermost handler first. -/
  handlerlist : List handlertype
  /-- How many handlers the host can hold before `push_handler_nosignal`
  fails for lack of memory. -/
  handler_limit : Nat
  /-- The variable `Vmemory_signal_data`. -/
  Vmemory_signal_data : Nat

/-- The macro `XCAR` of lisp.h: field `car` of the cell `c` points to. -/
def XCAR (p : Platform) (w : World) (c : Nat) : Nat := w.car (XCONS p c)

/-- The macro `XCDR` of lisp.h: field `u.cdr` of the cell `c` points to. -/
def XCDR (p : Platform) (w : World) (c : Nat) : Nat := w.cdr (XCONS p c)

/-- The macro `XSETCDR` of lisp.h. -/
def XSETCDR (p : Platform) (w : World) (c n : Nat) : World :=
  { w with cdr := fun a => if a = XCONS p c then n else w.cdr a }

/-- The function `Fcons` of alloc.c: take the next free address, store the two
fields there and return the tagged pointer; no object when memory is
exhausted (the host then signals the error). -/
def Fcons (p : Platform) (w : World) (car cdr : Nat) : Option Nat × World :=
  match w.free with
  | [] => (none, w)
  | addr :: rest =>
    (some (make_lisp_ptr p addr (Lisp_Cons p)),
      { w with
        car := fun a => if a = addr then car else w.car a
        cdr := fun a => if a = addr then cdr else w.cdr a
        free := rest })

/-! ## Value conversion -/

/-- The function `value_to_lisp_bits`. -/
def value_to_lisp_bits (p : Platform) (v : Nat) : Nat :=
  let i : Nat := v
  if plain_values p || p.USE_LSB_TAG then XIL (intptr_to_EMACS_INT p i)
  else
    let tag := i % GCALIGNMENT
    let untagged := (intptr_to_EMACS_INT p i + 2 ^ p.intBits - tag) % 2 ^ p.intBits
    let untagged :=
      if tag = Lisp_Int0 ∨ tag = Lisp_Int1 p then
        let negative := tag % 2 = 1
        let sign_extension :=
          if negative then VALMASK p - VALMASK p % 2 ^ (p.ptrBits - 1 - INTTYPEBITS) else 0
        let u := i
        let all_but_sign := u / 2 ^ GCTYPEBITS
        sign_extension + all_but_sign
      else untagged
    XIL ((tag * 2 ^ VALBITS p + untagged) % 2 ^ p.intBits)

/-- The function `value_to_lisp`. -/
def value_to_lisp (p : Platform) (w : World) (v : Nat) : Nat :=
  let o := value_to_lisp_bits p v
  if !plain_values p && CONSP p o && EQ (XCDR p w o) w.ltv_mark then XCAR p w o else o

/-- The function `lisp_to_value_bits`. -/
def lisp_to_value_bits (p : Platform) (o : Nat) : Nat :=
  let u := XLI o
  let pw :=
    if plain_values p || p.USE_LSB_TAG then u
    else (if INTEGERP p o then (u * 2 ^ VALBITS p) % 2 ^ p.intBits else u % 2 ^ VALBITS p)
      + XTYPE p o
  pw % 2 ^ p.ptrBits

/-- The loop of `lisp_to_value` that calls `Fcons` until the pair is aligned:
`while ((intptr_t) XCONS (pair) & (GCALIGNMENT - 1)) pair = Fcons (o, pair);`.
Every turn takes one free address, so `fuel`, one more than the number of free
addresses, is never used up; no pair is returned when memory is exhausted. -/
def lisp_to_value_loop (p : Platform) (o : Nat) :
    Nat → World → Nat → Option Nat × World
  | 0, w, _ => (none, w)
  | fuel + 1, w, pair =>
    if XCONS p pair % GCALIGNMENT ≠ 0 then
      match Fcons p w o pair with
      | (none, w1) => (none, w1)
      | (some pair1, w1) => lisp_to_value_loop p o fuel w1 pair1
    else (some pair, w)

/-- The function `lisp_to_value`; no handle is returned when `Fcons` finds
memory exhausted (the host then signals the error). -/
def lisp_to_value (p : Platform) (w : World) (o : Nat) : Option Nat × World :=
  let v := lisp_to_value_bits p o
  if !EQ o (value_to_lisp_bits p v) then
    match Fcons p w o w.ltv_mark with
    | (none, w1) => (none, w1)
    | (some pair, w1) =>
      if !p.HAVE_STRUCT_ATTRIBUTE_ALIGNED then
        match lisp_to_value_loop p o (w1.free.length + 1) w1 pair with
        | (none, w2) => (none, w2)
        | (some pair2, w2) =>
          let w3 := XSETCDR p w2 pair2 w2.ltv_mark
          (some ((XCONS p pair2 + Lisp_Cons p) % 2 ^ p.ptrBits), w3)
      else (some ((XCONS p pair + Lisp_Cons p) % 2 ^ p.ptrBits), w1)
  else (some v, w)

/-! ## Well-formedness of the codec's inputs -/

/-- A host value of the world `w`: a word of `EMACS_INT` width which, when the
codec boxes at all and the word is a cons, points to a cell that is allocated
and is not one of the codec's own containers (a pair whose cdr is
`ltv_mark`, a marker private to emacs-module.c). -/
def HostValue (p : Platform) (w : World) (o : Nat) : Prop :=
  o < 2 ^ p.intBits ∧
    (plain_values p = false → CONSP p o = true →
      XCONS p o ∉ w.free ∧ XCDR p w o ≠ w.ltv_mark)

/-- What the bridge relies on from the allocator: it never hands out the same
address twice, an address is a pointer whose bits fit beside the tag, it is
aligned to `GCALIGNMENT` when the compiler honours the alignment attribute,
and with tags in the most significant bits it is non-negative as an
`intptr_t`. -/
def World.FreeCellsOK (p : Platform) (w : World) : Prop :=
  w.free.Nodup ∧ ∀ a ∈ w.free, a < 2 ^ p.ptrBits ∧
    (p.HAVE_STRUCT_ATTRIBUTE_ALIGNED = true → a % GCALIGNMENT = 0) ∧
    (p.USE_LSB_TAG = false → a < 2 ^ (p.ptrBits - 1) ∧ a < 2 ^ VALBITS p)

/-- The encoding of `o` needs no container: `EQ (o, value_to_lisp_bits (v))`
holds for `v = lisp_to_value_bits (o)`. -/
def Compressible (p : Platform) (o : Nat) : Prop :=
  value_to_lisp_bits p (lisp_to_value_bits p o) = o

instance (p : Platform) (w : World) (o : Nat) : Decidable (HostValue p w o) := by
  unfold HostValue; infer_instance

instance (p : Platform) (w : World) : Decidable (w.FreeCellsOK p) := by
  unfold World.FreeCellsOK; infer_instance

instance (p : Platform) (o : Nat) : Decidable (Compressible p o) := by
  unfold Compressible; infer_instance

instance (p : Platform) : Decidable p.Supported := by
  unfold Platform.Supported; infer_instance

/-- The cells of `w1` are those of `w` but for the conses allocated between the
two: nothing else of the world differs. -/
def World.CellsFrom (w w1 : World) : Prop :=
  w1 = { w with car := w1.car, cdr := w1.cdr, free := w1.free } ∧
  w1.free <:+ w.free ∧
  ∀ b, b ∉ w.free → w1.car b = w.car b ∧ w1.cdr b = w.cdr b


/-! ## Concrete platforms and a concrete world -/

/-- A 64-bit host: `EMACS_INT` is as wide as a pointer, tags in the low bits. -/
def plain64 : Platform :=
  { ptrBits := 64, intBits := 64, USE_LSB_TAG := true, HAVE_STRUCT_ATTRIBUTE_ALIGNED := true }

/-- A 32-bit host with a 64-bit `EMACS_INT` and tags in the low bits. -/
def lsb_wide : Platform :=
  { ptrBits := 32, intBits := 64, USE_LSB_TAG := true, HAVE_STRUCT_ATTRIBUTE_ALIGNED := true }

/-- A 32-bit host with a 64-bit `EMACS_INT` and tags in the most significant
bits, whose compiler does not honour the alignment attribute. -/
def msb_wide : Platform :=
  { ptrBits := 32, intBits := 64, USE_LSB_TAG := false, HAVE_STRUCT_ATTRIBUTE_ALIGNED := false }

/-- A world with nothing in it but the given free addresses, the mark and the
reference table. -/
def World.start (free : List Nat) (mark : Nat) (refs : List (Nat × Nat)) : World :=
  { car := fun _ => 0, cdr := fun _ => 0, free := free, ltv_mark := mark,
    misc_type := fun _ => 0, save_type := fun _ => 0, save_pointer := fun _ => 0,
    user_ptr_finalizer := fun _ => 0, user_ptr_p := fun _ => 0, float_data := fun _ => 0,
    string_data := fun _ => [], pseudovector := fun _ => false, contents := fun _ => [],
    fun_envs := fun _ => ⟨0, 0, 0, 0⟩, Vmodule_refs_hash := refs, Vmodule_environments := Qnil,
    handlerlist := [], handler_limit := 64, Vmemory_signal_data := 0 }

/-! ## Environments and non-local exits -/

/-- The enum `emacs_funcall_exit` of emacs-module.h. -/
inductive emacs_funcall_exit where
  | emacs_funcall_exit_return
  | emacs_funcall_exit_signal
  | emacs_funcall_exit_throw
deriving DecidableEq, Repr

open emacs_funcall_exit

/-- The record `struct emacs_env_private`: the pending non-local exit of an
environment and the storage for its symbol (or tag) and data (or value). -/
structure emacs_env_private where
  pending_non_local_exit : emacs_funcall_exit
  non_local_exit_symbol : Nat
  non_local_exit_data : Nat
deriving DecidableEq, Repr

/-- How a call into the host ends: it returns, it signals the error
`(sym . data)`, or it throws `val` to `tag`; each with the world it leaves. -/
inductive HostResult (α : Type) where
  | value (a : α) (w : World)
  | signal (sym data : Nat) (w : World)
  | throw (tag val : Nat) (w : World)

/-- What an environment function hands back to the module: the C return
value, the private part of the environment and the world. -/
structure Result (α : Type) where
  value : α
  env : emacs_env_private
  world : World

/-- The host facilities of other files that the bridge calls, the objects of
the symbols it names, and the foreign code behind the function pointers. -/
structure Host where
  Qt : Nat
  Qoverflow_error : Nat
  Qinvalid_arity : Nat
  Qwrong_number_of_arguments : Nat
  Qwrong_type_argument : Nat
  Qargs_out_of_range : Nat
  Qintegerp : Nat
  Qfloatp : Nat
  Qstringp : Nat
  Quser_ptr : Nat
  Qvectorp : Nat
  Qlambda : Nat
  Qand_rest : Nat
  Qargs : Nat
  Qapply : Nat
  Qfunction : Nat
  Qinternal_module_call : Nat
  Qutf_8 : Nat
  Qsave_value_p : Nat
  Qsave_pointer_p : Nat
  /-- The function `Ffuncall` of eval.c, on the function and its arguments. -/
  Ffuncall : World → List Nat → HostResult Nat
  /-- The function `intern` of lread.c, on the bytes of the name. -/
  intern : World → List Nat → HostResult Nat
  /-- The function `Ftype_of` of data.c. -/
  Ftype_of : World → Nat → Nat
  /-- The function `code_convert_string_norecord` of coding.c, on the string,
  the coding system and the direction (`true` to encode). -/
  code_convert_string_norecord : World → Nat → Nat → Bool → HostResult Nat
  /-- The foreign function behind a function pointer: called with the
  environment, the argument count, the argument handles and the user data, it
  returns a handle and leaves the environment and the world as it made them. -/
  subr : Nat → emacs_env_private → World → Int → List Nat → Nat →
    Nat × emacs_env_private × World
  /-- The function `dynlib_addr` of dynlib.c: the file and the symbol of a
  function pointer, when they can be found. -/
  dynlib_addr : Nat → Option (List Nat × List Nat)
  /-- The bytes `sprintf` writes for `"#<module function at %p>"`. -/
  sprintf_noaddr : Nat → List Nat
  /-- The bytes `exprintf` writes for `"#<module function %s from %s>"`. -/
  exprintf_addr : List Nat → List Nat → List Nat

/-- The constant `module_nil`. -/
def module_nil : Nat := 0

/-- The constant `emacs_variadic_function` of emacs-module.h. -/
def emacs_variadic_function : Int := -2

/-- The function `memory_full` of alloc.c, `xsignal (Qnil, Vmemory_signal_data)`:
the handler receives the list `Vmemory_signal_data` itself, whose car is the
error symbol and whose cdr is the data. -/
def memory_full {α : Type} (p : Platform) (w : World) : HostResult α :=
  HostResult.signal (XCAR p w w.Vmemory_signal_data) (XCDR p w w.Vmemory_signal_data) w

/-- The result of an allocating call as the caller sees it: the object, or
the non-local exit of `memory_full`. -/
def or_memory_full {α : Type} (p : Platform) (r : Option α × World) : HostResult α :=
  match r with
  | (some a, w) => HostResult.value a w
  | (none, w) => memory_full p w

/-- Sequencing of host calls: a non-local exit skips what follows. -/
def HostResult.bind {α β : Type} (r : HostResult α) (f : α → World → HostResult β) :
    HostResult β :=
  match r with
  | HostResult.value a w => f a w
  | HostResult.signal sym data w => HostResult.signal sym data w
  | HostResult.throw tag val w => HostResult.throw tag val w

/-- The world a host call leaves. -/
def HostResult.world {α : Type} : HostResult α → World
  | HostResult.value _ w => w
  | HostResult.signal _ _ w => w
  | HostResult.throw _ _ w => w

/-- The function `module_non_local_exit_check`. -/
def module_non_local_exit_check (env : emacs_env_private) : emacs_funcall_exit :=
  env.pending_non_local_exit

/-- The function `module_non_local_exit_clear`. -/
def module_non_local_exit_clear (env : emacs_env_private) : emacs_env_private :=
  { env with pending_non_local_exit := emacs_funcall_exit_return }

/-- The function `module_non_local_exit_signal_1`. -/
def module_non_local_exit_signal_1 (env : emacs_env_private) (sym data : Nat) :
    emacs_env_private :=
  if env.pending_non_local_exit = emacs_funcall_exit_return then
    { pending_non_local_exit := emacs_funcall_exit_signal
      non_local_exit_symbol := sym
      non_local_exit_data := data }
  else env

/-- The function `module_non_local_exit_throw_1`. -/
def module_non_local_exit_throw_1 (env : emacs_env_private) (tag value : Nat) :
    emacs_env_private :=
  if env.pending_non_local_exit = emacs_funcall_exit_return then
    { pending_non_local_exit := emacs_funcall_exit_throw
      non_local_exit_symbol := tag
      non_local_exit_data := value }
  else env

/-- The function `module_handle_signal`; `err` is the pair `(SYMBOL . DATA)`
the handler received, kept as its car and its cdr. -/
def module_handle_signal (env : emacs_env_private) (err : Nat × Nat) : emacs_env_private :=
  module_non_local_exit_signal_1 env err.1 err.2

/-- The function `module_handle_throw`; `tag_val` is the pair `(TAG . VALUE)`
the handler received, kept as its car and its cdr. -/
def module_handle_throw (env : emacs_env_private) (tag_val : Nat × Nat) : emacs_env_private :=
  module_non_local_exit_throw_1 env tag_val.1 tag_val.2

/-- The function `module_out_of_memory`. -/
def module_out_of_memory (p : Platform) (env : emacs_env_private) (w : World) :
    emacs_env_private :=
  module_non_local_exit_signal_1 env (XCAR p w w.Vmemory_signal_data)
    (XCDR p w w.Vmemory_signal_data)

/-- The function `push_handler_nosignal` of eval.c: push a handler of the given
type, or fail when there is no memory for it. -/
def push_handler_nosignal (w : World) (type : handlertype) : Option World :=
  if w.handlerlist.length < w.handler_limit then
    some { w with handlerlist := type :: w.handlerlist }
  else none

/-- The function `module_reset_handlerlist`: `handlerlist = handlerlist->next`. -/
def module_reset_handlerlist (w : World) : World :=
  { w with handlerlist := w.handlerlist.tail }

/-- The macro `MODULE_HANDLE_NONLOCAL_EXIT (retval)` around the rest of the
function, `body`: two `MODULE_SETJMP_1`, the first for `CONDITION_CASE` with
`module_handle_signal`, the second for `CATCHER_ALL` with
`module_handle_throw`.  Each checks the pending exit, pushes its handler
(recording out-of-memory when that fails) and arms the cleanup that pops it
when the function returns.  A signal in `body` unwinds to the first handler,
a throw to the second (`unwind_to_catch` makes the catching handler the head
of `handlerlist`); the handler function records the exit and the function
returns `retval`. -/
def MODULE_HANDLE_NONLOCAL_EXIT {α : Type} (p : Platform) (retval : α)
    (env : emacs_env_private) (w : World)
    (body : World → emacs_env_private × HostResult α) : Result α :=
  if module_non_local_exit_check env ≠ emacs_funcall_exit_return then ⟨retval, env, w⟩
  else
    match push_handler_nosignal w handlertype.CONDITION_CASE with
    | none => ⟨retval, module_out_of_memory p env w, w⟩
    | some w1 =>
      if module_non_local_exit_check env ≠ emacs_funcall_exit_return then
        ⟨retval, env, module_reset_handlerlist w1⟩
      else
        match push_handler_nosignal w1 handlertype.CATCHER_ALL with
        | none => ⟨retval, module_out_of_memory p env w1, module_reset_handlerlist w1⟩
        | some w2 =>
          match body w2 with
          | (env1, HostResult.value a w3) =>
            ⟨a, env1, module_reset_handlerlist (module_reset_handlerlist w3)⟩
          | (env1, HostResult.signal sym data w3) =>
            ⟨retval, module_handle_signal env1 (sym, data),
              module_reset_handlerlist { w3 with handlerlist := w1.handlerlist }⟩
          | (env1, HostResult.throw tag val w3) =>
            ⟨retval, module_handle_throw env1 (tag, val),
              module_reset_handlerlist
                (module_reset_handlerlist { w3 with handlerlist := w2.handlerlist })⟩

/-- The macro `MODULE_FUNCTION_BEGIN (error_retval)` around the rest of the
function: `check_main_thread` (an assertion, nothing in a release build), the
check of the pending exit, then `MODULE_HANDLE_NONLOCAL_EXIT`. -/
def MODULE_FUNCTION_BEGIN {α : Type} (p : Platform) (error_retval : α)
    (env : emacs_env_private) (w : World)
    (body : World → emacs_env_private × HostResult α) : Result α :=
  if module_non_local_exit_check env ≠ emacs_funcall_exit_return then ⟨error_retval, env, w⟩
  else MODULE_HANDLE_NONLOCAL_EXIT p error_retval env w body

/-! ## The global reference table -/

/-- The function `hash_lookup` of fns.c on the entries of the table, compared
with `EQ`: the index of the entry for `key`, or none (`-1` in C). -/
def hash_lookup : List (Nat × Nat) → Nat → Option Nat
  | [], _ => none
  | e :: rest, key => if EQ e.1 key then some 0 else (hash_lookup rest key).map (· + 1)

/-- The macro `HASH_VALUE` of lisp.h: the value of entry `i`. -/
def HASH_VALUE (h : List (Nat × Nat)) (i : Nat) : Nat := (h.getD i (0, 0)).2

/-- The function `set_hash_value_slot` of lisp.h: store `val` as the value of
entry `i`. -/
def set_hash_value_slot : List (Nat × Nat) → Nat → Nat → List (Nat × Nat)
  | [], _, _ => []
  | e :: rest, 0, val => (e.1, val) :: rest
  | e :: rest, i + 1, val => e :: set_hash_value_slot rest i val

/-- The function `hash_put` of fns.c: add an entry for a key that
`hash_lookup` did not find. -/
def hash_put (h : List (Nat × Nat)) (key value : Nat) : List (Nat × Nat) :=
  h ++ [(key, value)]

/-- The function `hash_remove_from_table` of fns.c: remove the entry whose key
is `EQ` to `key`, if there is one. -/
def hash_remove_from_table : List (Nat × Nat) → Nat → List (Nat × Nat)
  | [], _ => []
  | e :: rest, key => if EQ key e.1 then rest else e :: hash_remove_from_table rest key

/-- The last statement of most environment functions,
`return lisp_to_value (o);`: the handle, or the non-local exit when memory is
exhausted. -/
def return_lisp_to_value (p : Platform) (env : emacs_env_private) (w : World) (o : Nat) :
    emacs_env_private × HostResult Nat :=
  (env, or_memory_full p (lisp_to_value p w o))

/-- The function `module_make_global_ref`. -/
def module_make_global_ref (p : Platform) (host : Host) (env : emacs_env_private)
    (w : World) (ref : Nat) : Result Nat :=
  MODULE_FUNCTION_BEGIN p module_nil env w fun w =>
    let h := w.Vmodule_refs_hash
    let new_obj := value_to_lisp p w ref
    match hash_lookup h new_obj with
    | some i =>
      let value := HASH_VALUE h i
      let refcount := XFASTINT p value + 1
      if refcount > MOST_POSITIVE_FIXNUM p then
        (module_non_local_exit_signal_1 env host.Qoverflow_error Qnil,
          HostResult.value module_nil w)
      else
        let value := make_natnum p refcount
        return_lisp_to_value p env
          { w with Vmodule_refs_hash := set_hash_value_slot h i value } new_obj
    | none =>
      return_lisp_to_value p env
        { w with Vmodule_refs_hash := hash_put h new_obj (make_natnum p 1) } new_obj

/-- The function `module_free_global_ref`. -/
def module_free_global_ref (p : Platform) (env : emacs_env_private) (w : World)
    (ref : Nat) : Result Unit :=
  MODULE_FUNCTION_BEGIN p () env w fun w =>
    let h := w.Vmodule_refs_hash
    let obj := value_to_lisp p w ref
    match hash_lookup h obj with
    | some i =>
      let value := HASH_VALUE h i
      let refcount := XFASTINT p value - 1
      if refcount > 0 then
        let value := make_natnum p refcount
        (env, HostResult.value ()
          { w with Vmodule_refs_hash := set_hash_value_slot h i value })
      else
        (env, HostResult.value ()
          { w with Vmodule_refs_hash := hash_remove_from_table h value })
    | none => (env, HostResult.value () w)

/-! ## Host objects the environment functions look into -/

/-- The constant `Lisp_Misc_Save_Value` of `enum Lisp_Misc_Type`. -/
def Lisp_Misc_Save_Value : Nat := 0x5eae

/-- The constant `Lisp_Misc_User_Ptr` of `enum Lisp_Misc_Type`. -/
def Lisp_Misc_User_Ptr : Nat := 0x5eb0

/-- The constant `SAVE_POINTER` of `enum Lisp_Save_Type`. -/
def SAVE_POINTER : Nat := 3

/-- The constant `STRING_BYTES_BOUND` of lisp.h,
`min (MOST_POSITIVE_FIXNUM, min (SIZE_MAX, PTRDIFF_MAX) - 1)`. -/
def STRING_BYTES_BOUND (p : Platform) : Int :=
  min (MOST_POSITIVE_FIXNUM p) (min (2 ^ p.ptrBits - 1) (PTRDIFF_MAX p) - 1)

/-- The macro `MISCP` of lisp.h. -/
def MISCP (p : Platform) (x : Nat) : Bool := XTYPE p x == Lisp_Misc

/-- The macro `XMISCTYPE` of lisp.h. -/
def XMISCTYPE (p : Platform) (w : World) (x : Nat) : Nat := w.misc_type (XUNTAG p x Lisp_Misc)

/-- The function `USER_PTRP` of lisp.h. -/
def USER_PTRP (p : Platform) (w : World) (x : Nat) : Bool :=
  MISCP p x && XMISCTYPE p w x == Lisp_Misc_User_Ptr

/-- The function `SAVE_VALUEP` of lisp.h. -/
def SAVE_VALUEP (p : Platform) (w : World) (x : Nat) : Bool :=
  MISCP p x && XMISCTYPE p w x == Lisp_Misc_Save_Value

/-- The macro `FLOATP` of lisp.h. -/
def FLOATP (p : Platform) (x : Nat) : Bool := XTYPE p x == Lisp_Float

/-- The function `XFLOAT_DATA` of lisp.h. -/
def XFLOAT_DATA (p : Platform) (w : World) (x : Nat) : Nat := w.float_data (XUNTAG p x Lisp_Float)

/-- The macro `STRINGP` of lisp.h. -/
def STRINGP (p : Platform) (x : Nat) : Bool := XTYPE p x == Lisp_String

/-- The function `SBYTES` of lisp.h: the number of bytes of the string. -/
def SBYTES (p : Platform) (w : World) (x : Nat) : Int :=
  ((w.string_data (XUNTAG p x Lisp_String)).length : Int)

/-- The function `SDATA` of lisp.h: the bytes of the string and the
terminating zero that follows them. -/
def SDATA (p : Platform) (w : World) (x : Nat) : List Nat :=
  w.string_data (XUNTAG p x Lisp_String) ++ [0]

/-- The macro `VECTORP` of lisp.h: a vectorlike object whose size does not
carry `PSEUDOVECTOR_FLAG`. -/
def VECTORP (p : Platform) (w : World) (x : Nat) : Bool :=
  XTYPE p x == Lisp_Vectorlike && !w.pseudovector (XUNTAG p x Lisp_Vectorlike)

/-- The function `ASIZE` of lisp.h. -/
def ASIZE (p : Platform) (w : World) (x : Nat) : Int :=
  ((w.contents (XUNTAG p x Lisp_Vectorlike)).length : Int)

/-- The function `AREF` of lisp.h. -/
def AREF (p : Platform) (w : World) (x : Nat) (i : Int) : Nat :=
  (w.contents (XUNTAG p x Lisp_Vectorlike)).getD i.toNat Qnil

/-- The function `ASET` of lisp.h. -/
def ASET (p : Platform) (w : World) (x : Nat) (i : Int) (val : Nat) : World :=
  { w with contents := fun a =>
      if a = XUNTAG p x Lisp_Vectorlike then (w.contents a).set i.toNat val else w.contents a }

/-- The allocator, for an object that is not a cons: the next free address,
or none when memory is exhausted. -/
def allocate (w : World) : Option Nat × World :=
  match w.free with
  | [] => (none, w)
  | addr :: rest => (some addr, { w with free := rest })

/-- The function `list2` of alloc.c, `Fcons (a, Fcons (b, Qnil))`. -/
def list2 (p : Platform) (w : World) (a b : Nat) : Option Nat × World :=
  match Fcons p w b Qnil with
  | (none, w1) => (none, w1)
  | (some tl, w1) => Fcons p w1 a tl

/-- The function `list4` of lisp.h,
`Fcons (a, Fcons (b, Fcons (c, Fcons (d, Qnil))))`. -/
def list4 (p : Platform) (w : World) (a b c d : Nat) : Option Nat × World :=
  match list2 p w c d with
  | (none, w1) => (none, w1)
  | (some tl, w1) =>
    match Fcons p w1 b tl with
    | (none, w2) => (none, w2)
    | (some tl2, w2) => Fcons p w2 a tl2

/-- The function `make_float` of alloc.c. -/
def make_float (p : Platform) (w : World) (d : Nat) : Option Nat × World :=
  match allocate w with
  | (none, w1) => (none, w1)
  | (some addr, w1) =>
    (some (make_lisp_ptr p addr Lisp_Float),
      { w1 with float_data := fun a => if a = addr then d else w1.float_data a })

/-- The function `make_unibyte_string` of alloc.c. -/
def make_unibyte_string (p : Platform) (w : World) (contents : List Nat) (length : Int) :
    Option Nat × World :=
  match allocate w with
  | (none, w1) => (none, w1)
  | (some addr, w1) =>
    (some (make_lisp_ptr p addr Lisp_String),
      { w1 with string_data := fun a =>
          if a = addr then contents.take length.toNat else w1.string_data a })

/-- The function `make_user_ptr` of alloc.c. -/
def make_user_ptr (p : Platform) (w : World) (finalizer ptr : Nat) : Option Nat × World :=
  match allocate w with
  | (none, w1) => (none, w1)
  | (some addr, w1) =>
    (some (make_lisp_ptr p addr Lisp_Misc),
      { w1 with
        misc_type := fun a => if a = addr then Lisp_Misc_User_Ptr else w1.misc_type a
        user_ptr_finalizer := fun a => if a = addr then finalizer else w1.user_ptr_finalizer a
        user_ptr_p := fun a => if a = addr then ptr else w1.user_ptr_p a })

/-- The function `make_save_ptr` of alloc.c: a save value whose slot 0 is the
pointer. -/
def make_save_ptr (p : Platform) (w : World) (ptr : Nat) : Option Nat × World :=
  match allocate w with
  | (none, w1) => (none, w1)
  | (some addr, w1) =>
    (some (make_lisp_ptr p addr Lisp_Misc),
      { w1 with
        misc_type := fun a => if a = addr then Lisp_Misc_Save_Value else w1.misc_type a
        save_type := fun a => if a = addr then SAVE_POINTER else w1.save_type a
        save_pointer := fun a => if a = addr then ptr else w1.save_pointer a })

/-- The function `xsignal2` of eval.c, `xsignal (sym, list2 (a, b))`. -/
def xsignal2 {α : Type} (p : Platform) (w : World) (sym a b : Nat) : HostResult α :=
  match list2 p w a b with
  | (none, w1) => memory_full p w1
  | (some data, w1) => HostResult.signal sym data w1

/-! ## The environment functions -/

/-- The function `module_wrong_type`; building the list can exhaust memory. -/
def module_wrong_type (p : Platform) (host : Host) (env : emacs_env_private) (w : World)
    (predicate value : Nat) : emacs_env_private × HostResult Unit :=
  match list2 p w predicate value with
  | (none, w1) => (env, memory_full p w1)
  | (some data, w1) =>
    (module_non_local_exit_signal_1 env host.Qwrong_type_argument data, HostResult.value () w1)

/-- The function `module_args_out_of_range`; building the list can exhaust
memory. -/
def module_args_out_of_range (p : Platform) (host : Host) (env : emacs_env_private) (w : World)
    (a1 a2 : Nat) : emacs_env_private × HostResult Unit :=
  match list2 p w a1 a2 with
  | (none, w1) => (env, memory_full p w1)
  | (some data, w1) =>
    (module_non_local_exit_signal_1 env host.Qargs_out_of_range data, HostResult.value () w1)

/-- After a call that only records an error: `return retval;`. -/
def and_return {α : Type} (r : emacs_env_private × HostResult Unit) (retval : α) :
    emacs_env_private × HostResult α :=
  (r.1, r.2.bind fun _ w => HostResult.value retval w)

/-- The function `module_non_local_exit_get`: the kind of the pending exit and
what it stores through `sym` and `data` (nothing when no exit is pending).
The two `lisp_to_value` run outside any handler. -/
def module_non_local_exit_get (p : Platform) (env : emacs_env_private) (w : World) :
    HostResult (emacs_funcall_exit × Option Nat × Option Nat) :=
  if env.pending_non_local_exit ≠ emacs_funcall_exit_return then
    (or_memory_full p (lisp_to_value p w env.non_local_exit_symbol)).bind fun sym w1 =>
      (or_memory_full p (lisp_to_value p w1 env.non_local_exit_data)).bind fun data w2 =>
        HostResult.value (env.pending_non_local_exit, some sym, some data) w2
  else HostResult.value (env.pending_non_local_exit, none, none) w

/-- The function `module_non_local_exit_signal`. -/
def module_non_local_exit_signal (p : Platform) (env : emacs_env_private) (w : World)
    (sym data : Nat) : Result Unit :=
  if module_non_local_exit_check env = emacs_funcall_exit_return then
    ⟨(), module_non_local_exit_signal_1 env (value_to_lisp p w sym) (value_to_lisp p w data), w⟩
  else ⟨(), env, w⟩

/-- The function `module_non_local_exit_throw`. -/
def module_non_local_exit_throw (p : Platform) (env : emacs_env_private) (w : World)
    (tag value : Nat) : Result Unit :=
  if module_non_local_exit_check env = emacs_funcall_exit_return then
    ⟨(), module_non_local_exit_throw_1 env (value_to_lisp p w tag) (value_to_lisp p w value), w⟩
  else ⟨(), env, w⟩

/-- The function `module_funcall`. -/
def module_funcall (p : Platform) (host : Host) (env : emacs_env_private) (w : World)
    (fn : Nat) (nargs : Int) (args : List Nat) : Result Nat :=
  MODULE_FUNCTION_BEGIN p module_nil env w fun w =>
    let newargs := value_to_lisp p w fn :: (args.take nargs.toNat).map (value_to_lisp p w)
    (env, (host.Ffuncall w newargs).bind fun o w1 => or_memory_full p (lisp_to_value p w1 o))

/-- The function `module_intern`. -/
def module_intern (p : Platform) (host : Host) (env : emacs_env_private) (w : World)
    (name : List Nat) : Result Nat :=
  MODULE_FUNCTION_BEGIN p module_nil env w fun w =>
    (env, (host.intern w name).bind fun o w1 => or_memory_full p (lisp_to_value p w1 o))

/-- The function `module_type_of`. -/
def module_type_of (p : Platform) (host : Host) (env : emacs_env_private) (w : World)
    (value : Nat) : Result Nat :=
  MODULE_FUNCTION_BEGIN p module_nil env w fun w =>
    return_lisp_to_value p env w (host.Ftype_of w (value_to_lisp p w value))

/-- The function `module_is_not_nil`. -/
def module_is_not_nil (p : Platform) (env : emacs_env_private) (w : World) (value : Nat) :
    Result Bool :=
  if module_non_local_exit_check env ≠ emacs_funcall_exit_return then ⟨false, env, w⟩
  else ⟨!NILP (value_to_lisp p w value), env, w⟩

/-- The function `module_eq`. -/
def module_eq (p : Platform) (env : emacs_env_private) (w : World) (a b : Nat) : Result Bool :=
  if module_non_local_exit_check env ≠ emacs_funcall_exit_return then ⟨false, env, w⟩
  else ⟨EQ (value_to_lisp p w a) (value_to_lisp p w b), env, w⟩

/-- The function `module_extract_integer`. -/
def module_extract_integer (p : Platform) (host : Host) (env : emacs_env_private) (w : World)
    (n : Nat) : Result Int :=
  MODULE_FUNCTION_BEGIN p 0 env w fun w =>
    let l := value_to_lisp p w n
    if !INTEGERP p l then and_return (module_wrong_type p host env w host.Qintegerp l) 0
    else (env, HostResult.value (XINT p l) w)

/-- The function `module_make_integer`. -/
def module_make_integer (p : Platform) (host : Host) (env : emacs_env_private) (w : World)
    (n : Int) : Result Nat :=
  MODULE_FUNCTION_BEGIN p module_nil env w fun w =>
    if ¬ (MOST_NEGATIVE_FIXNUM p ≤ n ∧ n ≤ MOST_POSITIVE_FIXNUM p) then
      (module_non_local_exit_signal_1 env host.Qoverflow_error Qnil,
        HostResult.value module_nil w)
    else return_lisp_to_value p env w (make_number p n)

/-- The function `module_extract_float`; a double is kept as its bits. -/
def module_extract_float (p : Platform) (host : Host) (env : emacs_env_private) (w : World)
    (f : Nat) : Result Nat :=
  MODULE_FUNCTION_BEGIN p 0 env w fun w =>
    let lisp := value_to_lisp p w f
    if !FLOATP p lisp then and_return (module_wrong_type p host env w host.Qfloatp lisp) 0
    else (env, HostResult.value (XFLOAT_DATA p w lisp) w)

/-- The function `module_make_float`; a double is kept as its bits. -/
def module_make_float (p : Platform) (env : emacs_env_private) (w : World) (d : Nat) :
    Result Nat :=
  MODULE_FUNCTION_BEGIN p module_nil env w fun w =>
    (env, (or_memory_full p (make_float p w d)).bind fun o w1 =>
      or_memory_full p (lisp_to_value p w1 o))

/-- What `module_copy_string_contents` returns and what it leaves in the
caller's `buffer` (none for a null pointer) and in `*length`. -/
structure copy_string_result where
  ok : Bool
  buffer : Option (List Nat)
  length : Int

/-- The function `module_copy_string_contents`. -/
def module_copy_string_contents (p : Platform) (host : Host) (env : emacs_env_private)
    (w : World) (value : Nat) (buffer : Option (List Nat)) (length : Int) :
    Result copy_string_result :=
  MODULE_FUNCTION_BEGIN p ⟨false, buffer, length⟩ env w fun w =>
    let lisp_str := value_to_lisp p w value
    if !STRINGP p lisp_str then
      and_return (module_wrong_type p host env w host.Qstringp lisp_str) ⟨false, buffer, length⟩
    else
      match host.code_convert_string_norecord w lisp_str host.Qutf_8 true with
      | HostResult.signal sym data w1 => (env, HostResult.signal sym data w1)
      | HostResult.throw tag val w1 => (env, HostResult.throw tag val w1)
      | HostResult.value lisp_str_utf8 w1 =>
        let raw_size := SBYTES p w1 lisp_str_utf8
        if raw_size = PTRDIFF_MAX p then
          (module_non_local_exit_signal_1 env host.Qoverflow_error Qnil,
            HostResult.value ⟨false, buffer, length⟩ w1)
        else
          let required_buf_size := raw_size + 1
          match buffer with
          | none => (env, HostResult.value ⟨true, none, required_buf_size⟩ w1)
          | some bytes =>
            if length < required_buf_size then
              (module_non_local_exit_signal_1 env host.Qargs_out_of_range Qnil,
                HostResult.value ⟨false, some bytes, required_buf_size⟩ w1)
            else
              (env, HostResult.value
                ⟨true, some (SDATA p w1 lisp_str_utf8 ++ bytes.drop (raw_size + 1).toNat),
                  required_buf_size⟩ w1)

/-- The function `module_make_string`. -/
def module_make_string (p : Platform) (host : Host) (env : emacs_env_private) (w : World)
    (str : List Nat) (length : Int) : Result Nat :=
  MODULE_FUNCTION_BEGIN p module_nil env w fun w =>
    if length > STRING_BYTES_BOUND p then
      (module_non_local_exit_signal_1 env host.Qoverflow_error Qnil,
        HostResult.value module_nil w)
    else
      (env, (or_memory_full p (make_unibyte_string p w str length)).bind fun lstr w1 =>
        (host.code_convert_string_norecord w1 lstr host.Qutf_8 false).bind fun o w2 =>
          or_memory_full p (lisp_to_value p w2 o))

/-- The function `module_make_user_ptr`. -/
def module_make_user_ptr (p : Platform) (env : emacs_env_private) (w : World)
    (fin ptr : Nat) : Result Nat :=
  MODULE_FUNCTION_BEGIN p module_nil env w fun w =>
    (env, (or_memory_full p (make_user_ptr p w fin ptr)).bind fun o w1 =>
      or_memory_full p (lisp_to_value p w1 o))

/-- The function `module_get_user_ptr`; `NULL` is 0. -/
def module_get_user_ptr (p : Platform) (host : Host) (env : emacs_env_private) (w : World)
    (uptr : Nat) : Result Nat :=
  MODULE_FUNCTION_BEGIN p 0 env w fun w =>
    let lisp := value_to_lisp p w uptr
    if !USER_PTRP p w lisp then and_return (module_wrong_type p host env w host.Quser_ptr lisp) 0
    else (env, HostResult.value (w.user_ptr_p (XUNTAG p lisp Lisp_Misc)) w)

/-- The function `module_set_user_ptr`: after `MODULE_FUNCTION_BEGIN` it
checks the pending exit once more; a value that is not a user pointer is
reported, and the store `XUSER_PTR (lisp)->p = ptr` follows in either case. -/
def module_set_user_ptr (p : Platform) (host : Host) (env : emacs_env_private) (w : World)
    (uptr ptr : Nat) : Result Unit :=
  MODULE_FUNCTION_BEGIN p () env w fun w =>
    if module_non_local_exit_check env ≠ emacs_funcall_exit_return then
      (env, HostResult.value () w)
    else
      let lisp := value_to_lisp p w uptr
      let r :=
        if !USER_PTRP p w lisp then module_wrong_type p host env w host.Quser_ptr lisp
        else (env, HostResult.value () w)
      (r.1, r.2.bind fun _ w1 =>
        HostResult.value ()
          { w1 with user_ptr_p := fun a =>
              if a = XUNTAG p lisp Lisp_Misc then ptr else w1.user_ptr_p a })

/-- The function `module_get_user_finalizer`; `NULL` is 0. -/
def module_get_user_finalizer (p : Platform) (host : Host) (env : emacs_env_private)
    (w : World) (uptr : Nat) : Result Nat :=
  MODULE_FUNCTION_BEGIN p 0 env w fun w =>
    let lisp := value_to_lisp p w uptr
    if !USER_PTRP p w lisp then and_return (module_wrong_type p host env w host.Quser_ptr lisp) 0
    else (env, HostResult.value (w.user_ptr_finalizer (XUNTAG p lisp Lisp_Misc)) w)

/-- The function `module_set_user_finalizer`: a value that is not a user
pointer is reported, and the store `XUSER_PTR (lisp)->finalizer = fin` follows
in either case. -/
def module_set_user_finalizer (p : Platform) (host : Host) (env : emacs_env_private)
    (w : World) (uptr fin : Nat) : Result Unit :=
  MODULE_FUNCTION_BEGIN p () env w fun w =>
    let lisp := value_to_lisp p w uptr
    let r :=
      if !USER_PTRP p w lisp then module_wrong_type p host env w host.Quser_ptr lisp
      else (env, HostResult.value () w)
    (r.1, r.2.bind fun _ w1 =>
      HostResult.value ()
        { w1 with user_ptr_finalizer := fun a =>
            if a = XUNTAG p lisp Lisp_Misc then fin else w1.user_ptr_finalizer a })

/-- The function `module_vec_set`. -/
def module_vec_set (p : Platform) (host : Host) (env : emacs_env_private) (w : World)
    (vec : Nat) (i : Int) (val : Nat) : Result Unit :=
  MODULE_FUNCTION_BEGIN p () env w fun w =>
    let lvec := value_to_lisp p w vec
    if !VECTORP p w lvec then module_wrong_type p host env w host.Qvectorp lvec
    else if ¬ (0 ≤ i ∧ i < ASIZE p w lvec) then
      if MOST_NEGATIVE_FIXNUM p ≤ i ∧ i ≤ MOST_POSITIVE_FIXNUM p then
        module_args_out_of_range p host env w lvec (make_number p i)
      else
        (module_non_local_exit_signal_1 env host.Qoverflow_error Qnil, HostResult.value () w)
    else (env, HostResult.value () (ASET p w lvec i (value_to_lisp p w val)))

/-- The function `module_vec_get`. -/
def module_vec_get (p : Platform) (host : Host) (env : emacs_env_private) (w : World)
    (vec : Nat) (i : Int) : Result Nat :=
  MODULE_FUNCTION_BEGIN p module_nil env w fun w =>
    let lvec := value_to_lisp p w vec
    if !VECTORP p w lvec then
      and_return (module_wrong_type p host env w host.Qvectorp lvec) module_nil
    else if ¬ (0 ≤ i ∧ i < ASIZE p w lvec) then
      if MOST_NEGATIVE_FIXNUM p ≤ i ∧ i ≤ MOST_POSITIVE_FIXNUM p then
        and_return (module_args_out_of_range p host env w lvec (make_number p i)) module_nil
      else
        (module_non_local_exit_signal_1 env host.Qoverflow_error Qnil,
          HostResult.value module_nil w)
    else return_lisp_to_value p env w (AREF p w lvec i)

/-- The function `module_vec_size`. -/
def module_vec_size (p : Platform) (host : Host) (env : emacs_env_private) (w : World)
    (vec : Nat) : Result Int :=
  MODULE_FUNCTION_BEGIN p 0 env w fun w =>
    let lvec := value_to_lisp p w vec
    if !VECTORP p w lvec then and_return (module_wrong_type p host env w host.Qvectorp lvec) 0
    else (env, HostResult.value (ASIZE p w lvec) w)

/-! ## Function environments, environment lifetime and invocation -/

/-- The function `module_make_function`; `documentation` is none for a null
pointer, `subr` and `data` are the foreign pointers. -/
def module_make_function (p : Platform) (host : Host) (env : emacs_env_private) (w : World)
    (min_arity max_arity : Int) (subr : Nat) (documentation : Option (List Nat)) (data : Nat) :
    Result Nat :=
  MODULE_FUNCTION_BEGIN p module_nil env w fun w =>
    if ¬ (0 ≤ min_arity ∧
        (if max_arity < 0 then max_arity = emacs_variadic_function
         else min_arity ≤ max_arity)) then
      (env, xsignal2 p w host.Qinvalid_arity (make_number p min_arity) (make_number p max_arity))
    else
      (env, (or_memory_full p (allocate w)).bind fun envptr w1 =>
        let w2 : World :=
          { w1 with fun_envs := fun a =>
              if a = envptr then ⟨min_arity, max_arity, subr, data⟩ else w1.fun_envs a }
        (or_memory_full p (make_save_ptr p w2 envptr)).bind fun envobj w3 =>
          (match documentation with
            | some bytes =>
              (or_memory_full p (make_unibyte_string p w3 bytes bytes.length)).bind fun s w4 =>
                host.code_convert_string_norecord w4 s host.Qutf_8 false
            | none => HostResult.value Qnil w3).bind fun doc w5 =>
          (or_memory_full p (list2 p w5 host.Qand_rest host.Qargs)).bind fun arglist w6 =>
          (or_memory_full p (list2 p w6 host.Qfunction host.Qinternal_module_call)).bind
            fun fn w7 =>
          (or_memory_full p (list4 p w7 host.Qapply fn envobj host.Qargs)).bind fun body w8 =>
          (or_memory_full p (list4 p w8 host.Qlambda arglist doc body)).bind fun ret w9 =>
          or_memory_full p (lisp_to_value p w9 ret))

/-- The function `module_format_fun_env`. -/
def module_format_fun_env (p : Platform) (host : Host) (w : World) (env : module_fun_env) :
    HostResult Nat :=
  let buffer :=
    match host.dynlib_addr env.subr with
    | some (path, sym) => host.exprintf_addr sym path
    | none => host.sprintf_noaddr env.subr
  let size : Int := buffer.length
  (or_memory_full p (make_unibyte_string p w buffer size)).bind fun unibyte_result w1 =>
    host.code_convert_string_norecord w1 unibyte_result host.Qutf_8 false

/-- The function `initialize_environment`, for the environment at address
`env` whose private part `priv` holds whatever the stack held: the pending
exit is reset, the function pointers of the table are stored (they are the
functions above), and the environment is pushed on `Vmodule_environments`. -/
def initialize_environment (p : Platform) (w : World) (env : Nat) (priv : emacs_env_private) :
    emacs_env_private × HostResult Unit :=
  let priv1 := { priv with pending_non_local_exit := emacs_funcall_exit_return }
  (priv1, (or_memory_full p (make_save_ptr p w env)).bind fun obj w1 =>
    (or_memory_full p (Fcons p w1 obj w1.Vmodule_environments)).bind fun l w2 =>
      HostResult.value () { w2 with Vmodule_environments := l })

/-- The function `finalize_environment`. -/
def finalize_environment (p : Platform) (w : World) : World :=
  { w with Vmodule_environments := XCDR p w w.Vmodule_environments }

/-- The loop of `Finternal_module_call` that encodes the arguments,
`args[i] = lisp_to_value (arglist[i + 1])`. -/
def lisp_to_value_args (p : Platform) : World → List Nat → Option (List Nat) × World
  | w, [] => (some [], w)
  | w, o :: rest =>
    match lisp_to_value p w o with
    | (none, w1) => (none, w1)
    | (some v, w1) =>
      match lisp_to_value_args p w1 rest with
      | (none, w2) => (none, w2)
      | (some vs, w2) => (some (v :: vs), w2)

/-- The function `wrong_type_argument` of data.c. -/
def wrong_type_argument {α : Type} (p : Platform) (host : Host) (w : World)
    (predicate value : Nat) : HostResult α :=
  xsignal2 p w host.Qwrong_type_argument predicate value

/-- The subroutine `internal--module-call`, `Finternal_module_call`.
`arglist` is the argument array, `nargs` its length; `pub` is the address of
the local environment and `priv` what the stack holds where its private part
is.  `Fthrow` is the host-level throw. -/
def Finternal_module_call (p : Platform) (host : Host) (w : World) (arglist : List Nat)
    (pub : Nat) (priv : emacs_env_private) : HostResult Nat :=
  let nargs : Int := arglist.length
  let envobj := arglist.getD 0 Qnil
  if !SAVE_VALUEP p w envobj then wrong_type_argument p host w host.Qsave_value_p envobj
  else if !(w.save_type (XUNTAG p envobj Lisp_Misc) == SAVE_POINTER) then
    wrong_type_argument p host w host.Qsave_pointer_p envobj
  else
    let envptr := w.fun_envs (w.save_pointer (XUNTAG p envobj Lisp_Misc))
    let len : Int := nargs - 1
    if ¬ (envptr.min_arity ≤ len ∧
        len ≤ (if envptr.max_arity < 0 then PTRDIFF_MAX p else envptr.max_arity)) then
      (module_format_fun_env p host w envptr).bind fun f w1 =>
        xsignal2 p w1 host.Qwrong_number_of_arguments f (make_number p len)
    else
      match initialize_environment p w pub priv with
      | (_, HostResult.signal sym data w1) => HostResult.signal sym data w1
      | (_, HostResult.throw tag val w1) => HostResult.throw tag val w1
      | (priv1, HostResult.value _ w1) =>
        let encoded :=
          if plain_values p then (some (arglist.drop 1), w1)
          else lisp_to_value_args p w1 ((arglist.drop 1).take len.toNat)
        match encoded with
        | (none, w2) => memory_full p w2
        | (some args, w2) =>
          match host.subr envptr.subr priv1 w2 len args envptr.data with
          | (ret, priv2, w3) =>
            match priv2.pending_non_local_exit with
            | emacs_funcall_exit_return =>
              let w4 := finalize_environment p w3
              HostResult.value (value_to_lisp p w4 ret) w4
            | emacs_funcall_exit_signal =>
              let symbol := priv2.non_local_exit_symbol
              let data := priv2.non_local_exit_data
              let w4 := finalize_environment p w3
              HostResult.signal symbol data w4
            | emacs_funcall_exit_throw =>
              let tag := priv2.non_local_exit_symbol
              let value := priv2.non_local_exit_data
              let w4 := finalize_environment p w3
              HostResult.throw tag value w4

/-! ## Loading a module -/

/-- The facilities of dynlib.c and eval.c that `Fmodule_load` calls, the
object of the symbol it names, and the code of the modules on disk. -/
structure Dynlib where
  /-- The object of the symbol `module-load-failed`. -/
  Qmodule_load_failed : Nat
  /-- The function `dynlib_open` of dynlib.c, on the file name as a C string:
  the handle of the library, or none for a null pointer. -/
  dynlib_open : List Nat → Option Nat
  /-- The function `dynlib_sym` of dynlib.c. -/
  dynlib_sym : Nat → String → Option Nat
  /-- The function `dynlib_func` of dynlib.c. -/
  dynlib_func : Nat → String → Option Nat
  /-- The bytes of the message `dynlib_error ()` returns. -/
  dynlib_error : List Nat
  /-- The function `error` of eval.c, on the format and its string arguments:
  the symbol and the data of the error it signals, and the world it leaves. -/
  error : World → String → List (List Nat) → Nat × Nat × World
  /-- The initialization function behind a function pointer: called with the
  runtime, whose environment is at the given address, it returns an `int` and
  leaves the private part of the environment and the world as it made them. -/
  module_init : Nat → Nat → emacs_env_private → World → Int × emacs_env_private × World

/-- The function `xsignal0` of eval.c, `xsignal (error_symbol, Qnil)`. -/
def xsignal0 {α : Type} (w : World) (error_symbol : Nat) : HostResult α :=
  HostResult.signal error_symbol Qnil w

/-- The function `error` of eval.c, which does not return. -/
def error {α : Type} (lib : Dynlib) (w : World) (m : String) (args : List (List Nat)) :
    HostResult α :=
  HostResult.signal (lib.error w m args).1 (lib.error w m args).2.1 (lib.error w m args).2.2

/-- The function `SSDATA` of lisp.h: the bytes of `SDATA`, as `char`. -/
def SSDATA (p : Platform) (w : World) (x : Nat) : List Nat := SDATA p w x

/-- The subroutine `module-load`, `Fmodule_load`.  `pub` is the address of the
environment inside the local runtime `rt` and `priv` what the stack holds
where its private part is.  After `module_init` has returned, the private part
of the environment is not read again. -/
def Fmodule_load (p : Platform) (host : Host) (lib : Dynlib) (w : World) (file : Nat)
    (pub : Nat) (priv : emacs_env_private) : HostResult Nat :=
  if !STRINGP p file then wrong_type_argument p host w host.Qstringp file
  else
    match lib.dynlib_open (SSDATA p w file) with
    | none =>
      error lib w "Cannot load file %s: %s" [SDATA p w file, lib.dynlib_error]
    | some handle =>
      match lib.dynlib_sym handle "plugin_is_GPL_compatible" with
      | none => error lib w "Module %s is not GPL compatible" [SDATA p w file]
      | some _ =>
        match lib.dynlib_func handle "emacs_module_init" with
        | none =>
          error lib w "Module %s does not have an init function." [SDATA p w file]
        | some module_init =>
          match initialize_environment p w pub priv with
          | (_, HostResult.signal sym data w1) => HostResult.signal sym data w1
          | (_, HostResult.throw tag val w1) => HostResult.throw tag val w1
          | (priv1, HostResult.value _ w1) =>
            match lib.module_init module_init pub priv1 w1 with
            | (r, _, w2) =>
              let w3 := finalize_environment p w2
              if r ≠ 0 then
                if ¬ (MOST_NEGATIVE_FIXNUM p ≤ r ∧ r ≤ MOST_POSITIVE_FIXNUM p) then
                  xsignal0 w3 host.Qoverflow_error
                else xsignal2 p w3 lib.Qmodule_load_failed file (make_number p r)
              else HostResult.value host.Qt w3

/-! ## A concrete host -/

/-- A host whose facilities do nothing: calls return nil, conversions return
their argument, foreign functions return the nil handle at once.  Its symbols
are the words 8, 16, 24 and so on. -/
def Host.quiet : Host :=
  { Qt := 8, Qoverflow_error := 16, Qinvalid_arity := 24, Qwrong_number_of_arguments := 32,
    Qwrong_type_argument := 40, Qargs_out_of_range := 48, Qintegerp := 56, Qfloatp := 64,
    Qstringp := 72, Quser_ptr := 80, Qvectorp := 88, Qlambda := 96, Qand_rest := 104,
    Qargs := 112, Qapply := 120, Qfunction := 128, Qinternal_module_call := 136,
    Qutf_8 := 144, Qsave_value_p := 152, Qsave_pointer_p := 160,
    Ffuncall := fun w _ => HostResult.value Qnil w,
    intern := fun w _ => HostResult.value Qnil w,
    Ftype_of := fun _ _ => Qnil,
    code_convert_string_norecord := fun w s _ _ => HostResult.value s w,
    subr := fun _ env w _ _ _ => (module_nil, env, w),
    dynlib_addr := fun _ => none,
    sprintf_noaddr := fun _ => [],
    exprintf_addr := fun _ _ => [] }

/-- An environment with no exit pending. -/
def emacs_env_private.normal : emacs_env_private :=
  { pending_non_local_exit := emacs_funcall_exit_return
    non_local_exit_symbol := Qnil
    non_local_exit_data := Qnil }

/-- The reference count the table holds for `o`, if `o` has an entry. -/
def refcount (p : Platform) (w : World) (o : Nat) : Option Int :=
  (hash_lookup w.Vmodule_refs_hash o).map fun i => XFASTINT p (HASH_VALUE w.Vmodule_refs_hash i)

/-- The environment and the world after `n` calls of `module_make_global_ref`
on the handle `ref`, one after the other. -/
def make_global_refs (p : Platform) (host : Host) :
    Nat → emacs_env_private → World → Nat → emacs_env_private × World
  | 0, env, w, _ => (env, w)
  | n + 1, env, w, ref =>
    make_global_refs p host n (module_make_global_ref p host env w ref).env
      (module_make_global_ref p host env w ref).world ref

/-- The environment and the world after `n` calls of `module_free_global_ref`
on the handle `ref`, one after the other. -/
def free_global_refs (p : Platform) :
    Nat → emacs_env_private → World → Nat → emacs_env_private × World
  | 0, env, w, _ => (env, w)
  | n + 1, env, w, ref =>
    free_global_refs p n (module_free_global_ref p env w ref).env
      (module_free_global_ref p env w ref).world ref

/-- A host like `Host.quiet` whose foreign functions record the error
`(wrong-type-argument)` in the environment before they return. -/
def Host.failing : Host :=
  { Host.quiet with
    subr := fun _ env w _ _ _ =>
      (module_nil, module_non_local_exit_signal_1 env Host.quiet.Qwrong_type_argument Qnil, w) }

/-- A world with one module function: at address 8 a save value whose pointer
is 16, at 16 the function environment with the given arity bounds, function
pointer 77 and user data 5.  The addresses 24, 32, 40 and 48 are free. -/
def World.with_function (min_arity max_arity : Int) : World :=
  { World.start [24, 32, 40, 48] 806 [] with
    misc_type := fun a => if a = 8 then Lisp_Misc_Save_Value else 0
    save_type := fun a => if a = 8 then SAVE_POINTER else 0
    save_pointer := fun a => if a = 8 then 16 else 0
    fun_envs := fun a => if a = 16 then ⟨min_arity, max_arity, 77, 5⟩ else ⟨0, 0, 0, 0⟩ }

/-- The `n`-th cdr of a Lisp list, read in the world `w`. -/
def nthcdr (p : Platform) (w : World) : Nat → Nat → Nat
  | 0, l => l
  | n + 1, l => nthcdr p w n (XCDR p w l)

/-- The element `n` of a Lisp list, read in the world `w`. -/
def nth (p : Platform) (w : World) (n : Nat) (l : Nat) : Nat := XCAR p w (nthcdr p w n l)

/-- What the allocator must offer for an object to be built from `n` cells and
encoded without a container: `n` free addresses, all of them aligned. -/
def World.Roomy (w : World) (n : Nat) : Prop :=
  n ≤ w.free.length ∧ ∀ a ∈ w.free, a % GCALIGNMENT = 0

instance (w : World) (n : Nat) : Decidable (w.Roomy n) := by
  unfold World.Roomy; infer_instance

/-- A world with fifteen aligned free cells, at 8, 16, up to 120. -/
def World.roomy : World :=
  World.start [8, 16, 24, 32, 40, 48, 56, 64, 72, 80, 88, 96, 104, 112, 120] 806 []

/-- A world whose handler stack has room for one more handler only.  The cell
at 8 holds `Vmemory_signal_data`, the pair of the symbol 48 and nil. -/
def World.cramped : World :=
  { World.start [] 0 [] with
    car := fun a => if a = 8 then 48 else 0
    handler_limit := 1
    Vmemory_signal_data := make_lisp_ptr plain64 8 (Lisp_Cons plain64) }

/-- A world with one string, at address 8: the two bytes of `hi`.  Its object
on a 64-bit host is the word 12. -/
def World.with_string : World :=
  { World.start [] 0 [] with
    string_data := fun a => if a = 8 then [104, 105] else [] }

/-- A host like `Host.quiet` whose `Ffuncall` signals the error `(40 . 7)`. -/
def Host.raising : Host :=
  { Host.quiet with Ffuncall := fun w _ => HostResult.signal 40 7 w }

/-- A host like `Host.raising` whose foreign functions call `funcall` of their
environment on their first argument, with no arguments, and return what it
returned. -/
def Host.relay : Host :=
  { Host.raising with
    subr := fun _ env w _ args _ =>
      ((module_funcall plain64 Host.raising env w (args.getD 0 module_nil) 0 []).value,
        (module_funcall plain64 Host.raising env w (args.getD 0 module_nil) 0 []).env,
        (module_funcall plain64 Host.raising env w (args.getD 0 module_nil) 0 []).world) }

/-- A library that opens any file and finds every symbol; its initialization
function returns the status `r` and does nothing else. -/
def Dynlib.returning (r : Int) : Dynlib :=
  { Qmodule_load_failed := 168
    dynlib_open := fun _ => some 1
    dynlib_sym := fun _ _ => some 2
    dynlib_func := fun _ _ => some 3
    dynlib_error := []
    error := fun w _ _ => (176, Qnil, w)
    module_init := fun _ _ env w => (r, env, w) }

/-- A library like `Dynlib.returning 0` whose initialization function calls
`non_local_exit_signal` of its environment on the handles 40 and 0 before it
returns 0. -/
def Dynlib.signalling : Dynlib :=
  { Dynlib.returning 0 with
    module_init := fun _ _ env w =>
      (0, (module_non_local_exit_signal plain64 env w 40 0).env,
        (module_non_local_exit_signal plain64 env w 40 0).world) }

/-- A world like `World.with_string` with four free cells, at 16, 24, 32 and
40. -/
def World.with_file : World :=
  { World.with_string with free := [16, 24, 32, 40] }

/-- A world with one vector, at address 8, of the two fixnums 1 and 2 (the
words 6 and 10 on a 64-bit host, where the vector is the word 13), and three
free cells. -/
def World.with_vector : World :=
  { World.start [16, 24, 32] 0 [] with
    contents := fun a => if a = 8 then [6, 10] else [] }

/-- A host like `Host.quiet` whose foreign functions call `extract_integer` of
their environment on their first argument and return `module_nil`. -/
def Host.extracting : Host :=
  { Host.quiet with
    subr := fun _ env w _ args _ =>
      (module_nil,
        (module_extract_integer plain64 Host.quiet env w (args.getD 0 module_nil)).env,
        (module_extract_integer plain64 Host.quiet env w (args.getD 0 module_nil)).world) }

/-! ## Sequences of calls on the global reference table -/

/-- One call of a global reference function: the function, the private part
of the environment it is called on, and the handle. -/
inductive global_ref_call where
  | make_global_ref (env : emacs_env_private) (ref : Nat)
  | free_global_ref (env : emacs_env_private) (ref : Nat)

/-- The world after a sequence of calls of `module_make_global_ref` and
`module_free_global_ref`, each on the world the one before left. -/
def run_global_ref_calls (p : Platform) (host : Host) : World → List global_ref_call → World
  | w, [] => w
  | w, global_ref_call.make_global_ref env ref :: rest =>
    run_global_ref_calls p host (module_make_global_ref p host env w ref).world rest
  | w, global_ref_call.free_global_ref env ref :: rest =>
    run_global_ref_calls p host (module_free_global_ref p env w ref).world rest

/-- Every entry of the table holds a count from 1 to `MOST_POSITIVE_FIXNUM`. -/
def counts_positive (p : Platform) (h : List (Nat × Nat)) : Prop :=
  ∀ e ∈ h, 1 ≤ XFASTINT p e.2 ∧ XFASTINT p e.2 ≤ MOST_POSITIVE_FIXNUM p

/-! ## Memory limit warnings (vm-limit.c) -/

/-- The enum `warnlevel` of vm-limit.c: the level of the warnings already
issued. -/
inductive warnlevel where
  | not_warned
  | warned_75
  | warned_85
  | warned_95
deriving DecidableEq, Repr

/-- The integer value of an enumerator of `enum warnlevel`, by which the code
compares levels. -/
def warnlevel.toNat : warnlevel → Nat
  | warnlevel.not_warned => 0
  | warnlevel.warned_75 => 1
  | warnlevel.warned_85 => 2
  | warnlevel.warned_95 => 3

/-- The static variables of vm-limit.c: `warnlevel`, whether `warn_function`
is set (it is 0 when no warnings are to be issued), `data_space_start` and
`lim_data`, a `size_t`. -/
structure vm_limit where
  warnlevel : warnlevel
  warn_function : Bool
  data_space_start : Nat
  lim_data : Nat

/-- The constant `SIZE_MAX`; `size_t` is as wide as a pointer. -/
def SIZE_MAX (p : Platform) : Nat := 2 ^ p.ptrBits - 1

/-- The constant `UINTPTR_MAX`. -/
def UINTPTR_MAX (p : Platform) : Nat := 2 ^ p.ptrBits - 1

/-- The function `exceeds_lisp_ptr`; `DATA_SEG_BITS` comes from the
configuration, and `~DATA_SEG_BITS` is taken within a `uintptr_t`.  The shift
is reached only when `VAL_MAX < UINTPTR_MAX`. -/
def exceeds_lisp_ptr (p : Platform) (DATA_SEG_BITS : Nat) (ptr : Nat) : Bool :=
  !p.USE_LSB_TAG && decide (VAL_MAX p < UINTPTR_MAX p) &&
    ((ptr &&& (UINTPTR_MAX p - DATA_SEG_BITS % 2 ^ p.ptrBits)) / 2 ^ VALBITS p != 0)

/-- The function `get_lim_data` where `getrlimit` exists: `rlimit` is
`rlim_cur` when the call succeeds, none when it fails. -/
def get_lim_data (p : Platform) (rlimit : Option Nat) : Nat :=
  match rlimit with
  | some rlim_cur => if rlim_cur ≤ SIZE_MAX p then rlim_cur else SIZE_MAX p
  | none => SIZE_MAX p

/-- A product of two `size_t`. -/
def size_mul (p : Platform) (a b : Nat) : Nat := (a * b) % 2 ^ p.ptrBits

/-- The level of warning the current usage demands, the expression assigned to
`new_warnlevel` in `check_memory_limits`. -/
def new_warnlevel (p : Platform) (five_percent data_size : Nat) : warnlevel :=
  if data_size > size_mul p five_percent 19 then warnlevel.warned_95
  else if data_size > size_mul p five_percent 17 then warnlevel.warned_85
  else if data_size > size_mul p five_percent 15 then warnlevel.warned_75
  else warnlevel.not_warned

/-- The function `check_memory_limits`: the static variables it leaves and the
messages it passes to `warn_function`, in order.  `rlimit` is what `getrlimit`
would report and `cp` the end of memory that `(*__morecore) (0)` returns;
`data_size = cp - data_space_start` is a `size_t`. -/
def check_memory_limits (p : Platform) (DATA_SEG_BITS : Nat) (s : vm_limit)
    (rlimit : Option Nat) (cp : Nat) : vm_limit × List String :=
  let s := if s.lim_data = 0 then { s with lim_data := get_lim_data p rlimit } else s
  let five_percent := s.lim_data / 20
  let data_size := (cp + 2 ^ p.ptrBits - s.data_space_start) % 2 ^ p.ptrBits
  if !s.warn_function then (s, [])
  else
    let new_warnlevel := new_warnlevel p five_percent data_size
    let r : vm_limit × List String :=
      if new_warnlevel.toNat > s.warnlevel.toNat ∨ new_warnlevel = warnlevel.warned_95 then
        match new_warnlevel with
        | warnlevel.warned_75 =>
          ({ s with warnlevel := new_warnlevel }, ["Warning: past 75% of memory limit"])
        | warnlevel.warned_85 =>
          ({ s with warnlevel := new_warnlevel }, ["Warning: past 85% of memory limit"])
        | warnlevel.warned_95 =>
          ({ s with warnlevel := new_warnlevel }, ["Warning: past 95% of memory limit"])
        | warnlevel.not_warned => ({ s with warnlevel := new_warnlevel }, [])
      else if data_size < size_mul p five_percent 14 then
        ({ s with warnlevel := warnlevel.not_warned }, [])
      else if s.warnlevel.toNat > warnlevel.warned_75.toNat ∧
          data_size < size_mul p five_percent 16 then
        ({ s with warnlevel := warnlevel.warned_75 }, [])
      else if s.warnlevel.toNat > warnlevel.warned_85.toNat ∧
          data_size < size_mul p five_percent 18 then
        ({ s with warnlevel := warnlevel.warned_85 }, [])
      else (s, [])
    if exceeds_lisp_ptr p DATA_SEG_BITS cp then
      (r.1, r.2 ++ ["Warning: memory in use exceeds lisp pointer size"])
    else r

/-- The three messages of the `switch` of `check_memory_limits`, the warnings
about usage. -/
def usage_warnings : List String :=
  ["Warning: past 75% of memory limit", "Warning: past 85% of memory limit",
    "Warning: past 95% of memory limit"]

/-! ## A 32-bit host whose free cells lie in the upper half of the address space -/

/-- A world with twenty aligned free cells at the addresses `2 ^ 31 + 16`,
`2 ^ 31 + 24`, up to `2 ^ 31 + 168`: pointers of a 32-bit host that are
negative as an `intptr_t`. -/
def World.high : World :=
  World.start [2147483664, 2147483672, 2147483680, 2147483688, 2147483696, 2147483704,
    2147483712, 2147483720, 2147483728, 2147483736, 2147483744, 2147483752, 2147483760,
    2147483768, 2147483776, 2147483784, 2147483792, 2147483800, 2147483808, 2147483816] 806 []

/-- The world `World.high` with one vector, at address 8, of the two fixnums 1
and 2 of a 32-bit host with wide integers and tags in the most significant
bits; the handle of the vector is 13. -/
def World.high_with_vector : World :=
  { World.high with
    contents := fun a =>
      if a = 8 then [make_number msb_wide 1, make_number msb_wide 2] else [] }

/-- The world `World.high` with one module function: at address 8 a save value
whose pointer is 16, at 16 the function environment with the given arity
bounds, function pointer 77 and user data 5. -/
def World.high_with_function (min_arity max_arity : Int) : World :=
  { World.high with
    misc_type := fun a => if a = 8 then Lisp_Misc_Save_Value else 0
    save_type := fun a => if a = 8 then SAVE_POINTER else 0
    save_pointer := fun a => if a = 8 then 16 else 0
    fun_envs := fun a => if a = 16 then ⟨min_arity, max_arity, 77, 5⟩ else ⟨0, 0, 0, 0⟩ }

/-- A host like `Host.quiet` whose foreign functions return their first
argument. -/
def Host.identity : Host :=
  { Host.quiet with subr := fun _ env w _ args _ => (args.getD 0 module_nil, env, w) }

/-- A host like `Host.extracting` for the platform `p`. -/
def Host.extracting_on (p : Platform) : Host :=
  { Host.quiet with
    subr := fun _ env w _ args _ =>
      (module_nil,
        (module_extract_integer p Host.quiet env w (args.getD 0 module_nil)).env,
        (module_extract_integer p Host.quiet env w (args.getD 0 module_nil)).world) }

/-- The value a host call returns, when it returns. -/
def HostResult.returned {α : Type} : HostResult α → Option α
  | HostResult.value a _ => some a
  | HostResult.signal _ _ _ => none
  | HostResult.throw _ _ _ => none

/-- The error symbol and the data a host call signals, when it signals. -/
def HostResult.signaled {α : Type} : HostResult α → Option (Nat × Nat)
  | HostResult.value _ _ => none
  | HostResult.signal sym data _ => some (sym, data)
  | HostResult.throw _ _ _ => none

/-! ## Properties of the value codec -/

theorem wide_of_not_plain {p : Platform} (hp : p.Supported) (hn : plain_values p = false) :
    p.ptrBits = 32 ∧ p.intBits = 64 := by
  rcases hp with ⟨h1, h2⟩ | ⟨h1, h2⟩ | ⟨h1, h2⟩ <;> simp_all [plain_values]

theorem XCONS_make_lisp_ptr {p : Platform} (hP : p.ptrBits = 32) (hE : p.intBits = 64)
    {a : Nat} (ha : a < 2 ^ p.ptrBits) :
    XCONS p (make_lisp_ptr p a (Lisp_Cons p)) = a := by
  cases hl : p.USE_LSB_TAG <;>
    simp only [XCONS, XUNTAG, make_lisp_ptr, Lisp_Cons, XIL, XLI, intptr_to_EMACS_INT, VALBITS,
      GCTYPEBITS, Bool.false_eq_true, if_false, if_true, hP, hE, hl, Nat.reducePow, Nat.reduceSub,
      Nat.reduceMul] at ha ⊢
  · omega
  · split <;> omega

theorem CONSP_make_lisp_ptr {p : Platform} (hP : p.ptrBits = 32) (hE : p.intBits = 64)
    {a : Nat} (ha : a < 2 ^ p.ptrBits) (hal : a % GCALIGNMENT = 0) :
    CONSP p (make_lisp_ptr p a (Lisp_Cons p)) = true := by
  cases hl : p.USE_LSB_TAG <;>
    simp only [CONSP, XTYPE, make_lisp_ptr, Lisp_Cons, XIL, XLI, intptr_to_EMACS_INT, VALBITS,
      GCTYPEBITS, GCALIGNMENT, Bool.false_eq_true, if_false, if_true, hP, hE, hl, beq_iff_eq,
      Nat.reducePow, Nat.reduceSub, Nat.reduceMul] at ha hal ⊢
  · omega
  · split <;> omega

theorem value_to_lisp_bits_box {p : Platform} (hP : p.ptrBits = 32) (hE : p.intBits = 64)
    {a : Nat} (ha : a < 2 ^ p.ptrBits) (hal : a % GCALIGNMENT = 0)
    (hlow : p.USE_LSB_TAG = false → a < 2 ^ (p.ptrBits - 1)) :
    value_to_lisp_bits p ((a + Lisp_Cons p) % 2 ^ p.ptrBits) = make_lisp_ptr p a (Lisp_Cons p) := by
  cases hl : p.USE_LSB_TAG
  · have hlow2 := hlow hl
    simp only [hP, GCALIGNMENT, Nat.reducePow, Nat.reduceSub] at ha hal hlow2
    have h1 : (a + 6) % 4294967296 = a + 6 := by omega
    have h2 : (a + 6) % 8 = 6 := by omega
    have h3 : a + 6 < 2147483648 := by omega
    simp only [value_to_lisp_bits, plain_values, make_lisp_ptr, Lisp_Cons, XIL, XLI,
      intptr_to_EMACS_INT, VALBITS, GCTYPEBITS, GCALIGNMENT, Lisp_Int0, Lisp_Int1,
      Bool.false_eq_true, if_false, if_true, hP, hE, hl, Nat.reducePow, Nat.reduceSub,
      Nat.reduceMul, h1, h2, Nat.reduceBEq, Bool.or_false, Nat.reduceEqDiff, or_self, h3]
    omega
  · simp only [value_to_lisp_bits, plain_values, make_lisp_ptr, Lisp_Cons, XIL, XLI,
      intptr_to_EMACS_INT, VALBITS, GCTYPEBITS, GCALIGNMENT, Lisp_Int0, Lisp_Int1,
      Bool.false_eq_true, if_false, if_true, hP, hE, hl, Bool.or_true]

theorem World.CellsFrom.refl (w : World) : w.CellsFrom w :=
  ⟨rfl, List.suffix_refl _, fun _ _ => ⟨rfl, rfl⟩⟩

theorem World.CellsFrom.trans {w w1 w2 : World} (h1 : w.CellsFrom w1) (h2 : w1.CellsFrom w2) :
    w.CellsFrom w2 := by
  obtain ⟨e1, s1, f1⟩ := h1
  obtain ⟨e2, s2, f2⟩ := h2
  refine ⟨?_, s2.trans s1, ?_⟩
  · rw [e2]; rw [e1]
  · intro b hb
    have hb1 : b ∉ w1.free := fun h => hb (s1.subset h)
    exact ⟨(f2 b hb1).1.trans (f1 b hb).1, (f2 b hb1).2.trans (f1 b hb).2⟩

theorem Fcons_spec {p : Platform} {w w1 : World} {x y pair : Nat}
    (h : Fcons p w x y = (some pair, w1)) :
    ∃ a rest, w.free = a :: rest ∧ w1.free = rest ∧ pair = make_lisp_ptr p a (Lisp_Cons p) ∧
      w1.car a = x ∧ w1.cdr a = y ∧ w.CellsFrom w1 := by
  unfold Fcons at h
  split at h
  · simp at h
  · rename_i a rest hfree
    simp only [Prod.mk.injEq, Option.some.injEq] at h
    obtain ⟨h1, h2⟩ := h
    subst h1 h2
    refine ⟨a, rest, hfree, rfl, rfl, by simp, by simp, rfl, ?_, ?_⟩
    · simp only [hfree]; exact List.suffix_cons a rest
    · intro b hb
      have : b ≠ a := by rintro rfl; exact hb (by simp [hfree])
      simp [this]

theorem lisp_to_value_loop_spec {p : Platform} (hP : p.ptrBits = 32) (hE : p.intBits = 64)
    (o : Nat) : ∀ (fuel : Nat) (w : World) (pair a : Nat) (pair2 : Nat) (w2 : World),
      pair = make_lisp_ptr p a (Lisp_Cons p) → a < 2 ^ p.ptrBits →
      (∀ b ∈ w.free, b < 2 ^ p.ptrBits) → w.car a = o →
      lisp_to_value_loop p o fuel w pair = (some pair2, w2) →
      ∃ a2, pair2 = make_lisp_ptr p a2 (Lisp_Cons p) ∧ a2 % GCALIGNMENT = 0 ∧
        (a2 = a ∧ w2 = w ∨ a2 ∈ w.free ∧ (a2 :: w2.free) <:+ w.free) ∧
        w2.car a2 = o ∧ w.CellsFrom w2 := by
  intro fuel
  induction fuel with
  | zero => intro w pair a pair2 w2 _ _ _ _ h; simp [lisp_to_value_loop] at h
  | succ n ih =>
    intro w pair a pair2 w2 hpair ha hfree hcar h
    rw [lisp_to_value_loop] at h
    rw [hpair, XCONS_make_lisp_ptr hP hE ha] at h
    by_cases hal : a % GCALIGNMENT = 0
    · simp only [hal, ne_eq, not_true_eq_false, if_false, Option.some.injEq, Prod.mk.injEq] at h
      obtain ⟨h1, h2⟩ := h
      subst h1 h2
      exact ⟨a, rfl, hal, Or.inl ⟨rfl, rfl⟩, hcar, World.CellsFrom.refl w⟩
    · simp only [hal, ne_eq, not_false_eq_true, if_true] at h
      rcases hF : Fcons p w o (make_lisp_ptr p a (Lisp_Cons p)) with ⟨_ | pair1, w1⟩
      · simp [hF] at h
      · simp only [hF] at h
        obtain ⟨a1, rest, hfr, hfr1, hp1, hcar1, _, hcf⟩ := Fcons_spec hF
        have ha1 : a1 < 2 ^ p.ptrBits := hfree a1 (by simp [hfr])
        have hfree1 : ∀ b ∈ w1.free, b < 2 ^ p.ptrBits := by
          intro b hb; exact hfree b (by rw [hfr]; rw [hfr1] at hb; exact List.mem_cons_of_mem _ hb)
        obtain ⟨a2, e2, al2, hwhere, hc2, hcf2⟩ := ih w1 pair1 a1 pair2 w2 hp1 ha1 hfree1 hcar1 h
        refine ⟨a2, e2, al2, Or.inr ?_, hc2, hcf.trans hcf2⟩
        rcases hwhere with ⟨rfl, rfl⟩ | ⟨hm, hs⟩
        · refine ⟨by simp [hfr], ?_⟩
          rw [hfr, hfr1]
        · refine ⟨by rw [hfr]; rw [hfr1] at hm; exact List.mem_cons_of_mem _ hm, ?_⟩
          rw [hfr]; rw [hfr1] at hs
          exact hs.trans (List.suffix_cons a1 rest)

/-- On the direct path `lisp_to_value` returns the compressed bits and leaves
the world alone. -/
theorem lisp_to_value_direct {p : Platform} {w : World} {o : Nat} (h : Compressible p o) :
    lisp_to_value p w o = (some (lisp_to_value_bits p o), w) := by
  unfold Compressible at h
  simp [lisp_to_value, EQ, h]

/-- On the boxed path the handle is the address of an aligned cell taken from
the free list, tagged as a cons; the cell holds the value and the mark. -/
theorem lisp_to_value_boxed {p : Platform} (hP : p.ptrBits = 32) (hE : p.intBits = 64)
    {w w1 : World} {o v : Nat} (hok : w.FreeCellsOK p) (hc : ¬ Compressible p o)
    (h : lisp_to_value p w o = (some v, w1)) :
    ∃ a, a ∈ w.free ∧ a % GCALIGNMENT = 0 ∧ (a :: w1.free) <:+ w.free ∧
      v = (a + Lisp_Cons p) % 2 ^ p.ptrBits ∧
      w1.car a = o ∧ w1.cdr a = w.ltv_mark ∧ w.CellsFrom w1 := by
  have hc2 : (o == value_to_lisp_bits p (lisp_to_value_bits p o)) = false := by
    simp only [beq_eq_false_iff_ne, ne_eq]
    exact fun e => hc e.symm
  have hlt : ∀ b ∈ w.free, b < 2 ^ p.ptrBits := fun b hb => (hok.2 b hb).1
  simp only [lisp_to_value, EQ, hc2, Bool.not_false, if_true] at h
  rcases hF : Fcons p w o w.ltv_mark with ⟨_ | pair, w0⟩
  · simp [hF] at h
  · simp only [hF] at h
    obtain ⟨a0, rest, hfr, hfr0, hp0, hcar0, hcdr0, hcf0⟩ := Fcons_spec hF
    have ha0 : a0 < 2 ^ p.ptrBits := hlt a0 (by simp [hfr])
    cases hA : p.HAVE_STRUCT_ATTRIBUTE_ALIGNED with
    | true =>
      simp only [hA, Bool.not_true, Bool.false_eq_true, if_false, Prod.mk.injEq,
        Option.some.injEq] at h
      obtain ⟨hv, hw⟩ := h
      subst hw
      rw [hp0, XCONS_make_lisp_ptr hP hE ha0] at hv
      refine ⟨a0, by simp [hfr], ((hok.2 a0 (by simp [hfr])).2.1 hA), ?_, hv.symm, hcar0, hcdr0,
        hcf0⟩
      rw [hfr, hfr0]
    | false =>
      simp only [hA, Bool.not_false, if_true] at h
      rcases hL : lisp_to_value_loop p o (w0.free.length + 1) w0 pair with ⟨_ | pair2, w2⟩
      · simp [hL] at h
      · simp only [hL, Prod.mk.injEq, Option.some.injEq] at h
        obtain ⟨hv, hw⟩ := h
        have hfree0 : ∀ b ∈ w0.free, b < 2 ^ p.ptrBits := by
          intro b hb; exact hlt b (by rw [hfr]; rw [hfr0] at hb; exact List.mem_cons_of_mem _ hb)
        obtain ⟨a2, e2, al2, hwhere, hc2, hcf2⟩ :=
          lisp_to_value_loop_spec hP hE o _ w0 pair a0 pair2 w2 hp0 ha0 hfree0 hcar0 hL
        have hmem : a2 ∈ w.free ∧ (a2 :: w2.free) <:+ w.free := by
          rcases hwhere with ⟨rfl, rfl⟩ | ⟨hm, hs⟩
          · exact ⟨by simp [hfr], by rw [hfr, hfr0]⟩
          · refine ⟨by rw [hfr]; rw [hfr0] at hm; exact List.mem_cons_of_mem _ hm, ?_⟩
            rw [hfr]; rw [hfr0] at hs
            exact hs.trans (List.suffix_cons a0 rest)
        have ha2 : a2 < 2 ^ p.ptrBits := hlt a2 hmem.1
        have hX : XCONS p pair2 = a2 := by rw [e2]; exact XCONS_make_lisp_ptr hP hE ha2
        rw [hX] at hv
        have hcf := hcf0.trans hcf2
        have hmark : w2.ltv_mark = w.ltv_mark := by rw [hcf.1]
        subst hw
        refine ⟨a2, hmem.1, al2, ?_, hv.symm, ?_, ?_, ?_⟩
        · simpa [XSETCDR] using hmem.2
        · simpa [XSETCDR] using hc2
        · simp [XSETCDR, hX, hmark]
        · refine ⟨?_, ?_, ?_⟩
          · rw [hmark]
            simp only [XSETCDR]
            conv_lhs => rw [hcf.1]
          · simpa [XSETCDR] using hcf.2.1
          · intro b hb
            have hne : b ≠ a2 := by rintro rfl; exact hb hmem.1
            simp only [XSETCDR, hX, hne, if_false]
            exact hcf.2.2 b hb

/-- With plain values every word is its own handle. -/
theorem Compressible_of_plain {p : Platform} (hp : plain_values p = true) {o : Nat}
    (ho : o < 2 ^ p.intBits) : Compressible p o := by
  have hE : p.ptrBits = p.intBits := by simpa [plain_values] using hp
  have h1 : o % 2 ^ p.intBits = o := Nat.mod_eq_of_lt ho
  simp only [Compressible, value_to_lisp_bits, lisp_to_value_bits, hp, Bool.true_or, if_true,
    XIL, XLI, intptr_to_EMACS_INT, hE, h1]
  split <;> simp

theorem lisp_to_value_loop_isSome {p : Platform} (hP : p.ptrBits = 32) (hE : p.intBits = 64)
    (o : Nat) : ∀ (fuel : Nat) (w : World) (pair a : Nat),
      pair = make_lisp_ptr p a (Lisp_Cons p) → a < 2 ^ p.ptrBits →
      (∀ b ∈ w.free, b < 2 ^ p.ptrBits) → w.free.length < fuel →
      (a % GCALIGNMENT = 0 ∨ ∃ b ∈ w.free, b % GCALIGNMENT = 0) →
      (lisp_to_value_loop p o fuel w pair).1.isSome = true := by
  intro fuel
  induction fuel with
  | zero => intro w pair a _ _ _ h; simp at h
  | succ n ih =>
    intro w pair a hpair ha hfree hlen hal
    rw [lisp_to_value_loop, hpair, XCONS_make_lisp_ptr hP hE ha]
    by_cases h0 : a % GCALIGNMENT = 0
    · simp [h0]
    · simp only [h0, ne_eq, not_false_eq_true, if_true]
      have hex : ∃ b ∈ w.free, b % GCALIGNMENT = 0 := hal.resolve_left h0
      cases hfr : w.free with
      | nil => obtain ⟨b, hb, _⟩ := hex; simp [hfr] at hb
      | cons a1 rest =>
        simp only [Fcons, hfr]
        apply ih _ _ a1 rfl (hfree a1 (by simp [hfr]))
        · intro b hb; exact hfree b (by simp only [hfr]; exact List.mem_cons_of_mem _ hb)
        · simp only [hfr, List.length_cons] at hlen ⊢; omega
        · obtain ⟨b, hb, hb0⟩ := hex
          rw [hfr] at hb
          rcases List.mem_cons.1 hb with rfl | hb
          · exact Or.inl hb0
          · exact Or.inr ⟨b, hb, hb0⟩

/-- Allocation is the only way `lisp_to_value` can fail: it returns a handle
when the value is compressible or an aligned cell is still free. -/
theorem lisp_to_value_isSome {p : Platform} (hp : p.Supported) {w : World} {o : Nat}
    (hok : w.FreeCellsOK p) (ho : o < 2 ^ p.intBits)
    (h : Compressible p o ∨ ∃ a ∈ w.free, a % GCALIGNMENT = 0) :
    (lisp_to_value p w o).1.isSome = true := by
  by_cases hc : Compressible p o
  · rw [lisp_to_value_direct hc]; rfl
  · obtain ⟨b, hb, hb0⟩ := h.resolve_left hc
    have hc2 : (o == value_to_lisp_bits p (lisp_to_value_bits p o)) = false := by
      simp only [beq_eq_false_iff_ne, ne_eq]
      exact fun e => hc e.symm
    have hlt : ∀ b ∈ w.free, b < 2 ^ p.ptrBits := fun b hb => (hok.2 b hb).1
    cases hpl : plain_values p with
    | true =>
      exact absurd (Compressible_of_plain hpl ho) hc
    | false =>
      obtain ⟨hP, hE⟩ := wide_of_not_plain hp hpl
      simp only [lisp_to_value, EQ, hc2, Bool.not_false, if_true]
      cases hfr : w.free with
      | nil => simp [hfr] at hb
      | cons a1 rest =>
        simp only [Fcons, hfr]
        cases hA : p.HAVE_STRUCT_ATTRIBUTE_ALIGNED with
        | true => simp
        | false =>
          simp only [Bool.not_false, if_true]
          have : (lisp_to_value_loop p o (rest.length + 1)
              { w with
                car := fun a => if a = a1 then o else w.car a
                cdr := fun a => if a = a1 then w.ltv_mark else w.cdr a
                free := rest } (make_lisp_ptr p a1 (Lisp_Cons p))).1.isSome = true := by
            apply lisp_to_value_loop_isSome hP hE o _ _ _ a1 rfl (hlt a1 (by simp [hfr]))
            · intro b hb; exact hlt b (by simp only [hfr]; exact List.mem_cons_of_mem _ hb)
            · simp
            · rw [hfr] at hb
              rcases List.mem_cons.1 hb with rfl | hb
              · exact Or.inl hb0
              · exact Or.inr ⟨b, hb, hb0⟩
          revert this
          rcases lisp_to_value_loop p o (rest.length + 1) _ (make_lisp_ptr p a1 (Lisp_Cons p))
            with ⟨_ | pair2, w2⟩ <;> simp

/-- Decoding the handle of a boxed value: the container is recognised and the
value taken out of it. -/
theorem value_to_lisp_boxed {p : Platform} (hP : p.ptrBits = 32) (hE : p.intBits = 64)
    {w1 : World} {a o : Nat} (ha : a < 2 ^ p.ptrBits) (hal : a % GCALIGNMENT = 0)
    (hlow : p.USE_LSB_TAG = false → a < 2 ^ (p.ptrBits - 1))
    (hcar : w1.car a = o) (hcdr : w1.cdr a = w1.ltv_mark) :
    value_to_lisp p w1 ((a + Lisp_Cons p) % 2 ^ p.ptrBits) = o := by
  have hpl : plain_values p = false := by simp [plain_values, hP, hE]
  simp only [value_to_lisp, value_to_lisp_bits_box hP hE ha hal hlow, hpl, Bool.not_false,
    Bool.true_and, CONSP_make_lisp_ptr hP hE ha hal, XCDR, XCAR, XCONS_make_lisp_ptr hP hE ha,
    hcdr, hcar, EQ, beq_self_eq_true, if_true]

/-- Decoding the handle of a compressible host value gives the value back. -/
theorem value_to_lisp_direct {p : Platform} {w : World} {o : Nat} (hc : Compressible p o)
    (ho : HostValue p w o) : value_to_lisp p w (lisp_to_value_bits p o) = o := by
  unfold Compressible at hc
  simp only [value_to_lisp, hc]
  cases hpl : plain_values p with
  | true => simp
  | false =>
    cases hcons : CONSP p o with
    | false => simp
    | true =>
      have := (ho.2 hpl hcons).2
      simp [EQ, this]

/-- Whenever `lisp_to_value` returns a handle for a host value, decoding the
handle in the world it leaves gives the value back. -/
theorem value_to_lisp_of_lisp_to_value {p : Platform} (hp : p.Supported) {w w1 : World}
    {o v : Nat} (hok : w.FreeCellsOK p) (ho : HostValue p w o)
    (h : lisp_to_value p w o = (some v, w1)) : value_to_lisp p w1 v = o := by
  by_cases hc : Compressible p o
  · rw [lisp_to_value_direct hc] at h
    simp only [Prod.mk.injEq, Option.some.injEq] at h
    obtain ⟨rfl, rfl⟩ := h
    exact value_to_lisp_direct hc ho
  · cases hpl : plain_values p with
    | true => exact absurd (Compressible_of_plain hpl ho.1) hc
    | false =>
      obtain ⟨hP, hE⟩ := wide_of_not_plain hp hpl
      obtain ⟨a, hmem, hal, _, hv, hcar, hcdr, hcf⟩ := lisp_to_value_boxed hP hE hok hc h
      have hmark : w1.ltv_mark = w.ltv_mark := by rw [hcf.1]
      rw [hv]
      exact value_to_lisp_boxed hP hE (hok.2 a hmem).1 hal (fun h => ((hok.2 a hmem).2.2 h).1) hcar
        (by rw [hcdr, hmark])

/-- With the free cells of `World.FreeCellsOK`, which with tags in the most
significant bits lie below `2 ^ (ptrBits - 1)`.
Codec round trip: on every supported platform (plain values, tags in
the low bits with wide integers, tags in the most significant bits with wide
integers), whenever `lisp_to_value` returns a handle for a host value, on the
direct path or on the boxed one, `value_to_lisp` of that handle is the value
itself; and `lisp_to_value` does return a handle as soon as the value is
compressible or an aligned cell is free. -/
theorem value_to_lisp_lisp_to_value (p : Platform) (w : World) (o : Nat)
    (hp : p.Supported) (hok : w.FreeCellsOK p) (ho : HostValue p w o) :
    (∀ v w1, lisp_to_value p w o = (some v, w1) → value_to_lisp p w1 v = o) ∧
    ((Compressible p o ∨ ∃ a ∈ w.free, a % GCALIGNMENT = 0) →
      (lisp_to_value p w o).1.isSome = true) := by
  exact ⟨fun v w1 h => value_to_lisp_of_lisp_to_value hp hok ho h,
    lisp_to_value_isSome hp hok ho.1⟩

/-- The theorem `value_to_lisp_lisp_to_value` at a concrete input:
the fixnum 1 on a 32-bit host with wide integers
and tags in the most significant bits is boxed (the first free cell, at
address 4, is not aligned; the second, at 16, is), and decodes to itself. -/
theorem value_to_lisp_lisp_to_value_witness :
    (∀ v w1, lisp_to_value msb_wide (World.start [4, 16] 806 []) (make_number msb_wide 1)
        = (some v, w1) → value_to_lisp msb_wide w1 v = make_number msb_wide 1) ∧
    ((Compressible msb_wide (make_number msb_wide 1) ∨
        ∃ a ∈ (World.start [4, 16] 806 []).free, a % GCALIGNMENT = 0) →
      (lisp_to_value msb_wide (World.start [4, 16] 806 []) (make_number msb_wide 1)).1.isSome
        = true) :=
  value_to_lisp_lisp_to_value msb_wide (World.start [4, 16] 806 []) (make_number msb_wide 1)
    (by decide) (by decide) (by decide)

theorem World.FreeCellsOK.of_suffix {p : Platform} {w w1 : World} (hok : w.FreeCellsOK p)
    (hs : w1.free <:+ w.free) : w1.FreeCellsOK p :=
  ⟨hok.1.sublist hs.sublist, fun a ha => hok.2 a (hs.subset ha)⟩

theorem not_mem_of_cons_suffix {l l1 : List Nat} {a : Nat} (hn : l.Nodup)
    (hs : (a :: l1) <:+ l) : a ∉ l1 := by
  have := hn.sublist hs.sublist
  exact (List.nodup_cons.1 this).1

/-- A host value stays one across an encoding: its cell is not one the
allocator can hand out, so the encoding does not write to it. -/
theorem HostValue.mono {p : Platform} {w w1 : World} {o : Nat} (ho : HostValue p w o)
    (hcf : w.CellsFrom w1) : HostValue p w1 o := by
  refine ⟨ho.1, fun hpl hc => ?_⟩
  obtain ⟨hfree, hcdr⟩ := ho.2 hpl hc
  refine ⟨fun h => hfree (hcf.2.1.subset h), ?_⟩
  have hmark : w1.ltv_mark = w.ltv_mark := by rw [hcf.1]
  simp only [XCDR] at hcdr ⊢
  rw [(hcf.2.2 _ hfree).2, hmark]
  exact hcdr

theorem lisp_to_value_cells {p : Platform} (hp : p.Supported) {w w1 : World} {o v : Nat}
    (hok : w.FreeCellsOK p) (ho : o < 2 ^ p.intBits)
    (h : lisp_to_value p w o = (some v, w1)) : w.CellsFrom w1 := by
  by_cases hc : Compressible p o
  · rw [lisp_to_value_direct hc] at h
    simp only [Prod.mk.injEq, Option.some.injEq] at h
    rw [← h.2]
    exact World.CellsFrom.refl w
  · cases hpl : plain_values p with
    | true => exact absurd (Compressible_of_plain hpl ho) hc
    | false =>
      obtain ⟨hP, hE⟩ := wide_of_not_plain hp hpl
      obtain ⟨a, _, _, _, _, _, _, hcf⟩ := lisp_to_value_boxed hP hE hok hc h
      exact hcf

theorem MODULE_FUNCTION_BEGIN_pending {α : Type} (p : Platform) (retval : α)
    (env : emacs_env_private) (w : World)
    (body : World → emacs_env_private × HostResult α)
    (h : env.pending_non_local_exit ≠ emacs_funcall_exit_return) :
    MODULE_FUNCTION_BEGIN p retval env w body = ⟨retval, env, w⟩ := by
  simp [module_non_local_exit_check, MODULE_FUNCTION_BEGIN, h]

/-- C4. Sticky error state: on an environment whose pending exit is a signal
or a throw, every environment function other than
`module_non_local_exit_clear` (and the two that only read the state, check and
get) returns its sentinel (`module_nil`, 0, `false`, `NULL`, or nothing) and
leaves the pending kind, symbol and data, and the whole world, as they were;
`module_copy_string_contents` also leaves the buffer and `*length` alone. -/
theorem sticky_error_state (p : Platform) (host : Host) (env : emacs_env_private) (w : World)
    (h : env.pending_non_local_exit ≠ emacs_funcall_exit_return) :
    (∀ ref, module_make_global_ref p host env w ref = ⟨module_nil, env, w⟩) ∧
    (∀ ref, module_free_global_ref p env w ref = ⟨(), env, w⟩) ∧
    (∀ sym data, module_non_local_exit_signal p env w sym data = ⟨(), env, w⟩) ∧
    (∀ tag value, module_non_local_exit_throw p env w tag value = ⟨(), env, w⟩) ∧
    (∀ min_arity max_arity subr documentation data,
      module_make_function p host env w min_arity max_arity subr documentation data
        = ⟨module_nil, env, w⟩) ∧
    (∀ fn nargs args, module_funcall p host env w fn nargs args = ⟨module_nil, env, w⟩) ∧
    (∀ name, module_intern p host env w name = ⟨module_nil, env, w⟩) ∧
    (∀ value, module_type_of p host env w value = ⟨module_nil, env, w⟩) ∧
    (∀ value, module_is_not_nil p env w value = ⟨false, env, w⟩) ∧
    (∀ a b, module_eq p env w a b = ⟨false, env, w⟩) ∧
    (∀ n, module_extract_integer p host env w n = ⟨0, env, w⟩) ∧
    (∀ n, module_make_integer p host env w n = ⟨module_nil, env, w⟩) ∧
    (∀ f, module_extract_float p host env w f = ⟨0, env, w⟩) ∧
    (∀ d, module_make_float p env w d = ⟨module_nil, env, w⟩) ∧
    (∀ value buffer length,
      module_copy_string_contents p host env w value buffer length
        = ⟨⟨false, buffer, length⟩, env, w⟩) ∧
    (∀ str length, module_make_string p host env w str length = ⟨module_nil, env, w⟩) ∧
    (∀ fin ptr, module_make_user_ptr p env w fin ptr = ⟨module_nil, env, w⟩) ∧
    (∀ uptr, module_get_user_ptr p host env w uptr = ⟨0, env, w⟩) ∧
    (∀ uptr ptr, module_set_user_ptr p host env w uptr ptr = ⟨(), env, w⟩) ∧
    (∀ uptr, module_get_user_finalizer p host env w uptr = ⟨0, env, w⟩) ∧
    (∀ uptr fin, module_set_user_finalizer p host env w uptr fin = ⟨(), env, w⟩) ∧
    (∀ vec i val, module_vec_set p host env w vec i val = ⟨(), env, w⟩) ∧
    (∀ vec i, module_vec_get p host env w vec i = ⟨module_nil, env, w⟩) ∧
    (∀ vec, module_vec_size p host env w vec = ⟨0, env, w⟩) := by
  refine ⟨?_, ?_, ?_, ?_, ?_, ?_, ?_, ?_, ?_, ?_, ?_, ?_, ?_, ?_, ?_, ?_, ?_, ?_, ?_, ?_, ?_,
    ?_, ?_, ?_⟩
  · intro ref; exact MODULE_FUNCTION_BEGIN_pending p _ env w _ h
  · intro ref; exact MODULE_FUNCTION_BEGIN_pending p _ env w _ h
  · intro sym data; simp [module_non_local_exit_signal, module_non_local_exit_check, h]
  · intro tag value; simp [module_non_local_exit_throw, module_non_local_exit_check, h]
  · intro a b c d e; exact MODULE_FUNCTION_BEGIN_pending p _ env w _ h
  · intro a b c; exact MODULE_FUNCTION_BEGIN_pending p _ env w _ h
  · intro a; exact MODULE_FUNCTION_BEGIN_pending p _ env w _ h
  · intro a; exact MODULE_FUNCTION_BEGIN_pending p _ env w _ h
  · intro a; simp [module_is_not_nil, module_non_local_exit_check, h]
  · intro a b; simp [module_eq, module_non_local_exit_check, h]
  · intro a; exact MODULE_FUNCTION_BEGIN_pending p _ env w _ h
  · intro a; exact MODULE_FUNCTION_BEGIN_pending p _ env w _ h
  · intro a; exact MODULE_FUNCTION_BEGIN_pending p _ env w _ h
  · intro a; exact MODULE_FUNCTION_BEGIN_pending p _ env w _ h
  · intro a b c; exact MODULE_FUNCTION_BEGIN_pending p _ env w _ h
  · intro a b; exact MODULE_FUNCTION_BEGIN_pending p _ env w _ h
  · intro a b; exact MODULE_FUNCTION_BEGIN_pending p _ env w _ h
  · intro a; exact MODULE_FUNCTION_BEGIN_pending p _ env w _ h
  · intro a b; exact MODULE_FUNCTION_BEGIN_pending p _ env w _ h
  · intro a; exact MODULE_FUNCTION_BEGIN_pending p _ env w _ h
  · intro a b; exact MODULE_FUNCTION_BEGIN_pending p _ env w _ h
  · intro a b c; exact MODULE_FUNCTION_BEGIN_pending p _ env w _ h
  · intro a b; exact MODULE_FUNCTION_BEGIN_pending p _ env w _ h
  · intro a; exact MODULE_FUNCTION_BEGIN_pending p _ env w _ h

/-- C4 at a concrete input: with the error `(40 . 7)` pending, making a global
reference to the handle 6, comparing 6 with itself and asking for the size of
6 return `module_nil`, `false` and 0 and change nothing. -/
theorem sticky_error_state_witness :
    module_make_global_ref plain64 Host.quiet ⟨emacs_funcall_exit_signal, 40, 7⟩
        (World.start [] 0 []) 6
      = ⟨module_nil, ⟨emacs_funcall_exit_signal, 40, 7⟩, World.start [] 0 []⟩ ∧
    module_eq plain64 ⟨emacs_funcall_exit_signal, 40, 7⟩ (World.start [] 0 []) 6 6
      = ⟨false, ⟨emacs_funcall_exit_signal, 40, 7⟩, World.start [] 0 []⟩ ∧
    module_vec_size plain64 Host.quiet ⟨emacs_funcall_exit_signal, 40, 7⟩
        (World.start [] 0 []) 6
      = ⟨0, ⟨emacs_funcall_exit_signal, 40, 7⟩, World.start [] 0 []⟩ :=
  have h := sticky_error_state plain64 Host.quiet ⟨emacs_funcall_exit_signal, 40, 7⟩
    (World.start [] 0 []) (by decide)
  ⟨h.1 6, h.2.2.2.2.2.2.2.2.2.1 6 6,
    h.2.2.2.2.2.2.2.2.2.2.2.2.2.2.2.2.2.2.2.2.2.2.2 6⟩

/-! ## Properties of the global reference table -/

theorem XFASTINT_make_natnum {p : Platform} (hp : p.Supported) {n : Int} (h0 : 0 ≤ n)
    (h1 : n ≤ MOST_POSITIVE_FIXNUM p) : XFASTINT p (make_natnum p n) = n := by
  rcases hp with ⟨hP, hE⟩ | ⟨hP, hE⟩ | ⟨hP, hE⟩ <;> cases hl : p.USE_LSB_TAG <;>
    simp only [XFASTINT, XINT, make_natnum, MOST_POSITIVE_FIXNUM, EMACS_INT_MAX, INTTYPEBITS,
      GCTYPEBITS, VALBITS, Lisp_Int0, XIL, XLI, EMACS_INT_of_bits, hE, hl, Bool.false_eq_true,
      if_false, if_true, Nat.reducePow, Nat.reduceSub, Nat.reduceMul, Nat.reduceDiv,
      Nat.cast_ofNat, Int.reducePow, Int.reduceMul] at h1 ⊢ <;>
    omega

theorem hash_lookup_lt {h : List (Nat × Nat)} {k i : Nat} (hl : hash_lookup h k = some i) :
    i < h.length := by
  induction h generalizing i with
  | nil => simp [hash_lookup] at hl
  | cons e rest ih =>
    simp only [hash_lookup] at hl
    split at hl
    · simp only [Option.some.injEq] at hl; subst hl; simp
    · cases hr : hash_lookup rest k with
      | none => simp [hr] at hl
      | some j =>
        simp only [hr, Option.map_some', Option.some.injEq] at hl
        subst hl
        have := ih hr
        simp only [List.length_cons]; omega

theorem hash_lookup_hash_put {h : List (Nat × Nat)} {k : Nat} (v : Nat)
    (hl : hash_lookup h k = none) :
    hash_lookup (hash_put h k v) k = some h.length ∧
      HASH_VALUE (hash_put h k v) h.length = v := by
  constructor
  · induction h with
    | nil => simp [hash_put, hash_lookup, EQ]
    | cons e rest ih =>
      simp only [hash_lookup] at hl
      split at hl
      · simp at hl
      · rename_i hne
        simp only [Option.map_eq_none'] at hl
        have := ih hl
        simp only [hash_put] at this
        simp [hash_put, hash_lookup, hne, this]
  · simp [HASH_VALUE, hash_put, List.getD_eq_getElem?_getD]

theorem hash_lookup_set_hash_value_slot (h : List (Nat × Nat)) (i v k : Nat) :
    hash_lookup (set_hash_value_slot h i v) k = hash_lookup h k := by
  induction h generalizing i with
  | nil => simp [set_hash_value_slot]
  | cons e rest ih =>
    cases i with
    | zero => simp [set_hash_value_slot, hash_lookup]
    | succ j => simp [set_hash_value_slot, hash_lookup, ih]

theorem HASH_VALUE_set_hash_value_slot {h : List (Nat × Nat)} {i : Nat} (v : Nat)
    (hi : i < h.length) : HASH_VALUE (set_hash_value_slot h i v) i = v := by
  induction h generalizing i with
  | nil => simp at hi
  | cons e rest ih =>
    cases i with
    | zero => simp [set_hash_value_slot, HASH_VALUE]
    | succ j =>
      have hj : j < rest.length := by simpa using hi
      have := ih hj
      simpa [set_hash_value_slot, HASH_VALUE] using this

/-- The decoding of a handle looks at the cells and at the mark only. -/
theorem value_to_lisp_congr {p : Platform} {w w1 : World} (hcar : w1.car = w.car)
    (hcdr : w1.cdr = w.cdr) (hmark : w1.ltv_mark = w.ltv_mark) (v : Nat) :
    value_to_lisp p w1 v = value_to_lisp p w v := by
  simp [value_to_lisp, XCAR, XCDR, hcar, hcdr, hmark]

/-- An environment function in the normal state, with room for its two
handlers, whose body returns: the handlers are popped again. -/
theorem MODULE_FUNCTION_BEGIN_value {α : Type} {p : Platform} {retval a : α}
    {env env1 : emacs_env_private} {w w3 : World}
    {body : World → emacs_env_private × HostResult α}
    (henv : env.pending_non_local_exit = emacs_funcall_exit_return)
    (hroom : w.handlerlist.length + 2 ≤ w.handler_limit)
    (hbody : body { w with handlerlist :=
        handlertype.CATCHER_ALL :: handlertype.CONDITION_CASE :: w.handlerlist }
      = (env1, HostResult.value a w3)) :
    MODULE_FUNCTION_BEGIN p retval env w body
      = ⟨a, env1, module_reset_handlerlist (module_reset_handlerlist w3)⟩ := by
  have h1 : w.handlerlist.length < w.handler_limit := by omega
  have h2 : w.handlerlist.length + 1 < w.handler_limit := by omega
  simp [module_non_local_exit_check, MODULE_FUNCTION_BEGIN, MODULE_HANDLE_NONLOCAL_EXIT, henv,
    push_handler_nosignal, h1, h2, hbody]

/-- The closing `return lisp_to_value (o);` of an environment function, for a
host value and with memory at hand: it returns a handle that decodes to `o`,
and only cells of the free list have changed. -/
theorem return_lisp_to_value_ok {p : Platform} (hp : p.Supported) {w : World} {o : Nat}
    (env : emacs_env_private) (hok : w.FreeCellsOK p) (ho : HostValue p w o)
    (hmem : Compressible p o ∨ ∃ a ∈ w.free, a % GCALIGNMENT = 0) :
    ∃ v w1, return_lisp_to_value p env w o = (env, HostResult.value v w1) ∧
      w.CellsFrom w1 ∧ value_to_lisp p w1 v = o := by
  have hs := lisp_to_value_isSome hp hok ho.1 hmem
  rcases hl : lisp_to_value p w o with ⟨_ | v, w1⟩
  · simp [hl] at hs
  · exact ⟨v, w1, by simp [return_lisp_to_value, hl, or_memory_full],
      lisp_to_value_cells hp hok ho.1 hl, value_to_lisp_of_lisp_to_value hp hok ho hl⟩

/-- With the free cells of `World.FreeCellsOK`, which with tags in the most
significant bits lie below `2 ^ (ptrBits - 1)`.
`module_make_global_ref` on an environment in the normal state, with
room for its two handlers, for the handle `ref` of a host value `v` that can be
encoded again: if `v` has no entry it gets one with count 1; if its count is
`c`, from 0 up to below `MOST_POSITIVE_FIXNUM`, it becomes `c + 1`; in both
cases the state stays normal and the returned handle decodes to `v`.  If the
count is `MOST_POSITIVE_FIXNUM`, `overflow-error` is recorded, `module_nil` is
returned and the world, the table with it, is unchanged. -/
theorem module_make_global_ref_spec (p : Platform) (host : Host) (env : emacs_env_private)
    (w : World) (ref : Nat) (hp : p.Supported) (hok : w.FreeCellsOK p)
    (henv : env.pending_non_local_exit = emacs_funcall_exit_return)
    (hroom : w.handlerlist.length + 2 ≤ w.handler_limit)
    (hv : HostValue p w (value_to_lisp p w ref))
    (hmem : Compressible p (value_to_lisp p w ref) ∨ ∃ a ∈ w.free, a % GCALIGNMENT = 0) :
    (refcount p w (value_to_lisp p w ref) = none →
      (module_make_global_ref p host env w ref).world.Vmodule_refs_hash
          = hash_put w.Vmodule_refs_hash (value_to_lisp p w ref) (make_natnum p 1) ∧
        refcount p (module_make_global_ref p host env w ref).world (value_to_lisp p w ref)
          = some 1 ∧
        (module_make_global_ref p host env w ref).env = env ∧
        value_to_lisp p (module_make_global_ref p host env w ref).world
          (module_make_global_ref p host env w ref).value = value_to_lisp p w ref) ∧
    (∀ c : Int, refcount p w (value_to_lisp p w ref) = some c → 0 ≤ c →
      c < MOST_POSITIVE_FIXNUM p →
        refcount p (module_make_global_ref p host env w ref).world (value_to_lisp p w ref)
          = some (c + 1) ∧
        (module_make_global_ref p host env w ref).env = env ∧
        value_to_lisp p (module_make_global_ref p host env w ref).world
          (module_make_global_ref p host env w ref).value = value_to_lisp p w ref) ∧
    (refcount p w (value_to_lisp p w ref) = some (MOST_POSITIVE_FIXNUM p) →
      (module_make_global_ref p host env w ref).value = module_nil ∧
        (module_make_global_ref p host env w ref).env
          = ⟨emacs_funcall_exit_signal, host.Qoverflow_error, Qnil⟩ ∧
        (module_make_global_ref p host env w ref).world = w) := by
  refine ⟨?_, ?_, ?_⟩
  · intro hnone
    have hl : hash_lookup w.Vmodule_refs_hash (value_to_lisp p w ref) = none := by
      simpa [refcount] using hnone
    obtain ⟨v, w1, hret, hcf, hdec⟩ := return_lisp_to_value_ok hp env
      (w := { w with
        handlerlist := handlertype.CATCHER_ALL :: handlertype.CONDITION_CASE :: w.handlerlist
        Vmodule_refs_hash :=
          hash_put w.Vmodule_refs_hash (value_to_lisp p w ref) (make_natnum p 1) })
      hok hv hmem
    have hr : module_make_global_ref p host env w ref
        = ⟨v, env, module_reset_handlerlist (module_reset_handlerlist w1)⟩ := by
      unfold module_make_global_ref
      apply MODULE_FUNCTION_BEGIN_value henv hroom
      show (match hash_lookup w.Vmodule_refs_hash (value_to_lisp p w ref) with
        | some i => _ | none => _) = _
      rw [hl]
      exact hret
    have htab : w1.Vmodule_refs_hash
        = hash_put w.Vmodule_refs_hash (value_to_lisp p w ref) (make_natnum p 1) := by
      rw [hcf.1]
    rw [hr]
    refine ⟨htab, ?_, rfl, ?_⟩
    · have h1 := hash_lookup_hash_put (make_natnum p 1) hl
      have hone : (1 : Int) ≤ MOST_POSITIVE_FIXNUM p := by
        rcases hp with ⟨_, hE⟩ | ⟨_, hE⟩ | ⟨_, hE⟩ <;>
          simp [MOST_POSITIVE_FIXNUM, EMACS_INT_MAX, INTTYPEBITS, GCTYPEBITS, hE]
      simp only [refcount, module_reset_handlerlist, htab, h1.1, h1.2, Option.map_some',
        XFASTINT_make_natnum hp (by omega : (0 : Int) ≤ 1) hone]
    · exact (value_to_lisp_congr (w := w1) rfl rfl rfl v).trans hdec
  · intro c hc h0 hlt
    obtain ⟨i, hl, hci⟩ : ∃ i, hash_lookup w.Vmodule_refs_hash (value_to_lisp p w ref) = some i ∧
        XFASTINT p (HASH_VALUE w.Vmodule_refs_hash i) = c := by
      simp only [refcount, Option.map_eq_some'] at hc
      exact hc
    obtain ⟨v, w1, hret, hcf, hdec⟩ := return_lisp_to_value_ok hp env
      (w := { w with
        handlerlist := handlertype.CATCHER_ALL :: handlertype.CONDITION_CASE :: w.handlerlist
        Vmodule_refs_hash :=
          set_hash_value_slot w.Vmodule_refs_hash i (make_natnum p (c + 1)) })
      hok hv hmem
    have hr : module_make_global_ref p host env w ref
        = ⟨v, env, module_reset_handlerlist (module_reset_handlerlist w1)⟩ := by
      unfold module_make_global_ref
      apply MODULE_FUNCTION_BEGIN_value henv hroom
      show (match hash_lookup w.Vmodule_refs_hash (value_to_lisp p w ref) with
        | some i => _ | none => _) = _
      rw [hl]
      simp only [hci]
      rw [if_neg (by omega)]
      exact hret
    have htab : w1.Vmodule_refs_hash
        = set_hash_value_slot w.Vmodule_refs_hash i (make_natnum p (c + 1)) := by
      rw [hcf.1]
    rw [hr]
    refine ⟨?_, rfl, ?_⟩
    · simp only [refcount, module_reset_handlerlist, htab, hash_lookup_set_hash_value_slot, hl,
        Option.map_some', HASH_VALUE_set_hash_value_slot _ (hash_lookup_lt hl),
        XFASTINT_make_natnum hp (by omega : (0 : Int) ≤ c + 1) (by omega)]
    · exact (value_to_lisp_congr (w := w1) rfl rfl rfl v).trans hdec
  · intro hc
    obtain ⟨i, hl, hci⟩ : ∃ i, hash_lookup w.Vmodule_refs_hash (value_to_lisp p w ref) = some i ∧
        XFASTINT p (HASH_VALUE w.Vmodule_refs_hash i) = MOST_POSITIVE_FIXNUM p := by
      simp only [refcount, Option.map_eq_some'] at hc
      exact hc
    have hr : module_make_global_ref p host env w ref
        = ⟨module_nil, module_non_local_exit_signal_1 env host.Qoverflow_error Qnil,
            module_reset_handlerlist (module_reset_handlerlist
              { w with handlerlist :=
                handlertype.CATCHER_ALL :: handlertype.CONDITION_CASE :: w.handlerlist })⟩ := by
      unfold module_make_global_ref
      apply MODULE_FUNCTION_BEGIN_value henv hroom
      show (match hash_lookup w.Vmodule_refs_hash (value_to_lisp p w ref) with
        | some i => _ | none => _) = _
      rw [hl]
      simp only [hci]
      rw [if_pos (by omega)]
    rw [hr]
    refine ⟨rfl, ?_, rfl⟩
    simp [module_non_local_exit_signal_1, henv]

/-- The theorem `module_make_global_ref_spec` at a concrete input:
on a 64-bit host, nil has the count 5; after
`module_make_global_ref` on its handle the count is 6, the state is normal
and the returned handle decodes to nil. -/
theorem module_make_global_ref_spec_witness :
    refcount plain64 (World.start [] 0 [(Qnil, make_natnum plain64 5)]) Qnil = some 5 ∧
    (refcount plain64
        (module_make_global_ref plain64 Host.quiet emacs_env_private.normal
          (World.start [] 0 [(Qnil, make_natnum plain64 5)]) 0).world Qnil = some (5 + 1) ∧
      (module_make_global_ref plain64 Host.quiet emacs_env_private.normal
          (World.start [] 0 [(Qnil, make_natnum plain64 5)]) 0).env
        = emacs_env_private.normal ∧
      value_to_lisp plain64
        (module_make_global_ref plain64 Host.quiet emacs_env_private.normal
          (World.start [] 0 [(Qnil, make_natnum plain64 5)]) 0).world
        (module_make_global_ref plain64 Host.quiet emacs_env_private.normal
          (World.start [] 0 [(Qnil, make_natnum plain64 5)]) 0).value = Qnil) :=
  ⟨by decide,
    (module_make_global_ref_spec plain64 Host.quiet emacs_env_private.normal
      (World.start [] 0 [(Qnil, make_natnum plain64 5)]) 0 (by decide) (by decide) rfl
      (by decide) (by decide) (by decide)).2.1 5 (by decide) (by decide) (by decide)⟩

/-- C9 fails on the code: on a 64-bit host with an empty table, two
`module_make_global_ref` on the handle of nil give nil the count 2, and the
two `module_free_global_ref` that follow leave nil in the table, with the
count 1, where the claim has the entry removed; a third one changes nothing
and the environment is in the normal state throughout. -/
theorem module_free_global_ref_keeps_entry :
    refcount plain64 (World.start [] 0 []) Qnil = none ∧
    refcount plain64
      (make_global_refs plain64 Host.quiet 2 emacs_env_private.normal
        (World.start [] 0 []) 0).2 Qnil = some 2 ∧
    refcount plain64
      (free_global_refs plain64 1
        (make_global_refs plain64 Host.quiet 2 emacs_env_private.normal
          (World.start [] 0 []) 0).1
        (make_global_refs plain64 Host.quiet 2 emacs_env_private.normal
          (World.start [] 0 []) 0).2 0).2 Qnil = some 1 ∧
    (free_global_refs plain64 2
        (make_global_refs plain64 Host.quiet 2 emacs_env_private.normal
          (World.start [] 0 []) 0).1
        (make_global_refs plain64 Host.quiet 2 emacs_env_private.normal
          (World.start [] 0 []) 0).2 0).2.Vmodule_refs_hash
      = [(Qnil, make_natnum plain64 1)] ∧
    (free_global_refs plain64 3
        (make_global_refs plain64 Host.quiet 2 emacs_env_private.normal
          (World.start [] 0 []) 0).1
        (make_global_refs plain64 Host.quiet 2 emacs_env_private.normal
          (World.start [] 0 []) 0).2 0).2.Vmodule_refs_hash
      = [(Qnil, make_natnum plain64 1)] ∧
    (free_global_refs plain64 3
        (make_global_refs plain64 Host.quiet 2 emacs_env_private.normal
          (World.start [] 0 []) 0).1
        (make_global_refs plain64 Host.quiet 2 emacs_env_private.normal
          (World.start [] 0 []) 0).2 0).1 = emacs_env_private.normal := by
  decide

/-! ## Properties of the invocation path -/

theorem XCONS_make_lisp_ptr_of_supported {p : Platform} (hp : p.Supported) {a : Nat}
    (ha : a < 2 ^ p.ptrBits) (hfit : p.USE_LSB_TAG = false → a < 2 ^ VALBITS p) :
    XCONS p (make_lisp_ptr p a (Lisp_Cons p)) = a := by
  rcases hp with ⟨hP, hE⟩ | ⟨hP, hE⟩ | ⟨hP, hE⟩ <;> cases hl : p.USE_LSB_TAG <;>
    simp only [XCONS, XUNTAG, make_lisp_ptr, Lisp_Cons, XIL, XLI, intptr_to_EMACS_INT, VALBITS,
      GCTYPEBITS, Bool.false_eq_true, if_false, if_true, hP, hE, hl, Nat.reducePow,
      Nat.reduceSub, Nat.reduceMul, forall_const] at ha hfit ⊢ <;>
    first
      | omega
      | (split <;> omega)

/-- What `initialize_environment` does when memory is at hand: the pending
exit is reset, a save pointer takes the first free address and the cell of the
new head of `Vmodule_environments` the second; its cdr is the former list. -/
theorem initialize_environment_spec {p : Platform} {w w1 : World} {pub : Nat}
    {priv priv1 : emacs_env_private}
    (h : initialize_environment p w pub priv = (priv1, HostResult.value () w1)) :
    priv1 = { priv with pending_non_local_exit := emacs_funcall_exit_return } ∧
    ∃ m c rest, w.free = m :: c :: rest ∧ w1.free = rest ∧
      w1.Vmodule_environments = make_lisp_ptr p c (Lisp_Cons p) ∧
      w1.cdr c = w.Vmodule_environments ∧
      w1.car c = make_lisp_ptr p m Lisp_Misc := by
  unfold initialize_environment at h
  simp only [Prod.mk.injEq] at h
  obtain ⟨h1, h2⟩ := h
  refine ⟨h1.symm, ?_⟩
  rcases hf : w.free with _ | ⟨m, _ | ⟨c, rest⟩⟩
  · simp [make_save_ptr, allocate, hf, or_memory_full, memory_full, HostResult.bind] at h2
  · simp [make_save_ptr, allocate, hf, or_memory_full, memory_full, HostResult.bind, Fcons] at h2
  · simp only [make_save_ptr, allocate, hf, or_memory_full, HostResult.bind, Fcons,
      HostResult.value.injEq, true_and] at h2
    subst h2
    exact ⟨m, c, rest, rfl, rfl, rfl, by simp, by simp⟩

/-- The path of `Finternal_module_call` through the foreign function: when the
checks of the function environment and of the arity pass, the environment is
initialised and the arguments are encoded, the call ends as the pending exit
the foreign function left says, after `finalize_environment`. -/
theorem Finternal_module_call_invoke {p : Platform} (host : Host) {w w1 w2 w3 : World}
    {arglist args : List Nat} {pub ret : Nat} {priv priv1 priv2 : emacs_env_private}
    (hsv : SAVE_VALUEP p w (arglist.getD 0 Qnil) = true)
    (hst : w.save_type (XUNTAG p (arglist.getD 0 Qnil) Lisp_Misc) = SAVE_POINTER)
    (har : (w.fun_envs (w.save_pointer (XUNTAG p (arglist.getD 0 Qnil) Lisp_Misc))).min_arity
        ≤ (arglist.length : Int) - 1 ∧
      (arglist.length : Int) - 1 ≤
        (if (w.fun_envs (w.save_pointer (XUNTAG p (arglist.getD 0 Qnil) Lisp_Misc))).max_arity
            < 0 then PTRDIFF_MAX p
         else (w.fun_envs (w.save_pointer (XUNTAG p (arglist.getD 0 Qnil) Lisp_Misc))).max_arity))
    (hinit : initialize_environment p w pub priv = (priv1, HostResult.value () w1))
    (henc : (if plain_values p then (some (arglist.drop 1), w1)
        else lisp_to_value_args p w1
          ((arglist.drop 1).take ((arglist.length : Int) - 1).toNat)) = (some args, w2))
    (hsubr : host.subr
        (w.fun_envs (w.save_pointer (XUNTAG p (arglist.getD 0 Qnil) Lisp_Misc))).subr priv1 w2
        ((arglist.length : Int) - 1) args
        (w.fun_envs (w.save_pointer (XUNTAG p (arglist.getD 0 Qnil) Lisp_Misc))).data
      = (ret, priv2, w3)) :
    Finternal_module_call p host w arglist pub priv =
      match priv2.pending_non_local_exit with
      | emacs_funcall_exit_return =>
        HostResult.value (value_to_lisp p (finalize_environment p w3) ret)
          (finalize_environment p w3)
      | emacs_funcall_exit_signal =>
        HostResult.signal priv2.non_local_exit_symbol priv2.non_local_exit_data
          (finalize_environment p w3)
      | emacs_funcall_exit_throw =>
        HostResult.throw priv2.non_local_exit_symbol priv2.non_local_exit_data
          (finalize_environment p w3) := by
  unfold Finternal_module_call
  simp only [hsv, hst, Bool.not_true, Bool.false_eq_true, if_false, beq_self_eq_true, har,
    and_self, not_true_eq_false, hinit, henc, hsubr]

/-- C5. Invocation outcome translation: for every call of
`internal--module-call` that passes the checks of its function environment and
the arity check, once the environment is initialised, the arguments are
encoded and the foreign function has returned the handle `ret`: with no exit
pending the call returns `value_to_lisp (ret)`; with the error `(sym . data)`
pending it signals exactly `sym` and `data`; with a throw pending it throws
exactly the recorded value to the recorded tag; and the pending exit is one of
the three. -/
theorem Finternal_module_call_outcome (p : Platform) (host : Host) (w w1 w2 w3 : World)
    (arglist args : List Nat) (pub ret : Nat) (priv priv1 priv2 : emacs_env_private)
    (hsv : SAVE_VALUEP p w (arglist.getD 0 Qnil) = true)
    (hst : w.save_type (XUNTAG p (arglist.getD 0 Qnil) Lisp_Misc) = SAVE_POINTER)
    (har : (w.fun_envs (w.save_pointer (XUNTAG p (arglist.getD 0 Qnil) Lisp_Misc))).min_arity
        ≤ (arglist.length : Int) - 1 ∧
      (arglist.length : Int) - 1 ≤
        (if (w.fun_envs (w.save_pointer (XUNTAG p (arglist.getD 0 Qnil) Lisp_Misc))).max_arity
            < 0 then PTRDIFF_MAX p
         else (w.fun_envs (w.save_pointer (XUNTAG p (arglist.getD 0 Qnil) Lisp_Misc))).max_arity))
    (hinit : initialize_environment p w pub priv = (priv1, HostResult.value () w1))
    (henc : (if plain_values p then (some (arglist.drop 1), w1)
        else lisp_to_value_args p w1
          ((arglist.drop 1).take ((arglist.length : Int) - 1).toNat)) = (some args, w2))
    (hsubr : host.subr
        (w.fun_envs (w.save_pointer (XUNTAG p (arglist.getD 0 Qnil) Lisp_Misc))).subr priv1 w2
        ((arglist.length : Int) - 1) args
        (w.fun_envs (w.save_pointer (XUNTAG p (arglist.getD 0 Qnil) Lisp_Misc))).data
      = (ret, priv2, w3)) :
    priv1.pending_non_local_exit = emacs_funcall_exit_return ∧
    (priv2.pending_non_local_exit = emacs_funcall_exit_return →
      Finternal_module_call p host w arglist pub priv
        = HostResult.value (value_to_lisp p w3 ret) (finalize_environment p w3)) ∧
    (priv2.pending_non_local_exit = emacs_funcall_exit_signal →
      Finternal_module_call p host w arglist pub priv
        = HostResult.signal priv2.non_local_exit_symbol priv2.non_local_exit_data
            (finalize_environment p w3)) ∧
    (priv2.pending_non_local_exit = emacs_funcall_exit_throw →
      Finternal_module_call p host w arglist pub priv
        = HostResult.throw priv2.non_local_exit_symbol priv2.non_local_exit_data
            (finalize_environment p w3)) ∧
    (priv2.pending_non_local_exit = emacs_funcall_exit_return ∨
      priv2.pending_non_local_exit = emacs_funcall_exit_signal ∨
      priv2.pending_non_local_exit = emacs_funcall_exit_throw) := by
  have h := Finternal_module_call_invoke host hsv hst har hinit henc hsubr
  refine ⟨by rw [(initialize_environment_spec hinit).1], ?_, ?_, ?_, ?_⟩
  · intro hk
    rw [h, hk]
    simp only
    rw [@value_to_lisp_congr p w3 (finalize_environment p w3) rfl rfl rfl]
  · intro hk; rw [h, hk]
  · intro hk; rw [h, hk]
  · cases priv2.pending_non_local_exit <;> simp

/-- C5 at a concrete input: on a 64-bit host the module function of
`World.with_function 1 1` is called with one argument, the fixnum 1.  The
foreign function of `Host.failing` records `(wrong-type-argument)` and
returns; the call signals that error with that data. -/
theorem Finternal_module_call_outcome_witness :
    Finternal_module_call plain64 Host.failing (World.with_function 1 1) [9, 6] 1000
        emacs_env_private.normal
      = HostResult.signal Host.quiet.Qwrong_type_argument Qnil
          (finalize_environment plain64
            (initialize_environment plain64 (World.with_function 1 1) 1000
              emacs_env_private.normal).2.world) :=
  (Finternal_module_call_outcome plain64 Host.failing (World.with_function 1 1) _ _ _
    [9, 6] [6] 1000 module_nil emacs_env_private.normal emacs_env_private.normal
    ⟨emacs_funcall_exit_signal, Host.quiet.Qwrong_type_argument, Qnil⟩
    (by decide) (by decide) (by decide) rfl rfl rfl).2.2.1 rfl

theorem Fcons_Vmodule_environments {p : Platform} {w w1 : World} {x y : Nat} {r : Option Nat}
    (h : Fcons p w x y = (r, w1)) : w1.Vmodule_environments = w.Vmodule_environments := by
  unfold Fcons at h
  split at h <;> simp only [Prod.mk.injEq] at h <;> rw [← h.2]

theorem list2_Vmodule_environments {p : Platform} {w w1 : World} {x y : Nat} {r : Option Nat}
    (h : list2 p w x y = (r, w1)) : w1.Vmodule_environments = w.Vmodule_environments := by
  unfold list2 at h
  rcases hF : Fcons p w y Qnil with ⟨_ | tl, w0⟩
  · simp only [hF, Prod.mk.injEq] at h
    rw [← h.2]; exact Fcons_Vmodule_environments hF
  · simp only [hF] at h
    rw [Fcons_Vmodule_environments h, Fcons_Vmodule_environments hF]

/-- C6. Invocation arity check: for a function environment as
`module_make_function` admits them (a negative maximum is the variadic
marker) and an argument array whose length is a `ptrdiff_t`, with `len` one
less than that length: if `len` is below the minimum, or the maximum is not
the variadic marker and `len` is above it, the call is the rendering of the
function followed by `xsignal2 (Qwrong_number_of_arguments, ...)`, so it
signals `wrong-number-of-arguments` with the list of the rendered function and
`len` as soon as both can be built; the result does not depend on the foreign
function, and `Vmodule_environments` is what the rendering left.  Otherwise the
arity check lets the call through to the foreign function, whose pending exit
decides the outcome. -/
theorem Finternal_module_call_arity (p : Platform) (host : Host) (w : World)
    (arglist : List Nat) (pub : Nat) (priv : emacs_env_private)
    (hsv : SAVE_VALUEP p w (arglist.getD 0 Qnil) = true)
    (hst : w.save_type (XUNTAG p (arglist.getD 0 Qnil) Lisp_Misc) = SAVE_POINTER)
    (hfe : (w.fun_envs (w.save_pointer (XUNTAG p (arglist.getD 0 Qnil) Lisp_Misc))).max_arity
        < 0 →
      (w.fun_envs (w.save_pointer (XUNTAG p (arglist.getD 0 Qnil) Lisp_Misc))).max_arity
        = emacs_variadic_function)
    (hn : (arglist.length : Int) ≤ PTRDIFF_MAX p) :
    (((arglist.length : Int) - 1
          < (w.fun_envs (w.save_pointer (XUNTAG p (arglist.getD 0 Qnil) Lisp_Misc))).min_arity ∨
        ((w.fun_envs (w.save_pointer (XUNTAG p (arglist.getD 0 Qnil) Lisp_Misc))).max_arity
            ≠ emacs_variadic_function ∧
          (w.fun_envs (w.save_pointer (XUNTAG p (arglist.getD 0 Qnil) Lisp_Misc))).max_arity
            < (arglist.length : Int) - 1)) →
      Finternal_module_call p host w arglist pub priv
        = (module_format_fun_env p host w
            (w.fun_envs (w.save_pointer (XUNTAG p (arglist.getD 0 Qnil) Lisp_Misc)))).bind
          (fun f w1 => xsignal2 p w1 host.Qwrong_number_of_arguments f
            (make_number p ((arglist.length : Int) - 1))) ∧
      (∀ f w1 data w2,
        module_format_fun_env p host w
          (w.fun_envs (w.save_pointer (XUNTAG p (arglist.getD 0 Qnil) Lisp_Misc)))
          = HostResult.value f w1 →
        list2 p w1 f (make_number p ((arglist.length : Int) - 1)) = (some data, w2) →
        Finternal_module_call p host w arglist pub priv
          = HostResult.signal host.Qwrong_number_of_arguments data w2 ∧
        w2.Vmodule_environments = w1.Vmodule_environments) ∧
      (∀ subr, Finternal_module_call p { host with subr := subr } w arglist pub priv
        = Finternal_module_call p host w arglist pub priv)) ∧
    (¬ ((arglist.length : Int) - 1
          < (w.fun_envs (w.save_pointer (XUNTAG p (arglist.getD 0 Qnil) Lisp_Misc))).min_arity ∨
        ((w.fun_envs (w.save_pointer (XUNTAG p (arglist.getD 0 Qnil) Lisp_Misc))).max_arity
            ≠ emacs_variadic_function ∧
          (w.fun_envs (w.save_pointer (XUNTAG p (arglist.getD 0 Qnil) Lisp_Misc))).max_arity
            < (arglist.length : Int) - 1)) →
      ∀ priv1 w1 args w2 ret priv2 w3,
        initialize_environment p w pub priv = (priv1, HostResult.value () w1) →
        (if plain_values p then (some (arglist.drop 1), w1)
          else lisp_to_value_args p w1
            ((arglist.drop 1).take ((arglist.length : Int) - 1).toNat)) = (some args, w2) →
        host.subr
          (w.fun_envs (w.save_pointer (XUNTAG p (arglist.getD 0 Qnil) Lisp_Misc))).subr priv1
          w2 ((arglist.length : Int) - 1) args
          (w.fun_envs (w.save_pointer (XUNTAG p (arglist.getD 0 Qnil) Lisp_Misc))).data
          = (ret, priv2, w3) →
        Finternal_module_call p host w arglist pub priv =
          match priv2.pending_non_local_exit with
          | emacs_funcall_exit_return =>
            HostResult.value (value_to_lisp p (finalize_environment p w3) ret)
              (finalize_environment p w3)
          | emacs_funcall_exit_signal =>
            HostResult.signal priv2.non_local_exit_symbol priv2.non_local_exit_data
              (finalize_environment p w3)
          | emacs_funcall_exit_throw =>
            HostResult.throw priv2.non_local_exit_symbol priv2.non_local_exit_data
              (finalize_environment p w3)) := by
  generalize hfe_def :
    w.fun_envs (w.save_pointer (XUNTAG p (arglist.getD 0 Qnil) Lisp_Misc)) = fe at *
  constructor
  · intro hmis
    have hbad : ¬ (fe.min_arity ≤ (arglist.length : Int) - 1 ∧
        (arglist.length : Int) - 1 ≤ (if fe.max_arity < 0 then PTRDIFF_MAX p
          else fe.max_arity)) := by
      rintro ⟨h1, h2⟩
      rcases hmis with h | ⟨hne, hlt⟩
      · omega
      · by_cases hneg : fe.max_arity < 0
        · exact hne (hfe hneg)
        · rw [if_neg hneg] at h2; omega
    have hF : ∀ host1 : Host,
        Finternal_module_call p host1 w arglist pub priv
        = (module_format_fun_env p host1 w fe).bind
          (fun f w1 => xsignal2 p w1 host1.Qwrong_number_of_arguments f
            (make_number p ((arglist.length : Int) - 1))) := by
      intro host1
      unfold Finternal_module_call
      simp only [hsv, hst, Bool.not_true, Bool.false_eq_true, if_false, beq_self_eq_true,
        hfe_def, hbad, not_false_eq_true, if_true]
    refine ⟨hF host, ?_, ?_⟩
    · intro f w1 data w2 hfmt hl2
      rw [hF host, hfmt]
      simp only [HostResult.bind, xsignal2, hl2, true_and]
      exact list2_Vmodule_environments hl2
    · intro subr
      rw [hF host, hF { host with subr := subr }]
      rfl
  · intro hok priv1 w1 args w2 ret priv2 w3 hinit henc hsubr
    have har : fe.min_arity ≤ (arglist.length : Int) - 1 ∧
        (arglist.length : Int) - 1 ≤ (if fe.max_arity < 0 then PTRDIFF_MAX p
          else fe.max_arity) := by
      constructor
      · by_contra h; exact hok (Or.inl (by omega))
      · by_cases hneg : fe.max_arity < 0
        · rw [if_pos hneg]; omega
        · rw [if_neg hneg]
          by_contra h
          refine hok (Or.inr ⟨?_, by omega⟩)
          intro he; rw [he] at hneg; exact hneg (by decide)
    subst hfe_def
    exact Finternal_module_call_invoke host hsv hst har hinit henc hsubr

/-- C6 at a concrete input: on a 64-bit host the module function of
`World.with_function 1 1` (one argument exactly) is called with no argument.
The call signals `wrong-number-of-arguments`; its data is the list, at 43, of
the rendered function (the string at 28) and the fixnum 0. -/
theorem Finternal_module_call_arity_witness :
    Finternal_module_call plain64 Host.quiet (World.with_function 1 1) [9] 1000
        emacs_env_private.normal
      = HostResult.signal Host.quiet.Qwrong_number_of_arguments 43
          (list2 plain64
            (module_format_fun_env plain64 Host.quiet (World.with_function 1 1)
              ⟨1, 1, 77, 5⟩).world 28 (make_number plain64 0)).2 :=
  (((Finternal_module_call_arity plain64 Host.quiet (World.with_function 1 1) [9] 1000
    emacs_env_private.normal (by decide) (by decide) (by decide) (by decide)).1
    (Or.inl (by decide))).2.1 28 _ 43 _ rfl rfl).1

theorem lisp_to_value_args_cells {p : Platform} (hp : p.Supported) :
    ∀ (l : List Nat) (w w1 : World) (args : List Nat), w.FreeCellsOK p →
      (∀ o ∈ l, o < 2 ^ p.intBits) → lisp_to_value_args p w l = (some args, w1) →
      (∀ c, c ∉ w.free → w1.cdr c = w.cdr c) ∧
        w1.Vmodule_environments = w.Vmodule_environments := by
  intro l
  induction l with
  | nil =>
    intro w w1 r _ _ h
    simp only [lisp_to_value_args, Prod.mk.injEq] at h
    rw [← h.2]; exact ⟨fun _ _ => rfl, rfl⟩
  | cons o rest ih =>
    intro w w1 r hok hlt h
    simp only [lisp_to_value_args] at h
    rcases hl : lisp_to_value p w o with ⟨_ | v, w0⟩
    · simp [hl] at h
    · have hcf := lisp_to_value_cells hp hok (hlt o (by simp)) hl
      have hok0 : w0.FreeCellsOK p := hok.of_suffix hcf.2.1
      have hrest : ∀ o ∈ rest, o < 2 ^ p.intBits := fun o ho => hlt o (by simp [ho])
      simp only [hl] at h
      rcases hr : lisp_to_value_args p w0 rest with ⟨_ | r0, w00⟩
      · simp [hr] at h
      · have := ih w0 w00 r0 hok0 hrest hr
        have hw : w1 = w00 := by
          rw [hr] at h
          simp only [Prod.mk.injEq] at h
          exact h.2.symm
        subst hw
        refine ⟨fun c hc => ?_, ?_⟩
        · rw [this.1 c (fun h1 => hc (hcf.2.1.subset h1)), (hcf.2.2 c hc).2]
        · rw [this.2, hcf.1]

/-- C8. Environment teardown on every path: for every call of
`internal--module-call` that reaches the foreign function (the checks pass,
the environment is initialised, the arguments are encoded), whatever exit the
foreign function leaves pending (none, a signal, a throw) the world the call
leaves is `finalize_environment` applied once to the world the foreign
function left; the foreign function is entered with the new environment pushed
on the list of before the call; and when it returns with
`Vmodule_environments` and the cdr of its head as it found them, the list
after the call is the list before the call.  When the arity check fails and
the function is rendered, `Vmodule_environments` is what the rendering left:
no environment was pushed. -/
theorem Finternal_module_call_teardown (p : Platform) (host : Host) (w w1 w2 w3 : World)
    (arglist args : List Nat) (pub ret : Nat) (priv priv1 priv2 : emacs_env_private)
    (hp : p.Supported) (hok : w.FreeCellsOK p) (hargs : ∀ o ∈ arglist, o < 2 ^ p.intBits)
    (hsv : SAVE_VALUEP p w (arglist.getD 0 Qnil) = true)
    (hst : w.save_type (XUNTAG p (arglist.getD 0 Qnil) Lisp_Misc) = SAVE_POINTER)
    (hinit : initialize_environment p w pub priv = (priv1, HostResult.value () w1))
    (henc : (if plain_values p then (some (arglist.drop 1), w1)
        else lisp_to_value_args p w1
          ((arglist.drop 1).take ((arglist.length : Int) - 1).toNat)) = (some args, w2))
    (hsubr : host.subr
        (w.fun_envs (w.save_pointer (XUNTAG p (arglist.getD 0 Qnil) Lisp_Misc))).subr priv1 w2
        ((arglist.length : Int) - 1) args
        (w.fun_envs (w.save_pointer (XUNTAG p (arglist.getD 0 Qnil) Lisp_Misc))).data
      = (ret, priv2, w3)) :
    (((w.fun_envs (w.save_pointer (XUNTAG p (arglist.getD 0 Qnil) Lisp_Misc))).min_arity
        ≤ (arglist.length : Int) - 1 ∧
      (arglist.length : Int) - 1 ≤
        (if (w.fun_envs (w.save_pointer (XUNTAG p (arglist.getD 0 Qnil) Lisp_Misc))).max_arity
            < 0 then PTRDIFF_MAX p
         else (w.fun_envs (w.save_pointer (XUNTAG p (arglist.getD 0 Qnil) Lisp_Misc))).max_arity)) →
      (Finternal_module_call p host w arglist pub priv).world = finalize_environment p w3 ∧
      XCDR p w2 w2.Vmodule_environments = w.Vmodule_environments ∧
      (w3.Vmodule_environments = w2.Vmodule_environments →
        XCDR p w3 w3.Vmodule_environments = XCDR p w2 w2.Vmodule_environments →
        (Finternal_module_call p host w arglist pub priv).world.Vmodule_environments
          = w.Vmodule_environments)) ∧
    (¬ ((w.fun_envs (w.save_pointer (XUNTAG p (arglist.getD 0 Qnil) Lisp_Misc))).min_arity
        ≤ (arglist.length : Int) - 1 ∧
      (arglist.length : Int) - 1 ≤
        (if (w.fun_envs (w.save_pointer (XUNTAG p (arglist.getD 0 Qnil) Lisp_Misc))).max_arity
            < 0 then PTRDIFF_MAX p
         else (w.fun_envs (w.save_pointer (XUNTAG p (arglist.getD 0 Qnil) Lisp_Misc))).max_arity)) →
      ∀ f wf, module_format_fun_env p host w
          (w.fun_envs (w.save_pointer (XUNTAG p (arglist.getD 0 Qnil) Lisp_Misc)))
          = HostResult.value f wf →
        (Finternal_module_call p host w arglist pub priv).world.Vmodule_environments
          = wf.Vmodule_environments) := by
  constructor
  · intro har
    have hF := Finternal_module_call_invoke host hsv hst har hinit henc hsubr
    have hworld : (Finternal_module_call p host w arglist pub priv).world
        = finalize_environment p w3 := by
      rw [hF]; cases priv2.pending_non_local_exit <;> rfl
    obtain ⟨_, m, c, rest, hfree, hfree1, hhead, hcdr, _⟩ := initialize_environment_spec hinit
    have hc := hok.2 c (by simp [hfree])
    have hX : XCONS p (make_lisp_ptr p c (Lisp_Cons p)) = c :=
      XCONS_make_lisp_ptr_of_supported hp hc.1 (fun h => (hc.2.2 h).2)
    have hnd : c ∉ rest := by
      have := hok.1
      rw [hfree] at this
      exact (List.nodup_cons.1 (List.nodup_cons.1 this).2).1
    have hok1 : w1.FreeCellsOK p :=
      hok.of_suffix (by rw [hfree, hfree1]; exact ⟨[m, c], rfl⟩)
    have h2 : w2.cdr c = w1.cdr c ∧ w2.Vmodule_environments = w1.Vmodule_environments := by
      cases hpl : plain_values p with
      | true =>
        simp only [hpl, if_true, Prod.mk.injEq] at henc
        rw [← henc.2]; exact ⟨rfl, rfl⟩
      | false =>
        simp only [hpl, Bool.false_eq_true, if_false] at henc
        have := lisp_to_value_args_cells hp _ w1 w2 args hok1
          (fun o ho => hargs o (List.mem_of_mem_drop (List.mem_of_mem_take ho))) henc
        exact ⟨this.1 c (by rw [hfree1]; exact hnd), this.2⟩
    have hcdr2 : XCDR p w2 w2.Vmodule_environments = w.Vmodule_environments := by
      simp only [XCDR]
      rw [h2.2, hhead, hX, h2.1, hcdr]
    refine ⟨hworld, hcdr2, ?_⟩
    intro e1 e2
    rw [hworld]
    simp only [finalize_environment]
    rw [e2, hcdr2]
  · intro hbad f wf hfmt
    unfold Finternal_module_call
    simp only [hsv, hst, Bool.not_true, Bool.false_eq_true, if_false, beq_self_eq_true, hbad,
      not_false_eq_true, if_true, hfmt, HostResult.bind, xsignal2]
    rcases hl : list2 p wf f (make_number p ((arglist.length : Int) - 1)) with ⟨_ | d, wl⟩
    · simp only [memory_full, HostResult.world]
      exact list2_Vmodule_environments hl
    · simp only [HostResult.world]
      exact list2_Vmodule_environments hl

/-- C8 at a concrete input: on a 64-bit host the module function of
`World.with_function 1 1` is called with one argument; the foreign function of
`Host.failing` records an error and leaves the world alone.  After the call
`Vmodule_environments` is again what it was, nil. -/
theorem Finternal_module_call_teardown_witness :
    (Finternal_module_call plain64 Host.failing (World.with_function 1 1) [9, 6] 1000
        emacs_env_private.normal).world.Vmodule_environments
      = (World.with_function 1 1).Vmodule_environments :=
  ((Finternal_module_call_teardown plain64 Host.failing (World.with_function 1 1) _ _ _
    [9, 6] [6] 1000 module_nil emacs_env_private.normal emacs_env_private.normal
    ⟨emacs_funcall_exit_signal, Host.quiet.Qwrong_type_argument, Qnil⟩
    (by decide) (by decide) (by decide) (by decide) (by decide) rfl rfl rfl).1
    (by decide)).2.2 rfl rfl

/-! ## Properties of function registration -/

theorem MODULE_FUNCTION_BEGIN_signal {α : Type} {p : Platform} {retval : α}
    {env env1 : emacs_env_private} {w w3 : World} {sym data : Nat}
    {body : World → emacs_env_private × HostResult α}
    (henv : env.pending_non_local_exit = emacs_funcall_exit_return)
    (hroom : w.handlerlist.length + 2 ≤ w.handler_limit)
    (hbody : body { w with handlerlist :=
        handlertype.CATCHER_ALL :: handlertype.CONDITION_CASE :: w.handlerlist }
      = (env1, HostResult.signal sym data w3)) :
    MODULE_FUNCTION_BEGIN p retval env w body
      = ⟨retval, module_non_local_exit_signal_1 env1 sym data,
          { w3 with handlerlist := w.handlerlist }⟩ := by
  have h1 : w.handlerlist.length < w.handler_limit := by omega
  have h2 : w.handlerlist.length + 1 < w.handler_limit := by omega
  simp [module_non_local_exit_check, MODULE_FUNCTION_BEGIN, MODULE_HANDLE_NONLOCAL_EXIT, henv,
    push_handler_nosignal, h1, h2, hbody, module_handle_signal, module_reset_handlerlist]

theorem make_function_arity_iff (min_arity max_arity : Int) :
    ¬ (0 ≤ min_arity ∧
        (if max_arity < 0 then max_arity = emacs_variadic_function
         else min_arity ≤ max_arity)) ↔
      (min_arity < 0 ∨ (max_arity ≠ emacs_variadic_function ∧ max_arity < min_arity)) := by
  unfold emacs_variadic_function
  split <;> omega

/-- The invalid-arity path of `module_make_function`: the list of the two
bounds is built, the signal is caught and recorded, and only cells of the free
list have changed. -/
theorem module_make_function_invalid {p : Platform} {host : Host} {env : emacs_env_private}
    {w : World} {min_arity max_arity : Int} (subr : Nat) (documentation : Option (List Nat))
    (data : Nat)
    (henv : env.pending_non_local_exit = emacs_funcall_exit_return)
    (hroom : w.handlerlist.length + 2 ≤ w.handler_limit)
    (hmem : 2 ≤ w.free.length)
    (hbad : min_arity < 0 ∨ (max_arity ≠ emacs_variadic_function ∧ max_arity < min_arity)) :
    ∃ l w1, list2 p w (make_number p min_arity) (make_number p max_arity) = (some l, w1) ∧
      module_make_function p host env w min_arity max_arity subr documentation data
        = ⟨module_nil, ⟨emacs_funcall_exit_signal, host.Qinvalid_arity, l⟩, w1⟩ := by
  have hb := (make_function_arity_iff min_arity max_arity).2 hbad
  rcases hf : w.free with _ | ⟨a, _ | ⟨b, rest⟩⟩
  · simp [hf] at hmem
  · simp [hf] at hmem
  · refine ⟨make_lisp_ptr p b (Lisp_Cons p), _, by simp only [list2, Fcons, hf]; rfl, ?_⟩
    unfold module_make_function
    rw [(@MODULE_FUNCTION_BEGIN_signal _ p module_nil env env w _ host.Qinvalid_arity
      (make_lisp_ptr p b (Lisp_Cons p)) _ henv hroom
      (by simp only [hb, not_false_eq_true, if_true, xsignal2, list2, Fcons, hf]; rfl))]
    simp [module_non_local_exit_signal_1, henv]

theorem make_lisp_ptr_lt {p : Platform} (hp : p.Supported) (a t : Nat) :
    make_lisp_ptr p a t < 2 ^ p.intBits := by
  rcases hp with ⟨hP, hE⟩ | ⟨hP, hE⟩ | ⟨hP, hE⟩ <;> cases hl : p.USE_LSB_TAG <;>
    simp only [make_lisp_ptr, XIL, intptr_to_EMACS_INT, VALBITS, GCTYPEBITS, hP, hE, hl,
      Bool.false_eq_true, if_false, if_true, Nat.reducePow, Nat.reduceSub] <;>
    first
      | omega
      | (split <;> omega)

theorem CONSP_make_lisp_ptr_of_supported {p : Platform} (hp : p.Supported) {a : Nat}
    (ha : a < 2 ^ p.ptrBits) (hal : a % GCALIGNMENT = 0)
    (hfit : p.USE_LSB_TAG = false → a < 2 ^ VALBITS p) :
    CONSP p (make_lisp_ptr p a (Lisp_Cons p)) = true := by
  rcases hp with ⟨hP, hE⟩ | ⟨hP, hE⟩ | ⟨hP, hE⟩ <;> cases hl : p.USE_LSB_TAG <;>
    simp only [CONSP, XTYPE, make_lisp_ptr, Lisp_Cons, XIL, XLI, intptr_to_EMACS_INT, VALBITS,
      GCTYPEBITS, GCALIGNMENT, Bool.false_eq_true, if_false, if_true, hP, hE, hl, beq_iff_eq,
      Nat.reducePow, Nat.reduceSub, Nat.reduceMul, forall_const] at ha hal hfit ⊢ <;>
    first
      | omega
      | (split <;> omega)

theorem XUNTAG_make_lisp_ptr_misc {p : Platform} (hp : p.Supported) {a : Nat}
    (ha : a < 2 ^ p.ptrBits) (hfit : p.USE_LSB_TAG = false → a < 2 ^ VALBITS p) :
    XUNTAG p (make_lisp_ptr p a Lisp_Misc) Lisp_Misc = a := by
  rcases hp with ⟨hP, hE⟩ | ⟨hP, hE⟩ | ⟨hP, hE⟩ <;> cases hl : p.USE_LSB_TAG <;>
    simp only [XUNTAG, make_lisp_ptr, Lisp_Misc, XIL, XLI, intptr_to_EMACS_INT, VALBITS,
      GCTYPEBITS, Bool.false_eq_true, if_false, if_true, hP, hE, hl, Nat.reducePow,
      Nat.reduceSub, Nat.reduceMul, forall_const, one_mul] at ha hfit ⊢ <;>
    first
      | omega
      | (split <;> omega)

theorem MISCP_make_lisp_ptr {p : Platform} (hp : p.Supported) {a : Nat}
    (ha : a < 2 ^ p.ptrBits) (hal : a % GCALIGNMENT = 0)
    (hfit : p.USE_LSB_TAG = false → a < 2 ^ VALBITS p) :
    MISCP p (make_lisp_ptr p a Lisp_Misc) = true := by
  rcases hp with ⟨hP, hE⟩ | ⟨hP, hE⟩ | ⟨hP, hE⟩ <;> cases hl : p.USE_LSB_TAG <;>
    simp only [MISCP, XTYPE, make_lisp_ptr, Lisp_Misc, XIL, XLI, intptr_to_EMACS_INT, VALBITS,
      GCTYPEBITS, GCALIGNMENT, Bool.false_eq_true, if_false, if_true, hP, hE, hl, beq_iff_eq,
      Nat.reducePow, Nat.reduceSub, Nat.reduceMul, forall_const, one_mul] at ha hal hfit ⊢ <;>
    first
      | omega
      | (split <;> omega)

/-- A cons at an aligned address the allocator may hand out is compressible. -/
theorem Compressible_make_lisp_ptr {p : Platform} (hp : p.Supported) {a : Nat}
    (ha : a < 2 ^ p.ptrBits) (hal : a % GCALIGNMENT = 0)
    (hlow : p.USE_LSB_TAG = false → a < 2 ^ (p.ptrBits - 1) ∧ a < 2 ^ VALBITS p) :
    Compressible p (make_lisp_ptr p a (Lisp_Cons p)) := by
  cases hpl : plain_values p with
  | true => exact Compressible_of_plain hpl (make_lisp_ptr_lt hp _ _)
  | false =>
    obtain ⟨hP, hE⟩ := wide_of_not_plain hp hpl
    have hb : lisp_to_value_bits p (make_lisp_ptr p a (Lisp_Cons p))
        = (a + Lisp_Cons p) % 2 ^ p.ptrBits := by
      cases hl : p.USE_LSB_TAG
      · have h2 := (hlow hl).1
        simp only [hP, GCALIGNMENT, Nat.reducePow, Nat.reduceSub] at ha hal h2
        have hI : INTEGERP p (make_lisp_ptr p a (Lisp_Cons p)) = false := by
          have hx : XTYPE p (make_lisp_ptr p a (Lisp_Cons p)) = 6 := by
            simp only [XTYPE, make_lisp_ptr, Lisp_Cons, XIL, VALBITS, GCTYPEBITS, hl, hE,
              Bool.false_eq_true, if_false, Nat.reducePow, Nat.reduceSub, Nat.reduceMul]
            omega
          simp only [INTEGERP, hx, Lisp_Int0, Lisp_Int1, hl, Bool.false_eq_true, if_false]
          decide
        have hx : XTYPE p (make_lisp_ptr p a (Lisp_Cons p)) = 6 := by
          simp only [XTYPE, make_lisp_ptr, Lisp_Cons, XIL, VALBITS, GCTYPEBITS, hl, hE,
            Bool.false_eq_true, if_false, Nat.reducePow, Nat.reduceSub, Nat.reduceMul]
          omega
        simp only [lisp_to_value_bits, hpl, hl, Bool.or_false, Bool.false_eq_true, if_false,
          hI, hx, XLI]
        simp only [make_lisp_ptr, Lisp_Cons, XIL, VALBITS, GCTYPEBITS, hl, hE, hP,
          Bool.false_eq_true, if_false, Nat.reducePow, Nat.reduceSub, Nat.reduceMul]
        omega
      · simp only [lisp_to_value_bits, hpl, hl, Bool.or_true, if_true, XLI, make_lisp_ptr,
          Lisp_Cons, XIL, intptr_to_EMACS_INT, hP, hE, Nat.reducePow, Nat.reduceSub]
        simp only [hP, Nat.reducePow] at ha
        split <;> omega
    unfold Compressible
    rw [hb]
    exact value_to_lisp_bits_box hP hE ha hal (fun h => (hlow h).1)

/-- The list building at the end of `module_make_function`, in a world with
twelve aligned free cells: the handle returned decodes to the form
`(lambda (&rest args) DOC (apply (function internal--module-call) ENVOBJ args))`
and nothing but cells has changed. -/
theorem module_make_function_form {p : Platform} (host : Host) (hp : p.Supported)
    {w5 : World} (envobj doc : Nat) (hok : w5.FreeCellsOK p) (hroomy : w5.Roomy 12)
    (hmark : ∀ a ∈ w5.free, make_lisp_ptr p a (Lisp_Cons p) ≠ w5.ltv_mark) :
    ∃ v w9,
      ((or_memory_full p (list2 p w5 host.Qand_rest host.Qargs)).bind fun arglist w6 =>
        (or_memory_full p (list2 p w6 host.Qfunction host.Qinternal_module_call)).bind
          fun fn w7 =>
        (or_memory_full p (list4 p w7 host.Qapply fn envobj host.Qargs)).bind fun body w8 =>
        (or_memory_full p (list4 p w8 host.Qlambda arglist doc body)).bind fun ret w9 =>
        or_memory_full p (lisp_to_value p w9 ret)) = HostResult.value v w9 ∧
      w5.CellsFrom w9 ∧
      CONSP p (value_to_lisp p w9 v) = true ∧
      nth p w9 0 (value_to_lisp p w9 v) = host.Qlambda ∧
      nth p w9 2 (value_to_lisp p w9 v) = doc ∧
      nth p w9 0 (nth p w9 3 (value_to_lisp p w9 v)) = host.Qapply ∧
      nth p w9 2 (nth p w9 3 (value_to_lisp p w9 v)) = envobj := by
  obtain ⟨hlen, hal⟩ := hroomy
  rcases hf : w5.free with _ | ⟨a1, _ | ⟨a2, _ | ⟨a3, _ | ⟨a4, _ | ⟨a5, _ | ⟨a6, _ | ⟨a7,
    _ | ⟨a8, _ | ⟨a9, _ | ⟨a10, _ | ⟨a11, _ | ⟨a12, rest⟩⟩⟩⟩⟩⟩⟩⟩⟩⟩⟩⟩ <;>
    try (simp [hf] at hlen; done)
  have hnd := hok.1
  rw [hf] at hnd
  simp only [List.nodup_cons, List.mem_cons, not_or] at hnd
  have hb := hok.2
  rw [hf] at hb
  rw [hf] at hal hmark
  have hX : ∀ a ∈ [a1, a2, a3, a4, a5, a6, a7, a8, a9, a10, a11, a12],
      XCONS p (make_lisp_ptr p a (Lisp_Cons p)) = a := by
    intro a ha
    have := hb a (List.mem_append_left rest ha)
    exact XCONS_make_lisp_ptr_of_supported hp this.1 (fun h => (this.2.2 h).2)
  simp only [List.mem_cons, List.mem_singleton, forall_eq_or_imp, forall_eq, List.not_mem_nil,
    false_imp_iff, implies_true, and_true] at hX
  have h12 := hb a12 (by simp)
  have hc : Compressible p (make_lisp_ptr p a12 (Lisp_Cons p)) :=
    Compressible_make_lisp_ptr hp h12.1 (hal a12 (by simp)) h12.2.2
  have hcons : CONSP p (make_lisp_ptr p a12 (Lisp_Cons p)) = true :=
    CONSP_make_lisp_ptr_of_supported hp h12.1 (hal a12 (by simp)) (fun h => (h12.2.2 h).2)
  have hm11 := hmark a11 (by simp)
  simp only [list2, list4, Fcons, hf, or_memory_full, HostResult.bind, lisp_to_value_direct hc]
  refine ⟨_, _, rfl, ?_, ?_⟩
  · refine ⟨rfl, ?_, ?_⟩
    · simp only [hf]
      exact ⟨[a1, a2, a3, a4, a5, a6, a7, a8, a9, a10, a11, a12], rfl⟩
    · intro b hbn
      rw [hf] at hbn
      simp only [List.mem_cons, not_or] at hbn
      simp [hbn]
  · have hv : ∀ w : World, w.ltv_mark = w5.ltv_mark →
        w.cdr a12 = make_lisp_ptr p a11 (Lisp_Cons p) →
        value_to_lisp p w (lisp_to_value_bits p (make_lisp_ptr p a12 (Lisp_Cons p)))
          = make_lisp_ptr p a12 (Lisp_Cons p) := by
      intro w hm hcd
      unfold Compressible at hc
      simp only [value_to_lisp, hc, hcons, XCDR, hX, hcd, hm, EQ, Bool.and_true]
      have : (make_lisp_ptr p a11 (Lisp_Cons p) == w5.ltv_mark) = false := by
        simpa using hm11
      simp [this]
    rw [hv]
    · refine ⟨hcons, ?_, ?_, ?_, ?_⟩ <;>
        simp [nth, nthcdr, XCAR, XCDR, hX, hnd]
    · rfl
    · simp

theorem Fcons_cells {p : Platform} {w w1 : World} {x y : Nat} {r : Option Nat}
    (h : Fcons p w x y = (r, w1)) : w.CellsFrom w1 := by
  cases r with
  | none =>
    unfold Fcons at h
    split at h
    · simp only [Prod.mk.injEq, true_and] at h
      rw [← h]; exact World.CellsFrom.refl w
    · simp at h
  | some pair =>
    obtain ⟨_, _, _, _, _, _, _, hcf⟩ := Fcons_spec h
    exact hcf

theorem list2_cells {p : Platform} {w w1 : World} {x y : Nat} {r : Option Nat}
    (h : list2 p w x y = (r, w1)) : w.CellsFrom w1 := by
  unfold list2 at h
  rcases hF : Fcons p w y Qnil with ⟨_ | tl, w0⟩
  · simp only [hF, Prod.mk.injEq] at h
    rw [← h.2]; exact Fcons_cells hF
  · simp only [hF] at h
    exact (Fcons_cells hF).trans (Fcons_cells h)

/-- The valid-arity path of `module_make_function` with memory at hand: the
function environment is stored, a save pointer to it is made, the lambda form
is built around it and its handle returned; the state stays normal. -/
theorem module_make_function_valid {p : Platform} {host : Host} {env : emacs_env_private}
    {w : World} {min_arity max_arity : Int} (subr : Nat) (documentation : Option (List Nat))
    (data : Nat) (hp : p.Supported) (hok : w.FreeCellsOK p)
    (henv : env.pending_non_local_exit = emacs_funcall_exit_return)
    (hroom : w.handlerlist.length + 2 ≤ w.handler_limit)
    (hroomy : w.Roomy 15)
    (hmark : ∀ a ∈ w.free, make_lisp_ptr p a (Lisp_Cons p) ≠ w.ltv_mark)
    (hconv : ∀ w s, ∃ o,
      host.code_convert_string_norecord w s host.Qutf_8 false = HostResult.value o w)
    (hgood : ¬ (min_arity < 0 ∨
      (max_arity ≠ emacs_variadic_function ∧ max_arity < min_arity))) :
    ∃ v w9 envobj,
      module_make_function p host env w min_arity max_arity subr documentation data
        = ⟨v, env, w9⟩ ∧
      w9.handlerlist = w.handlerlist ∧
      SAVE_VALUEP p w9 envobj = true ∧
      w9.save_type (XUNTAG p envobj Lisp_Misc) = SAVE_POINTER ∧
      w9.fun_envs (w9.save_pointer (XUNTAG p envobj Lisp_Misc))
        = ⟨min_arity, max_arity, subr, data⟩ ∧
      CONSP p (value_to_lisp p w9 v) = true ∧
      nth p w9 0 (value_to_lisp p w9 v) = host.Qlambda ∧
      nth p w9 0 (nth p w9 3 (value_to_lisp p w9 v)) = host.Qapply ∧
      nth p w9 2 (nth p w9 3 (value_to_lisp p w9 v)) = envobj := by
  have hb : ¬ ¬ (0 ≤ min_arity ∧
      (if max_arity < 0 then max_arity = emacs_variadic_function
       else min_arity ≤ max_arity)) := fun h => hgood ((make_function_arity_iff _ _).1 h)
  obtain ⟨hlen, hal⟩ := hroomy
  rcases hf : w.free with _ | ⟨e1, _ | ⟨e2, _ | ⟨e3, rest⟩⟩⟩ <;>
    try (simp [hf] at hlen; done)
  have hlen12 : 12 ≤ rest.length := by simp [hf] at hlen; omega
  have he2 := hok.2 e2 (by simp [hf])
  have hal2 := hal e2 (by simp [hf])
  have hnd := hok.1
  rw [hf] at hnd
  simp only [List.nodup_cons, List.mem_cons, not_or] at hnd
  have hU : XUNTAG p (make_lisp_ptr p e2 Lisp_Misc) Lisp_Misc = e2 :=
    XUNTAG_make_lisp_ptr_misc hp he2.1 (fun h => (he2.2.2 h).2)
  have hM : MISCP p (make_lisp_ptr p e2 Lisp_Misc) = true :=
    MISCP_make_lisp_ptr hp he2.1 hal2 (fun h => (he2.2.2 h).2)
  -- the world in which the lists are built, for either kind of documentation
  have key : ∀ (doc : Nat) (w5 : World), w5.free <:+ w.free → 12 ≤ w5.free.length →
      w5.ltv_mark = w.ltv_mark → w5.handlerlist =
        handlertype.CATCHER_ALL :: handlertype.CONDITION_CASE :: w.handlerlist →
      w5.misc_type e2 = Lisp_Misc_Save_Value → w5.save_type e2 = SAVE_POINTER →
      w5.save_pointer e2 = e1 → w5.fun_envs e1 = ⟨min_arity, max_arity, subr, data⟩ →
      ∃ v w9,
        ((or_memory_full p (list2 p w5 host.Qand_rest host.Qargs)).bind fun arglist w6 =>
          (or_memory_full p (list2 p w6 host.Qfunction host.Qinternal_module_call)).bind
            fun fn w7 =>
          (or_memory_full p (list4 p w7 host.Qapply fn (make_lisp_ptr p e2 Lisp_Misc)
            host.Qargs)).bind fun body w8 =>
          (or_memory_full p (list4 p w8 host.Qlambda arglist doc body)).bind fun ret w9 =>
          or_memory_full p (lisp_to_value p w9 ret)) = HostResult.value v w9 ∧
        (module_reset_handlerlist (module_reset_handlerlist w9)).handlerlist = w.handlerlist ∧
        SAVE_VALUEP p w9 (make_lisp_ptr p e2 Lisp_Misc) = true ∧
        w9.save_type e2 = SAVE_POINTER ∧
        w9.fun_envs (w9.save_pointer e2) = ⟨min_arity, max_arity, subr, data⟩ ∧
        CONSP p (value_to_lisp p w9 v) = true ∧
        nth p w9 0 (value_to_lisp p w9 v) = host.Qlambda ∧
        nth p w9 0 (nth p w9 3 (value_to_lisp p w9 v)) = host.Qapply ∧
        nth p w9 2 (nth p w9 3 (value_to_lisp p w9 v)) = make_lisp_ptr p e2 Lisp_Misc := by
    intro doc w5 hs hl5 hmk hh h1 h2 h3 h4
    obtain ⟨v, w9, hexpr, hcf, hc, hn0, _, hn30, hn32⟩ :=
      module_make_function_form host hp (make_lisp_ptr p e2 Lisp_Misc) doc
        (hok.of_suffix hs) ⟨hl5, fun a ha => hal a (hs.subset ha)⟩
        (fun a ha => by rw [hmk]; exact hmark a (hs.subset ha))
    have e1' : w9.misc_type = w5.misc_type := by rw [hcf.1]
    have e2' : w9.save_type = w5.save_type := by rw [hcf.1]
    have e3' : w9.save_pointer = w5.save_pointer := by rw [hcf.1]
    have e4' : w9.fun_envs = w5.fun_envs := by rw [hcf.1]
    have e5' : w9.handlerlist = w5.handlerlist := by rw [hcf.1]
    refine ⟨v, w9, hexpr, ?_, ?_, ?_, ?_, hc, hn0, hn30, hn32⟩
    · simp [module_reset_handlerlist, e5', hh]
    · simp [SAVE_VALUEP, hM, XMISCTYPE, hU, e1', h1]
    · rw [e2', h2]
    · rw [e3', h3, e4', h4]
  unfold module_make_function
  cases documentation with
  | none =>
    obtain ⟨v, w9, hexpr, hh, hsv, hst, hfe, hc, hn0, hn30, hn32⟩ := key Qnil
      { w with
        free := e3 :: rest
        handlerlist := handlertype.CATCHER_ALL :: handlertype.CONDITION_CASE :: w.handlerlist
        fun_envs := fun a => if a = e1 then ⟨min_arity, max_arity, subr, data⟩
          else w.fun_envs a
        misc_type := fun a => if a = e2 then Lisp_Misc_Save_Value else w.misc_type a
        save_type := fun a => if a = e2 then SAVE_POINTER else w.save_type a
        save_pointer := fun a => if a = e2 then e1 else w.save_pointer a }
      (by simp only [hf]; exact ⟨[e1, e2], rfl⟩) (by simp; omega) rfl rfl (by simp) (by simp)
      (by simp) (by simp)
    refine ⟨v, module_reset_handlerlist (module_reset_handlerlist w9),
      make_lisp_ptr p e2 Lisp_Misc, ?_, hh, ?_, ?_, ?_, ?_, ?_, ?_, ?_⟩
    · apply MODULE_FUNCTION_BEGIN_value henv hroom
      simp only [hb, if_false, allocate, hf, or_memory_full, HostResult.bind, make_save_ptr]
      exact congrArg (Prod.mk env) hexpr
    · exact hsv
    · rw [hU]; exact hst
    · rw [hU]; exact hfe
    · exact hc
    · exact hn0
    · exact hn30
    · exact hn32
  | some bytes =>
    obtain ⟨d, hd⟩ := hconv
      { w with
        free := rest
        handlerlist := handlertype.CATCHER_ALL :: handlertype.CONDITION_CASE :: w.handlerlist
        fun_envs := fun a => if a = e1 then ⟨min_arity, max_arity, subr, data⟩
          else w.fun_envs a
        misc_type := fun a => if a = e2 then Lisp_Misc_Save_Value else w.misc_type a
        save_type := fun a => if a = e2 then SAVE_POINTER else w.save_type a
        save_pointer := fun a => if a = e2 then e1 else w.save_pointer a
        string_data := fun a => if a = e3 then bytes.take (bytes.length : Int).toNat
          else w.string_data a }
      (make_lisp_ptr p e3 Lisp_String)
    obtain ⟨v, w9, hexpr, hh, hsv, hst, hfe, hc, hn0, hn30, hn32⟩ := key d
      { w with
        free := rest
        handlerlist := handlertype.CATCHER_ALL :: handlertype.CONDITION_CASE :: w.handlerlist
        fun_envs := fun a => if a = e1 then ⟨min_arity, max_arity, subr, data⟩
          else w.fun_envs a
        misc_type := fun a => if a = e2 then Lisp_Misc_Save_Value else w.misc_type a
        save_type := fun a => if a = e2 then SAVE_POINTER else w.save_type a
        save_pointer := fun a => if a = e2 then e1 else w.save_pointer a
        string_data := fun a => if a = e3 then bytes.take (bytes.length : Int).toNat
          else w.string_data a }
      (by simp only [hf]; exact ⟨[e1, e2, e3], rfl⟩) (by simpa using hlen12) rfl rfl (by simp)
      (by simp) (by simp) (by simp)
    refine ⟨v, module_reset_handlerlist (module_reset_handlerlist w9),
      make_lisp_ptr p e2 Lisp_Misc, ?_, hh, ?_, ?_, ?_, ?_, ?_, ?_, ?_⟩
    · apply MODULE_FUNCTION_BEGIN_value henv hroom
      simp only [hb, if_false, allocate, hf, or_memory_full, HostResult.bind, make_save_ptr,
        make_unibyte_string, hd]
      exact congrArg (Prod.mk env) hexpr
    · exact hsv
    · rw [hU]; exact hst
    · rw [hU]; exact hfe
    · exact hc
    · exact hn0
    · exact hn30
    · exact hn32

/-- With the free cells of `World.FreeCellsOK`, which with tags in the most
significant bits lie below `2 ^ (ptrBits - 1)`.
Registration arity validation: on an environment in the normal state,
with room for the two handlers, fifteen aligned free cells and a documentation
conversion that succeeds, `module_make_function` records `invalid-arity`
exactly when `min_arity` is negative, or `max_arity` is not the variadic marker
and is below `min_arity`.  In that case it returns `module_nil`, the recorded
data is the list of the two bounds, and no function environment or save
pointer is created.  Otherwise the state stays normal and the handle returned
decodes to a lambda form whose body applies `internal--module-call` to a save
pointer to the function environment with the given bounds, function pointer
and user data. -/
theorem module_make_function_arity (p : Platform) (host : Host) (env : emacs_env_private)
    (w : World) (min_arity max_arity : Int) (subr : Nat) (documentation : Option (List Nat))
    (data : Nat) (hp : p.Supported) (hok : w.FreeCellsOK p)
    (henv : env.pending_non_local_exit = emacs_funcall_exit_return)
    (hroom : w.handlerlist.length + 2 ≤ w.handler_limit)
    (hroomy : w.Roomy 15)
    (hmark : ∀ a ∈ w.free, make_lisp_ptr p a (Lisp_Cons p) ≠ w.ltv_mark)
    (hconv : ∀ w s, ∃ o,
      host.code_convert_string_norecord w s host.Qutf_8 false = HostResult.value o w) :
    (((module_make_function p host env w min_arity max_arity subr documentation
          data).env.pending_non_local_exit = emacs_funcall_exit_signal ∧
        (module_make_function p host env w min_arity max_arity subr documentation
          data).env.non_local_exit_symbol = host.Qinvalid_arity) ↔
      (min_arity < 0 ∨ (max_arity ≠ emacs_variadic_function ∧ max_arity < min_arity))) ∧
    ((min_arity < 0 ∨ (max_arity ≠ emacs_variadic_function ∧ max_arity < min_arity)) →
      (module_make_function p host env w min_arity max_arity subr documentation data).value
        = module_nil ∧
      (module_make_function p host env w min_arity max_arity subr documentation
        data).env.non_local_exit_data
        = ((list2 p w (make_number p min_arity) (make_number p max_arity)).1).getD Qnil ∧
      (module_make_function p host env w min_arity max_arity subr documentation
        data).world.fun_envs = w.fun_envs ∧
      (module_make_function p host env w min_arity max_arity subr documentation
        data).world.misc_type = w.misc_type ∧
      (module_make_function p host env w min_arity max_arity subr documentation
        data).world.save_pointer = w.save_pointer) ∧
    (¬ (min_arity < 0 ∨ (max_arity ≠ emacs_variadic_function ∧ max_arity < min_arity)) →
      (module_make_function p host env w min_arity max_arity subr documentation data).env
        = env ∧
      ∃ envobj,
        SAVE_VALUEP p
          (module_make_function p host env w min_arity max_arity subr documentation
            data).world envobj = true ∧
        (module_make_function p host env w min_arity max_arity subr documentation
          data).world.save_type (XUNTAG p envobj Lisp_Misc) = SAVE_POINTER ∧
        (module_make_function p host env w min_arity max_arity subr documentation
          data).world.fun_envs
            ((module_make_function p host env w min_arity max_arity subr documentation
              data).world.save_pointer (XUNTAG p envobj Lisp_Misc))
          = ⟨min_arity, max_arity, subr, data⟩ ∧
        CONSP p (value_to_lisp p
          (module_make_function p host env w min_arity max_arity subr documentation
            data).world
          (module_make_function p host env w min_arity max_arity subr documentation
            data).value) = true ∧
        nth p
          (module_make_function p host env w min_arity max_arity subr documentation
            data).world 0
          (value_to_lisp p
            (module_make_function p host env w min_arity max_arity subr documentation
              data).world
            (module_make_function p host env w min_arity max_arity subr documentation
              data).value) = host.Qlambda ∧
        nth p
          (module_make_function p host env w min_arity max_arity subr documentation
            data).world 0
          (nth p
            (module_make_function p host env w min_arity max_arity subr documentation
              data).world 3
            (value_to_lisp p
              (module_make_function p host env w min_arity max_arity subr documentation
                data).world
              (module_make_function p host env w min_arity max_arity subr documentation
                data).value)) = host.Qapply ∧
        nth p
          (module_make_function p host env w min_arity max_arity subr documentation
            data).world 2
          (nth p
            (module_make_function p host env w min_arity max_arity subr documentation
              data).world 3
            (value_to_lisp p
              (module_make_function p host env w min_arity max_arity subr documentation
                data).world
              (module_make_function p host env w min_arity max_arity subr documentation
                data).value)) = envobj) := by
  have hbad : (min_arity < 0 ∨ (max_arity ≠ emacs_variadic_function ∧ max_arity < min_arity)) →
      ∃ l w1, list2 p w (make_number p min_arity) (make_number p max_arity) = (some l, w1) ∧
        module_make_function p host env w min_arity max_arity subr documentation data
          = ⟨module_nil, ⟨emacs_funcall_exit_signal, host.Qinvalid_arity, l⟩, w1⟩ :=
    fun h => module_make_function_invalid subr documentation data henv hroom
      (by have := hroomy.1; omega) h
  have hgood : ¬ (min_arity < 0 ∨
      (max_arity ≠ emacs_variadic_function ∧ max_arity < min_arity)) → _ :=
    fun h => module_make_function_valid subr documentation data hp hok henv hroom hroomy
      hmark hconv h
  refine ⟨⟨?_, ?_⟩, ?_, ?_⟩
  · intro hs
    by_contra hn
    obtain ⟨v, w9, envobj, hr, _⟩ := hgood hn
    rw [hr] at hs
    simp only [henv] at hs
    exact absurd hs.1 (by decide)
  · intro h
    obtain ⟨l, w1, _, hr⟩ := hbad h
    rw [hr]; exact ⟨rfl, rfl⟩
  · intro h
    obtain ⟨l, w1, hl, hr⟩ := hbad h
    have hcf := list2_cells hl
    rw [hr, hl]
    refine ⟨rfl, rfl, ?_, ?_, ?_⟩ <;> simp only <;> rw [hcf.1]
  · intro h
    obtain ⟨v, w9, envobj, hr, _, h1, h2, h3, h4, h5, h6, h7⟩ := hgood h
    rw [hr]
    exact ⟨rfl, envobj, h1, h2, h3, h4, h5, h6, h7⟩

/-- The theorem `module_make_function_arity` at concrete inputs,
on a 64-bit host with fifteen free cells: a minimum
of -1 and the bounds (2, 1) record `invalid-arity`; the bounds
(1, variadic) leave the state normal. -/
theorem module_make_function_arity_witness :
    ((module_make_function plain64 Host.quiet emacs_env_private.normal World.roomy (-1) 0 77
          none 5).env.pending_non_local_exit = emacs_funcall_exit_signal ∧
      (module_make_function plain64 Host.quiet emacs_env_private.normal World.roomy (-1) 0 77
          none 5).env.non_local_exit_symbol = Host.quiet.Qinvalid_arity) ∧
    ((module_make_function plain64 Host.quiet emacs_env_private.normal World.roomy 2 1 77
          none 5).env.pending_non_local_exit = emacs_funcall_exit_signal ∧
      (module_make_function plain64 Host.quiet emacs_env_private.normal World.roomy 2 1 77
          none 5).env.non_local_exit_symbol = Host.quiet.Qinvalid_arity) ∧
    (module_make_function plain64 Host.quiet emacs_env_private.normal World.roomy 1
        emacs_variadic_function 77 none 5).env = emacs_env_private.normal :=
  ⟨(module_make_function_arity plain64 Host.quiet emacs_env_private.normal World.roomy (-1) 0
      77 none 5 (by decide) (by decide) rfl (by decide) (by decide) (by decide)
      (fun _ s => ⟨s, rfl⟩)).1.2 (by decide),
    (module_make_function_arity plain64 Host.quiet emacs_env_private.normal World.roomy 2 1
      77 none 5 (by decide) (by decide) rfl (by decide) (by decide) (by decide)
      (fun _ s => ⟨s, rfl⟩)).1.2 (by decide),
    ((module_make_function_arity plain64 Host.quiet emacs_env_private.normal World.roomy 1
      emacs_variadic_function 77 none 5 (by decide) (by decide) rfl (by decide) (by decide)
      (by decide) (fun _ s => ⟨s, rfl⟩)).2.2 (by decide)).1⟩

/-! ## The pending exit: guards, predicates, clearing -/

/-- An environment function in the normal state that finds no room for one of
its two handlers: the body is not run, the memory error is recorded and the
handler that was pushed, if any, is popped again. -/
theorem MODULE_FUNCTION_BEGIN_push_fails {α : Type} (p : Platform) (retval : α)
    (env : emacs_env_private) (w : World)
    (body : World → emacs_env_private × HostResult α)
    (henv : env.pending_non_local_exit = emacs_funcall_exit_return)
    (hfail : push_handler_nosignal w handlertype.CONDITION_CASE = none ∨
      ∃ w1, push_handler_nosignal w handlertype.CONDITION_CASE = some w1 ∧
        push_handler_nosignal w1 handlertype.CATCHER_ALL = none) :
    MODULE_FUNCTION_BEGIN p retval env w body
      = ⟨retval,
          ⟨emacs_funcall_exit_signal, XCAR p w w.Vmemory_signal_data,
            XCDR p w w.Vmemory_signal_data⟩, w⟩ := by
  rcases hfail with h1 | ⟨w1, h1, h2⟩
  · simp [module_non_local_exit_check, MODULE_FUNCTION_BEGIN, MODULE_HANDLE_NONLOCAL_EXIT, henv,
      h1, module_out_of_memory, module_non_local_exit_signal_1]
  · have hw1 : w1 = { w with handlerlist := handlertype.CONDITION_CASE :: w.handlerlist } := by
      unfold push_handler_nosignal at h1
      split at h1
      · exact (Option.some.inj h1).symm
      · exact absurd h1 (by simp)
    subst hw1
    simp [module_non_local_exit_check, MODULE_FUNCTION_BEGIN, MODULE_HANDLE_NONLOCAL_EXIT, henv,
      h1, h2, module_out_of_memory, module_non_local_exit_signal_1, module_reset_handlerlist,
      XCAR, XCDR]

/-- C11. `module_free_global_ref` on the handle of a value that has no entry in
the table, on an environment in the normal state with room for the two
handlers, does nothing: the table and the rest of the world are unchanged and
the environment is as it was, with no exit pending. -/
theorem module_free_global_ref_absent (p : Platform) (env : emacs_env_private) (w : World)
    (ref : Nat)
    (henv : env.pending_non_local_exit = emacs_funcall_exit_return)
    (hroom : w.handlerlist.length + 2 ≤ w.handler_limit)
    (habs : hash_lookup w.Vmodule_refs_hash (value_to_lisp p w ref) = none) :
    module_free_global_ref p env w ref = ⟨(), env, w⟩ ∧
    (module_free_global_ref p env w ref).world.Vmodule_refs_hash = w.Vmodule_refs_hash ∧
    (module_free_global_ref p env w ref).env.pending_non_local_exit
      = emacs_funcall_exit_return := by
  have h : module_free_global_ref p env w ref = ⟨(), env, w⟩ := by
    unfold module_free_global_ref
    have hv : value_to_lisp p { w with handlerlist :=
        handlertype.CATCHER_ALL :: handlertype.CONDITION_CASE :: w.handlerlist } ref
        = value_to_lisp p w ref := rfl
    rw [(@MODULE_FUNCTION_BEGIN_value Unit p () () env env w
      { w with handlerlist :=
        handlertype.CATCHER_ALL :: handlertype.CONDITION_CASE :: w.handlerlist } _ henv hroom
      (by simp only [hv, habs]))]
    rfl
  rw [h]
  exact ⟨rfl, rfl, henv⟩

/-- C11 at a concrete input: on a 64-bit host the table holds the fixnum 1
only, with the count 3; freeing a reference to nil changes nothing. -/
theorem module_free_global_ref_absent_witness :
    module_free_global_ref plain64 emacs_env_private.normal
        (World.start [] 0 [(make_natnum plain64 1, make_natnum plain64 3)]) 0
      = ⟨(), emacs_env_private.normal,
          World.start [] 0 [(make_natnum plain64 1, make_natnum plain64 3)]⟩ :=
  (module_free_global_ref_absent plain64 emacs_env_private.normal
    (World.start [] 0 [(make_natnum plain64 1, make_natnum plain64 3)]) 0
    (by decide) (by decide) (by decide)).1

/-- C15. Guard-installation failure: on an environment in the normal state,
when `push_handler_nosignal` fails for the first handler (`CONDITION_CASE`) or
for the second (`CATCHER_ALL`), every environment function that starts with
`MODULE_FUNCTION_BEGIN` records the memory error, the car and the cdr of
`Vmemory_signal_data`, returns its sentinel and leaves the world as it was on
entry, the handler stack included: the body did not run. -/
theorem guard_installation_failure (p : Platform) (host : Host) (env : emacs_env_private)
    (w : World)
    (henv : env.pending_non_local_exit = emacs_funcall_exit_return)
    (hfail : push_handler_nosignal w handlertype.CONDITION_CASE = none ∨
      ∃ w1, push_handler_nosignal w handlertype.CONDITION_CASE = some w1 ∧
        push_handler_nosignal w1 handlertype.CATCHER_ALL = none) :
    ∀ oom, oom = (⟨emacs_funcall_exit_signal, XCAR p w w.Vmemory_signal_data,
        XCDR p w w.Vmemory_signal_data⟩ : emacs_env_private) →
    (∀ ref, module_make_global_ref p host env w ref = ⟨module_nil, oom, w⟩) ∧
    (∀ ref, module_free_global_ref p env w ref = ⟨(), oom, w⟩) ∧
    (∀ min_arity max_arity subr documentation data,
      module_make_function p host env w min_arity max_arity subr documentation data
        = ⟨module_nil, oom, w⟩) ∧
    (∀ fn nargs args, module_funcall p host env w fn nargs args = ⟨module_nil, oom, w⟩) ∧
    (∀ name, module_intern p host env w name = ⟨module_nil, oom, w⟩) ∧
    (∀ value, module_type_of p host env w value = ⟨module_nil, oom, w⟩) ∧
    (∀ n, module_extract_integer p host env w n = ⟨0, oom, w⟩) ∧
    (∀ n, module_make_integer p host env w n = ⟨module_nil, oom, w⟩) ∧
    (∀ f, module_extract_float p host env w f = ⟨0, oom, w⟩) ∧
    (∀ d, module_make_float p env w d = ⟨module_nil, oom, w⟩) ∧
    (∀ value buffer length,
      module_copy_string_contents p host env w value buffer length
        = ⟨⟨false, buffer, length⟩, oom, w⟩) ∧
    (∀ str length, module_make_string p host env w str length = ⟨module_nil, oom, w⟩) ∧
    (∀ fin ptr, module_make_user_ptr p env w fin ptr = ⟨module_nil, oom, w⟩) ∧
    (∀ uptr, module_get_user_ptr p host env w uptr = ⟨0, oom, w⟩) ∧
    (∀ uptr ptr, module_set_user_ptr p host env w uptr ptr = ⟨(), oom, w⟩) ∧
    (∀ uptr, module_get_user_finalizer p host env w uptr = ⟨0, oom, w⟩) ∧
    (∀ uptr fin, module_set_user_finalizer p host env w uptr fin = ⟨(), oom, w⟩) ∧
    (∀ vec i val, module_vec_set p host env w vec i val = ⟨(), oom, w⟩) ∧
    (∀ vec i, module_vec_get p host env w vec i = ⟨module_nil, oom, w⟩) ∧
    (∀ vec, module_vec_size p host env w vec = ⟨0, oom, w⟩) := by
  intro oom hoom
  subst hoom
  refine ⟨?_, ?_, ?_, ?_, ?_, ?_, ?_, ?_, ?_, ?_, ?_, ?_, ?_, ?_, ?_, ?_, ?_, ?_, ?_, ?_⟩
  · intro a; exact MODULE_FUNCTION_BEGIN_push_fails p _ env w _ henv hfail
  · intro a; exact MODULE_FUNCTION_BEGIN_push_fails p _ env w _ henv hfail
  · intro a b c d e; exact MODULE_FUNCTION_BEGIN_push_fails p _ env w _ henv hfail
  · intro a b c; exact MODULE_FUNCTION_BEGIN_push_fails p _ env w _ henv hfail
  · intro a; exact MODULE_FUNCTION_BEGIN_push_fails p _ env w _ henv hfail
  · intro a; exact MODULE_FUNCTION_BEGIN_push_fails p _ env w _ henv hfail
  · intro a; exact MODULE_FUNCTION_BEGIN_push_fails p _ env w _ henv hfail
  · intro a; exact MODULE_FUNCTION_BEGIN_push_fails p _ env w _ henv hfail
  · intro a; exact MODULE_FUNCTION_BEGIN_push_fails p _ env w _ henv hfail
  · intro a; exact MODULE_FUNCTION_BEGIN_push_fails p _ env w _ henv hfail
  · intro a b c; exact MODULE_FUNCTION_BEGIN_push_fails p _ env w _ henv hfail
  · intro a b; exact MODULE_FUNCTION_BEGIN_push_fails p _ env w _ henv hfail
  · intro a b; exact MODULE_FUNCTION_BEGIN_push_fails p _ env w _ henv hfail
  · intro a; exact MODULE_FUNCTION_BEGIN_push_fails p _ env w _ henv hfail
  · intro a b; exact MODULE_FUNCTION_BEGIN_push_fails p _ env w _ henv hfail
  · intro a; exact MODULE_FUNCTION_BEGIN_push_fails p _ env w _ henv hfail
  · intro a b; exact MODULE_FUNCTION_BEGIN_push_fails p _ env w _ henv hfail
  · intro a b c; exact MODULE_FUNCTION_BEGIN_push_fails p _ env w _ henv hfail
  · intro a b; exact MODULE_FUNCTION_BEGIN_push_fails p _ env w _ henv hfail
  · intro a; exact MODULE_FUNCTION_BEGIN_push_fails p _ env w _ henv hfail

/-- C15 at a concrete input: in `World.cramped` the first handler is pushed and
the second is not; `module_vec_size` and `module_make_integer` return 0 and
`module_nil`, the error `(48)` of `Vmemory_signal_data` is pending, and the
world, with its empty handler stack, is as before. -/
theorem guard_installation_failure_witness :
    module_vec_size plain64 Host.quiet emacs_env_private.normal World.cramped 6
      = ⟨0, ⟨emacs_funcall_exit_signal, 48, Qnil⟩, World.cramped⟩ ∧
    module_make_integer plain64 Host.quiet emacs_env_private.normal World.cramped 5
      = ⟨module_nil, ⟨emacs_funcall_exit_signal, 48, Qnil⟩, World.cramped⟩ ∧
    World.cramped.handlerlist = [] :=
  have h := guard_installation_failure plain64 Host.quiet emacs_env_private.normal
    World.cramped (by decide) (Or.inr ⟨_, rfl, rfl⟩)
    ⟨emacs_funcall_exit_signal, 48, Qnil⟩ (by decide)
  ⟨h.2.2.2.2.2.2.2.2.2.2.2.2.2.2.2.2.2.2.2 6, h.2.2.2.2.2.2.2.1 5, rfl⟩

/-- C18. Predicates on an environment with an exit pending: for all handles,
`module_is_not_nil` and `module_eq` return false, whatever the handles decode
to, and leave the environment and the world as they were. -/
theorem predicates_false_when_pending (p : Platform) (env : emacs_env_private) (w : World)
    (a b : Nat) (h : env.pending_non_local_exit ≠ emacs_funcall_exit_return) :
    module_is_not_nil p env w a = ⟨false, env, w⟩ ∧
    module_eq p env w a b = ⟨false, env, w⟩ ∧
    module_eq p env w a a = ⟨false, env, w⟩ := by
  simp [module_is_not_nil, module_eq, module_non_local_exit_check, h]

/-- C18 at a concrete input: with a throw pending, the handle 6 (the fixnum 1
on a 64-bit host, not nil) is reported as nil and as different from itself,
while on the same environment with no exit pending both answers are true. -/
theorem predicates_false_when_pending_witness :
    (module_is_not_nil plain64 ⟨emacs_funcall_exit_throw, 40, 7⟩ (World.start [] 0 []) 6).value
      = false ∧
    (module_eq plain64 ⟨emacs_funcall_exit_throw, 40, 7⟩ (World.start [] 0 []) 6 6).value
      = false ∧
    (module_is_not_nil plain64 ⟨emacs_funcall_exit_return, 40, 7⟩ (World.start [] 0 []) 6).value
      = true ∧
    (module_eq plain64 ⟨emacs_funcall_exit_return, 40, 7⟩ (World.start [] 0 []) 6 6).value
      = true :=
  have h := predicates_false_when_pending plain64 ⟨emacs_funcall_exit_throw, 40, 7⟩
    (World.start [] 0 []) 6 6 (by decide)
  ⟨by rw [h.1], by rw [h.2.1], by decide, by decide⟩

/-- C17. Clearing resets the state: whatever exit is pending, after
`module_non_local_exit_clear` (an assignment, which cannot fail)
`module_non_local_exit_check` returns `emacs_funcall_exit_return`; an
environment that `initialize_environment` has set up has no exit pending,
whatever its private part held before and whether or not memory was found for
the list of environments; and on an environment with an exit pending none of
the other environment functions that write to the environment leaves it with
no exit pending (`module_non_local_exit_check` and `module_non_local_exit_get`
only read it). -/
theorem clear_resets_state (p : Platform) (host : Host) (env : emacs_env_private)
    (w : World) :
    module_non_local_exit_check (module_non_local_exit_clear env)
      = emacs_funcall_exit_return ∧
    (∀ pub, (initialize_environment p w pub env).1.pending_non_local_exit
      = emacs_funcall_exit_return) ∧
    (env.pending_non_local_exit ≠ emacs_funcall_exit_return →
      (∀ ref, (module_make_global_ref p host env w ref).env.pending_non_local_exit
        ≠ emacs_funcall_exit_return) ∧
      (∀ ref, (module_free_global_ref p env w ref).env.pending_non_local_exit
        ≠ emacs_funcall_exit_return) ∧
      (∀ sym data, (module_non_local_exit_signal p env w sym data).env.pending_non_local_exit
        ≠ emacs_funcall_exit_return) ∧
      (∀ tag value, (module_non_local_exit_throw p env w tag value).env.pending_non_local_exit
        ≠ emacs_funcall_exit_return) ∧
      (∀ min_arity max_arity subr documentation data,
        (module_make_function p host env w min_arity max_arity subr documentation
          data).env.pending_non_local_exit ≠ emacs_funcall_exit_return) ∧
      (∀ fn nargs args, (module_funcall p host env w fn nargs args).env.pending_non_local_exit
        ≠ emacs_funcall_exit_return) ∧
      (∀ name, (module_intern p host env w name).env.pending_non_local_exit
        ≠ emacs_funcall_exit_return) ∧
      (∀ value, (module_type_of p host env w value).env.pending_non_local_exit
        ≠ emacs_funcall_exit_return) ∧
      (∀ value, (module_is_not_nil p env w value).env.pending_non_local_exit
        ≠ emacs_funcall_exit_return) ∧
      (∀ a b, (module_eq p env w a b).env.pending_non_local_exit
        ≠ emacs_funcall_exit_return) ∧
      (∀ n, (module_extract_integer p host env w n).env.pending_non_local_exit
        ≠ emacs_funcall_exit_return) ∧
      (∀ n, (module_make_integer p host env w n).env.pending_non_local_exit
        ≠ emacs_funcall_exit_return) ∧
      (∀ f, (module_extract_float p host env w f).env.pending_non_local_exit
        ≠ emacs_funcall_exit_return) ∧
      (∀ d, (module_make_float p env w d).env.pending_non_local_exit
        ≠ emacs_funcall_exit_return) ∧
      (∀ value buffer length,
        (module_copy_string_contents p host env w value buffer
          length).env.pending_non_local_exit ≠ emacs_funcall_exit_return) ∧
      (∀ str length, (module_make_string p host env w str length).env.pending_non_local_exit
        ≠ emacs_funcall_exit_return) ∧
      (∀ fin ptr, (module_make_user_ptr p env w fin ptr).env.pending_non_local_exit
        ≠ emacs_funcall_exit_return) ∧
      (∀ uptr, (module_get_user_ptr p host env w uptr).env.pending_non_local_exit
        ≠ emacs_funcall_exit_return) ∧
      (∀ uptr ptr, (module_set_user_ptr p host env w uptr ptr).env.pending_non_local_exit
        ≠ emacs_funcall_exit_return) ∧
      (∀ uptr, (module_get_user_finalizer p host env w uptr).env.pending_non_local_exit
        ≠ emacs_funcall_exit_return) ∧
      (∀ uptr fin, (module_set_user_finalizer p host env w uptr fin).env.pending_non_local_exit
        ≠ emacs_funcall_exit_return) ∧
      (∀ vec i val, (module_vec_set p host env w vec i val).env.pending_non_local_exit
        ≠ emacs_funcall_exit_return) ∧
      (∀ vec i, (module_vec_get p host env w vec i).env.pending_non_local_exit
        ≠ emacs_funcall_exit_return) ∧
      (∀ vec, (module_vec_size p host env w vec).env.pending_non_local_exit
        ≠ emacs_funcall_exit_return)) := by
  refine ⟨rfl, fun _ => rfl, fun h => ?_⟩
  refine ⟨?_, ?_, ?_, ?_, ?_, ?_, ?_, ?_, ?_, ?_, ?_, ?_, ?_, ?_, ?_, ?_, ?_, ?_, ?_, ?_, ?_,
    ?_, ?_, ?_⟩
  · intro a; rw [module_make_global_ref, MODULE_FUNCTION_BEGIN_pending p _ env w _ h]; exact h
  · intro a; rw [module_free_global_ref, MODULE_FUNCTION_BEGIN_pending p _ env w _ h]; exact h
  · intro a b; simp [module_non_local_exit_signal, module_non_local_exit_check, h]
  · intro a b; simp [module_non_local_exit_throw, module_non_local_exit_check, h]
  · intro a b c d e
    rw [module_make_function, MODULE_FUNCTION_BEGIN_pending p _ env w _ h]; exact h
  · intro a b c; rw [module_funcall, MODULE_FUNCTION_BEGIN_pending p _ env w _ h]; exact h
  · intro a; rw [module_intern, MODULE_FUNCTION_BEGIN_pending p _ env w _ h]; exact h
  · intro a; rw [module_type_of, MODULE_FUNCTION_BEGIN_pending p _ env w _ h]; exact h
  · intro a; simp [module_is_not_nil, module_non_local_exit_check, h]
  · intro a b; simp [module_eq, module_non_local_exit_check, h]
  · intro a; rw [module_extract_integer, MODULE_FUNCTION_BEGIN_pending p _ env w _ h]; exact h
  · intro a; rw [module_make_integer, MODULE_FUNCTION_BEGIN_pending p _ env w _ h]; exact h
  · intro a; rw [module_extract_float, MODULE_FUNCTION_BEGIN_pending p _ env w _ h]; exact h
  · intro a; rw [module_make_float, MODULE_FUNCTION_BEGIN_pending p _ env w _ h]; exact h
  · intro a b c
    rw [module_copy_string_contents, MODULE_FUNCTION_BEGIN_pending p _ env w _ h]; exact h
  · intro a b; rw [module_make_string, MODULE_FUNCTION_BEGIN_pending p _ env w _ h]; exact h
  · intro a b; rw [module_make_user_ptr, MODULE_FUNCTION_BEGIN_pending p _ env w _ h]; exact h
  · intro a; rw [module_get_user_ptr, MODULE_FUNCTION_BEGIN_pending p _ env w _ h]; exact h
  · intro a b; rw [module_set_user_ptr, MODULE_FUNCTION_BEGIN_pending p _ env w _ h]; exact h
  · intro a
    rw [module_get_user_finalizer, MODULE_FUNCTION_BEGIN_pending p _ env w _ h]; exact h
  · intro a b
    rw [module_set_user_finalizer, MODULE_FUNCTION_BEGIN_pending p _ env w _ h]; exact h
  · intro a b c; rw [module_vec_set, MODULE_FUNCTION_BEGIN_pending p _ env w _ h]; exact h
  · intro a b; rw [module_vec_get, MODULE_FUNCTION_BEGIN_pending p _ env w _ h]; exact h
  · intro a; rw [module_vec_size, MODULE_FUNCTION_BEGIN_pending p _ env w _ h]; exact h

/-- C17 at a concrete input: with the error `(40 . 7)` pending,
`module_make_integer` and `module_non_local_exit_throw` leave an exit pending,
and after `module_non_local_exit_clear` the check returns
`emacs_funcall_exit_return`. -/
theorem clear_resets_state_witness :
    (module_make_integer plain64 Host.quiet ⟨emacs_funcall_exit_signal, 40, 7⟩
      (World.start [] 0 []) 5).env.pending_non_local_exit ≠ emacs_funcall_exit_return ∧
    (module_non_local_exit_throw plain64 ⟨emacs_funcall_exit_signal, 40, 7⟩
      (World.start [] 0 []) 6 6).env.pending_non_local_exit ≠ emacs_funcall_exit_return ∧
    module_non_local_exit_check
      (module_non_local_exit_clear ⟨emacs_funcall_exit_signal, 40, 7⟩)
      = emacs_funcall_exit_return :=
  have h := clear_resets_state plain64 Host.quiet ⟨emacs_funcall_exit_signal, 40, 7⟩
    (World.start [] 0 [])
  have h3 := h.2.2 (by decide)
  ⟨h3.2.2.2.2.2.2.2.2.2.2.2.1 5, h3.2.2.2.1 6 6, h.1⟩

/-! ## Recording an exit and reading it back -/

/-- The handle of a host value keeps its meaning while the codec goes on
allocating: a later world whose cells are those of the world the encoding
left, but for new conses, decodes the handle to the same value. -/
theorem value_to_lisp_stable {p : Platform} (hp : p.Supported) {w w1 w2 : World}
    {o v : Nat} (hok : w.FreeCellsOK p) (ho : HostValue p w o)
    (h : lisp_to_value p w o = (some v, w1)) (hcf : w1.CellsFrom w2) :
    value_to_lisp p w2 v = o := by
  by_cases hc : Compressible p o
  · rw [lisp_to_value_direct hc] at h
    simp only [Prod.mk.injEq, Option.some.injEq] at h
    obtain ⟨rfl, rfl⟩ := h
    exact value_to_lisp_direct hc (ho.mono hcf)
  · cases hpl : plain_values p with
    | true => exact absurd (Compressible_of_plain hpl ho.1) hc
    | false =>
      obtain ⟨hP, hE⟩ := wide_of_not_plain hp hpl
      obtain ⟨a, hmem, hal, hs, hv, hcar, hcdr, hcf1⟩ := lisp_to_value_boxed hP hE hok hc h
      have hna : a ∉ w1.free := not_mem_of_cons_suffix hok.1 hs
      have hmark : w2.ltv_mark = w.ltv_mark := by rw [hcf.1, hcf1.1]
      rw [hv]
      exact value_to_lisp_boxed hP hE (hok.2 a hmem).1 hal (fun h => ((hok.2 a hmem).2.2 h).1)
        (by rw [(hcf.2.2 a hna).1, hcar]) (by rw [(hcf.2.2 a hna).2, hcdr, hmark])

/-- With an exit pending and memory for the two encodings,
`module_non_local_exit_get` returns the kind of the exit and stores two
handles that decode to the recorded symbol (or tag) and data (or value). -/
theorem module_non_local_exit_get_pending {p : Platform} (hp : p.Supported) {w : World}
    {env : emacs_env_private} (hok : w.FreeCellsOK p)
    (henv : env.pending_non_local_exit ≠ emacs_funcall_exit_return)
    (hs : HostValue p w env.non_local_exit_symbol)
    (hd : HostValue p w env.non_local_exit_data)
    (hm1 : Compressible p env.non_local_exit_symbol ∨ ∃ c ∈ w.free, c % GCALIGNMENT = 0)
    (hm2 : Compressible p env.non_local_exit_data ∨
      ∃ c ∈ (lisp_to_value p w env.non_local_exit_symbol).2.free, c % GCALIGNMENT = 0) :
    ∃ s d w2,
      module_non_local_exit_get p env w
        = HostResult.value (env.pending_non_local_exit, some s, some d) w2 ∧
      value_to_lisp p w2 s = env.non_local_exit_symbol ∧
      value_to_lisp p w2 d = env.non_local_exit_data := by
  have h1 := lisp_to_value_isSome hp hok hs.1 hm1
  rcases e1 : lisp_to_value p w env.non_local_exit_symbol with ⟨_ | s, w1⟩
  · simp [e1] at h1
  have hcf1 := lisp_to_value_cells hp hok hs.1 e1
  have hok1 : w1.FreeCellsOK p := hok.of_suffix hcf1.2.1
  rw [e1] at hm2
  have h2 := lisp_to_value_isSome hp hok1 hd.1 hm2
  rcases e2 : lisp_to_value p w1 env.non_local_exit_data with ⟨_ | d, w2⟩
  · simp [e2] at h2
  have hcf2 := lisp_to_value_cells hp hok1 hd.1 e2
  refine ⟨s, d, w2, ?_, value_to_lisp_stable hp hok hs e1 hcf2,
    value_to_lisp_of_lisp_to_value hp hok1 (hd.mono hcf1) e2⟩
  simp [module_non_local_exit_get, henv, e1, e2, or_memory_full, HostResult.bind]

/-- With the free cells of `World.FreeCellsOK`, which with tags in the most
significant bits lie below `2 ^ (ptrBits - 1)`.
Signal or throw, then get: on an environment in the normal state,
after `module_non_local_exit_signal (sym, data)` the function
`module_non_local_exit_get` returns `emacs_funcall_exit_signal` and stores two
handles that decode to what `sym` and `data` decode to; after
`module_non_local_exit_throw (tag, value)` it returns
`emacs_funcall_exit_throw` and stores handles that decode to what `tag` and
`value` decode to; on the environment itself, with no exit pending, it returns
`emacs_funcall_exit_return`, stores nothing and leaves the world alone.  The
two handles given decode to host values, and there is memory for the two
encodings of `module_non_local_exit_get`. -/
theorem signal_throw_then_get (p : Platform) (env : emacs_env_private) (w : World)
    (a b : Nat) (hp : p.Supported) (hok : w.FreeCellsOK p)
    (henv : env.pending_non_local_exit = emacs_funcall_exit_return)
    (ha : HostValue p w (value_to_lisp p w a)) (hb : HostValue p w (value_to_lisp p w b))
    (hm1 : Compressible p (value_to_lisp p w a) ∨ ∃ c ∈ w.free, c % GCALIGNMENT = 0)
    (hm2 : Compressible p (value_to_lisp p w b) ∨
      ∃ c ∈ (lisp_to_value p w (value_to_lisp p w a)).2.free, c % GCALIGNMENT = 0) :
    (∃ s d w2,
      module_non_local_exit_get p (module_non_local_exit_signal p env w a b).env
          (module_non_local_exit_signal p env w a b).world
        = HostResult.value (emacs_funcall_exit_signal, some s, some d) w2 ∧
      value_to_lisp p w2 s = value_to_lisp p w a ∧
      value_to_lisp p w2 d = value_to_lisp p w b) ∧
    (∃ s d w2,
      module_non_local_exit_get p (module_non_local_exit_throw p env w a b).env
          (module_non_local_exit_throw p env w a b).world
        = HostResult.value (emacs_funcall_exit_throw, some s, some d) w2 ∧
      value_to_lisp p w2 s = value_to_lisp p w a ∧
      value_to_lisp p w2 d = value_to_lisp p w b) ∧
    module_non_local_exit_get p env w
      = HostResult.value (emacs_funcall_exit_return, none, none) w := by
  have e1 : module_non_local_exit_signal p env w a b
      = ⟨(), ⟨emacs_funcall_exit_signal, value_to_lisp p w a, value_to_lisp p w b⟩, w⟩ := by
    simp [module_non_local_exit_signal, module_non_local_exit_check,
      module_non_local_exit_signal_1, henv]
  have e2 : module_non_local_exit_throw p env w a b
      = ⟨(), ⟨emacs_funcall_exit_throw, value_to_lisp p w a, value_to_lisp p w b⟩, w⟩ := by
    simp [module_non_local_exit_throw, module_non_local_exit_check,
      module_non_local_exit_throw_1, henv]
  refine ⟨?_, ?_, ?_⟩
  · rw [e1]
    exact @module_non_local_exit_get_pending p hp w
      ⟨emacs_funcall_exit_signal, value_to_lisp p w a, value_to_lisp p w b⟩ hok
      (by simp) ha hb hm1 hm2
  · rw [e2]
    exact @module_non_local_exit_get_pending p hp w
      ⟨emacs_funcall_exit_throw, value_to_lisp p w a, value_to_lisp p w b⟩ hok
      (by simp) ha hb hm1 hm2
  · simp [module_non_local_exit_get, henv]

/-- The theorem `signal_throw_then_get` at a concrete input:
on a 32-bit host with wide integers, tags in the
most significant bits and two aligned free cells, the handles 10 (the fixnum
1) and 0 (nil) are given to `module_non_local_exit_signal`; the fixnum is
boxed when `module_non_local_exit_get` encodes it again. -/
theorem signal_throw_then_get_witness :
    ∃ s d w2,
      module_non_local_exit_get msb_wide
          (module_non_local_exit_signal msb_wide emacs_env_private.normal
            (World.start [16, 24] 806 []) 10 0).env
          (module_non_local_exit_signal msb_wide emacs_env_private.normal
            (World.start [16, 24] 806 []) 10 0).world
        = HostResult.value (emacs_funcall_exit_signal, some s, some d) w2 ∧
      value_to_lisp msb_wide w2 s = value_to_lisp msb_wide (World.start [16, 24] 806 []) 10 ∧
      value_to_lisp msb_wide w2 d = value_to_lisp msb_wide (World.start [16, 24] 806 []) 0 :=
  (signal_throw_then_get msb_wide emacs_env_private.normal (World.start [16, 24] 806 []) 10 0
    (by decide) (by decide) (by decide) (by decide) (by decide) (by decide) (by decide)).1

/-! ## Copying a string out -/

theorem STRING_BYTES_BOUND_lt (p : Platform) : STRING_BYTES_BOUND p < PTRDIFF_MAX p := by
  unfold STRING_BYTES_BOUND
  omega

/-- C19. Length query of `module_copy_string_contents`: on an environment in
the normal state with room for the two handlers, for a handle that decodes to
a string whose UTF-8 encoding `ENCODE_UTF_8` returns as `lisp_str_utf8` (a
string of at most `STRING_BYTES_BOUND` bytes, as every string of the host),
the call with a null buffer returns true, stores `SBYTES (lisp_str_utf8) + 1`
in `*length` and leaves the environment as it was, with no exit pending. -/
theorem module_copy_string_contents_query (p : Platform) (host : Host)
    (env : emacs_env_private) (w w1 : World) (value lisp_str_utf8 : Nat) (length : Int)
    (henv : env.pending_non_local_exit = emacs_funcall_exit_return)
    (hroom : w.handlerlist.length + 2 ≤ w.handler_limit)
    (hstr : STRINGP p (value_to_lisp p w value) = true)
    (henc : host.code_convert_string_norecord
        { w with handlerlist :=
          handlertype.CATCHER_ALL :: handlertype.CONDITION_CASE :: w.handlerlist }
        (value_to_lisp p w value) host.Qutf_8 true = HostResult.value lisp_str_utf8 w1)
    (hbound : SBYTES p w1 lisp_str_utf8 ≤ STRING_BYTES_BOUND p) :
    module_copy_string_contents p host env w value none length
      = ⟨⟨true, none, SBYTES p w1 lisp_str_utf8 + 1⟩, env,
          module_reset_handlerlist (module_reset_handlerlist w1)⟩ ∧
    (module_copy_string_contents p host env w value none length).env.pending_non_local_exit
      = emacs_funcall_exit_return := by
  have hne : SBYTES p w1 lisp_str_utf8 ≠ PTRDIFF_MAX p := by
    have := STRING_BYTES_BOUND_lt p
    omega
  have hv : value_to_lisp p { w with handlerlist :=
      handlertype.CATCHER_ALL :: handlertype.CONDITION_CASE :: w.handlerlist } value
      = value_to_lisp p w value := rfl
  have h : module_copy_string_contents p host env w value none length
      = ⟨⟨true, none, SBYTES p w1 lisp_str_utf8 + 1⟩, env,
          module_reset_handlerlist (module_reset_handlerlist w1)⟩ := by
    unfold module_copy_string_contents
    exact MODULE_FUNCTION_BEGIN_value henv hroom
      (by simp only [hv, hstr, henc, hne, Bool.not_true, Bool.false_eq_true, if_false])
  rw [h]
  exact ⟨rfl, henv⟩

/-- C20. Buffer too small for `module_copy_string_contents`: on an environment
in the normal state with room for the two handlers, for a handle that decodes
to a string whose UTF-8 encoding `ENCODE_UTF_8` returns as `lisp_str_utf8` (at
most `STRING_BYTES_BOUND` bytes), the call with a buffer and `*length` below
`SBYTES (lisp_str_utf8) + 1` returns false, records `args-out-of-range` with
nil as data, stores the required size in `*length` and leaves the bytes of the
buffer as they were. -/
theorem module_copy_string_contents_small (p : Platform) (host : Host)
    (env : emacs_env_private) (w w1 : World) (value lisp_str_utf8 : Nat)
    (bytes : List Nat) (length : Int)
    (henv : env.pending_non_local_exit = emacs_funcall_exit_return)
    (hroom : w.handlerlist.length + 2 ≤ w.handler_limit)
    (hstr : STRINGP p (value_to_lisp p w value) = true)
    (henc : host.code_convert_string_norecord
        { w with handlerlist :=
          handlertype.CATCHER_ALL :: handlertype.CONDITION_CASE :: w.handlerlist }
        (value_to_lisp p w value) host.Qutf_8 true = HostResult.value lisp_str_utf8 w1)
    (hbound : SBYTES p w1 lisp_str_utf8 ≤ STRING_BYTES_BOUND p)
    (hsmall : length < SBYTES p w1 lisp_str_utf8 + 1) :
    module_copy_string_contents p host env w value (some bytes) length
      = ⟨⟨false, some bytes, SBYTES p w1 lisp_str_utf8 + 1⟩,
          ⟨emacs_funcall_exit_signal, host.Qargs_out_of_range, Qnil⟩,
          module_reset_handlerlist (module_reset_handlerlist w1)⟩ := by
  have hne : SBYTES p w1 lisp_str_utf8 ≠ PTRDIFF_MAX p := by
    have := STRING_BYTES_BOUND_lt p
    omega
  have hv : value_to_lisp p { w with handlerlist :=
      handlertype.CATCHER_ALL :: handlertype.CONDITION_CASE :: w.handlerlist } value
      = value_to_lisp p w value := rfl
  have hsig : module_non_local_exit_signal_1 env host.Qargs_out_of_range Qnil
      = ⟨emacs_funcall_exit_signal, host.Qargs_out_of_range, Qnil⟩ := by
    simp [module_non_local_exit_signal_1, henv]
  unfold module_copy_string_contents
  rw [← hsig]
  exact MODULE_FUNCTION_BEGIN_value henv hroom
    (by simp only [hv, hstr, henc, hne, hsmall, Bool.not_true, Bool.false_eq_true, if_false,
      if_true])

/-- C19 at a concrete input: on a 64-bit host the string `hi` of
`World.with_string` needs a buffer of 3 bytes. -/
theorem module_copy_string_contents_query_witness :
    (module_copy_string_contents plain64 Host.quiet emacs_env_private.normal
        World.with_string 12 none 0).value = ⟨true, none, 3⟩ ∧
    (module_copy_string_contents plain64 Host.quiet emacs_env_private.normal
        World.with_string 12 none 0).env = emacs_env_private.normal :=
  have h := module_copy_string_contents_query plain64 Host.quiet emacs_env_private.normal
    World.with_string _ 12 12 0 (by decide) (by decide) (by decide) rfl (by decide)
  ⟨by rw [h.1]; rfl, by rw [h.1]⟩

/-- C20 at a concrete input: on a 64-bit host the string `hi` of
`World.with_string` is asked for with a buffer of 2 bytes, one short: the call
returns false, `*length` becomes 3, the buffer keeps its bytes and
`args-out-of-range` is pending. -/
theorem module_copy_string_contents_small_witness :
    (module_copy_string_contents plain64 Host.quiet emacs_env_private.normal
        World.with_string 12 (some [7, 7]) 2).value = ⟨false, some [7, 7], 3⟩ ∧
    (module_copy_string_contents plain64 Host.quiet emacs_env_private.normal
        World.with_string 12 (some [7, 7]) 2).env
      = ⟨emacs_funcall_exit_signal, Host.quiet.Qargs_out_of_range, Qnil⟩ :=
  have h := module_copy_string_contents_small plain64 Host.quiet emacs_env_private.normal
    World.with_string _ 12 12 [7, 7] 2 (by decide) (by decide) (by decide) rfl (by decide)
    (by decide)
  ⟨by rw [h]; rfl, by rw [h]⟩

/-- C21. `module_copy_string_contents` with a buffer that is large enough: on
an environment in the normal state with room for the two handlers, for a
handle that decodes to a string whose UTF-8 encoding `ENCODE_UTF_8` returns as
`lisp_str_utf8` (at most `STRING_BYTES_BOUND` bytes), a buffer of at least
`*length` bytes and `*length` at least `R = SBYTES (lisp_str_utf8) + 1`: the
call returns true, stores `R` in `*length` and leaves the environment as it
was; the first `R - 1` bytes of the buffer are the bytes of the encoding, the
byte at `R - 1` is 0, the bytes from `R` on are those of before and the buffer
has kept its size; and the call with a null buffer stores the same `R`. -/
theorem module_copy_string_contents_copy (p : Platform) (host : Host)
    (env : emacs_env_private) (w w1 : World) (value lisp_str_utf8 : Nat)
    (bytes : List Nat) (length : Int)
    (henv : env.pending_non_local_exit = emacs_funcall_exit_return)
    (hroom : w.handlerlist.length + 2 ≤ w.handler_limit)
    (hstr : STRINGP p (value_to_lisp p w value) = true)
    (henc : host.code_convert_string_norecord
        { w with handlerlist :=
          handlertype.CATCHER_ALL :: handlertype.CONDITION_CASE :: w.handlerlist }
        (value_to_lisp p w value) host.Qutf_8 true = HostResult.value lisp_str_utf8 w1)
    (hbound : SBYTES p w1 lisp_str_utf8 ≤ STRING_BYTES_BOUND p)
    (hlen : SBYTES p w1 lisp_str_utf8 + 1 ≤ length)
    (hbuf : length ≤ (bytes.length : Int)) :
    module_copy_string_contents p host env w value (some bytes) length
      = ⟨⟨true,
            some (SDATA p w1 lisp_str_utf8
              ++ bytes.drop (SBYTES p w1 lisp_str_utf8 + 1).toNat),
            SBYTES p w1 lisp_str_utf8 + 1⟩, env,
          module_reset_handlerlist (module_reset_handlerlist w1)⟩ ∧
    (SDATA p w1 lisp_str_utf8
        ++ bytes.drop (SBYTES p w1 lisp_str_utf8 + 1).toNat).take
          (SBYTES p w1 lisp_str_utf8).toNat
      = w1.string_data (XUNTAG p lisp_str_utf8 Lisp_String) ∧
    (SDATA p w1 lisp_str_utf8
        ++ bytes.drop (SBYTES p w1 lisp_str_utf8 + 1).toNat).get?
          (SBYTES p w1 lisp_str_utf8).toNat = some 0 ∧
    (SDATA p w1 lisp_str_utf8
        ++ bytes.drop (SBYTES p w1 lisp_str_utf8 + 1).toNat).drop
          (SBYTES p w1 lisp_str_utf8 + 1).toNat
      = bytes.drop (SBYTES p w1 lisp_str_utf8 + 1).toNat ∧
    (SDATA p w1 lisp_str_utf8
        ++ bytes.drop (SBYTES p w1 lisp_str_utf8 + 1).toNat).length = bytes.length ∧
    (module_copy_string_contents p host env w value none length).value.length
      = SBYTES p w1 lisp_str_utf8 + 1 := by
  have hne : SBYTES p w1 lisp_str_utf8 ≠ PTRDIFF_MAX p := by
    have := STRING_BYTES_BOUND_lt p
    omega
  have hv : value_to_lisp p { w with handlerlist :=
      handlertype.CATCHER_ALL :: handlertype.CONDITION_CASE :: w.handlerlist } value
      = value_to_lisp p w value := rfl
  have hq : module_copy_string_contents p host env w value none length
      = ⟨⟨true, none, SBYTES p w1 lisp_str_utf8 + 1⟩, env,
          module_reset_handlerlist (module_reset_handlerlist w1)⟩ := by
    unfold module_copy_string_contents
    exact MODULE_FUNCTION_BEGIN_value henv hroom
      (by simp only [hv, hstr, henc, hne, Bool.not_true, Bool.false_eq_true, if_false])
  have hnl : ¬ length < SBYTES p w1 lisp_str_utf8 + 1 := by omega
  refine ⟨?_, ?_, ?_, ?_, ?_, by rw [hq]⟩
  · unfold module_copy_string_contents
    exact MODULE_FUNCTION_BEGIN_value henv hroom
      (by simp only [hv, hstr, henc, hne, hnl, Bool.not_true, Bool.false_eq_true, if_false])
  all_goals
    simp only [SBYTES, SDATA] at hlen hbuf ⊢
    generalize w1.string_data (XUNTAG p lisp_str_utf8 Lisp_String) = sd at hlen hbuf ⊢
    have e1 : ((sd.length : Int)).toNat = sd.length := Int.toNat_natCast _
    have e2 : ((sd.length : Int) + 1).toNat = sd.length + 1 := by omega
    rw [e2]
  · rw [e1, List.append_assoc, List.take_left]
  · rw [e1, List.append_assoc, List.get?_eq_getElem?, List.getElem?_append_right (le_refl _)]
    simp
  · rw [List.drop_append_eq_append_drop]
    simp
  · simp only [List.length_append, List.length_cons, List.length_nil, List.length_drop]
    omega

/-- C21 at a concrete input: on a 64-bit host the string `hi` of
`World.with_string` is copied into a buffer of five bytes: the call returns
true, `*length` becomes 3 and the buffer holds `hi`, a zero and its last two
bytes of before. -/
theorem module_copy_string_contents_copy_witness :
    (module_copy_string_contents plain64 Host.quiet emacs_env_private.normal
        World.with_string 12 (some [7, 7, 7, 7, 7]) 5).value
      = ⟨true, some [104, 105, 0, 7, 7], 3⟩ ∧
    (module_copy_string_contents plain64 Host.quiet emacs_env_private.normal
        World.with_string 12 (some [7, 7, 7, 7, 7]) 5).env = emacs_env_private.normal :=
  have h := module_copy_string_contents_copy plain64 Host.quiet emacs_env_private.normal
    World.with_string _ 12 12 [7, 7, 7, 7, 7] 5 (by decide) (by decide) (by decide) rfl
    (by decide) (by decide) (by decide)
  ⟨by rw [h.1]; rfl, by rw [h.1]⟩

/-! ## Exits captured by `module_funcall` -/

theorem MODULE_FUNCTION_BEGIN_throw {α : Type} {p : Platform} {retval : α}
    {env env1 : emacs_env_private} {w w3 : World} {tag val : Nat}
    {body : World → emacs_env_private × HostResult α}
    (henv : env.pending_non_local_exit = emacs_funcall_exit_return)
    (hroom : w.handlerlist.length + 2 ≤ w.handler_limit)
    (hbody : body { w with handlerlist :=
        handlertype.CATCHER_ALL :: handlertype.CONDITION_CASE :: w.handlerlist }
      = (env1, HostResult.throw tag val w3)) :
    MODULE_FUNCTION_BEGIN p retval env w body
      = ⟨retval, module_non_local_exit_throw_1 env1 tag val,
          { w3 with handlerlist := w.handlerlist }⟩ := by
  have h1 : w.handlerlist.length < w.handler_limit := by omega
  have h2 : w.handlerlist.length + 1 < w.handler_limit := by omega
  simp [module_non_local_exit_check, MODULE_FUNCTION_BEGIN, MODULE_HANDLE_NONLOCAL_EXIT, henv,
    push_handler_nosignal, h1, h2, hbody, module_handle_throw, module_reset_handlerlist]

/-- What `module_funcall` leaves when `Ffuncall` signals: `module_nil`, the
error recorded as it was raised, and the handler stack of before the call. -/
theorem module_funcall_signal {p : Platform} {host : Host} {env : emacs_env_private}
    {w wf : World} {fn : Nat} {nargs : Int} {args : List Nat} {sym data : Nat}
    (henv : env.pending_non_local_exit = emacs_funcall_exit_return)
    (hroom : w.handlerlist.length + 2 ≤ w.handler_limit)
    (hcall : host.Ffuncall
        { w with handlerlist :=
          handlertype.CATCHER_ALL :: handlertype.CONDITION_CASE :: w.handlerlist }
        (value_to_lisp p w fn :: (args.take nargs.toNat).map (value_to_lisp p w))
      = HostResult.signal sym data wf) :
    module_funcall p host env w fn nargs args
      = ⟨module_nil, ⟨emacs_funcall_exit_signal, sym, data⟩,
          { wf with handlerlist := w.handlerlist }⟩ := by
  have hsig : module_non_local_exit_signal_1 env sym data
      = ⟨emacs_funcall_exit_signal, sym, data⟩ := by
    simp [module_non_local_exit_signal_1, henv]
  unfold module_funcall
  rw [← hsig]
  refine MODULE_FUNCTION_BEGIN_signal henv hroom ?_
  have hv : ∀ v, value_to_lisp p { w with handlerlist :=
      handlertype.CATCHER_ALL :: handlertype.CONDITION_CASE :: w.handlerlist } v
      = value_to_lisp p w v := fun _ => rfl
  have hf : (fun v => value_to_lisp p { w with handlerlist :=
      handlertype.CATCHER_ALL :: handlertype.CONDITION_CASE :: w.handlerlist } v)
      = value_to_lisp p w := funext hv
  simp only [hv, hf, hcall, HostResult.bind]

/-- What `module_funcall` leaves when `Ffuncall` throws: `module_nil`, the tag
and the value recorded as they were thrown, and the handler stack of before
the call. -/
theorem module_funcall_throw {p : Platform} {host : Host} {env : emacs_env_private}
    {w wf : World} {fn : Nat} {nargs : Int} {args : List Nat} {tag val : Nat}
    (henv : env.pending_non_local_exit = emacs_funcall_exit_return)
    (hroom : w.handlerlist.length + 2 ≤ w.handler_limit)
    (hcall : host.Ffuncall
        { w with handlerlist :=
          handlertype.CATCHER_ALL :: handlertype.CONDITION_CASE :: w.handlerlist }
        (value_to_lisp p w fn :: (args.take nargs.toNat).map (value_to_lisp p w))
      = HostResult.throw tag val wf) :
    module_funcall p host env w fn nargs args
      = ⟨module_nil, ⟨emacs_funcall_exit_throw, tag, val⟩,
          { wf with handlerlist := w.handlerlist }⟩ := by
  have hsig : module_non_local_exit_throw_1 env tag val
      = ⟨emacs_funcall_exit_throw, tag, val⟩ := by
    simp [module_non_local_exit_throw_1, henv]
  unfold module_funcall
  rw [← hsig]
  refine MODULE_FUNCTION_BEGIN_throw henv hroom ?_
  have hv : ∀ v, value_to_lisp p { w with handlerlist :=
      handlertype.CATCHER_ALL :: handlertype.CONDITION_CASE :: w.handlerlist } v
      = value_to_lisp p w v := fun _ => rfl
  have hf : (fun v => value_to_lisp p { w with handlerlist :=
      handlertype.CATCHER_ALL :: handlertype.CONDITION_CASE :: w.handlerlist } v)
      = value_to_lisp p w := funext hv
  simp only [hv, hf, hcall, HostResult.bind]

/-- C14. Captured exits are stored verbatim: on an environment in the normal
state with room for the two handlers, when the host function that
`module_funcall` calls signals the error `(sym . data)`, `module_funcall`
returns `module_nil` and the pending exit is the signal with exactly `sym` and
`data`; when it throws `val` to `tag`, the pending exit is the throw with
exactly `tag` and `val`.  And when the foreign function of a call of
`internal--module-call` returns with its environment as `module_funcall` left
it, the call signals exactly `sym` and `data`, or throws exactly `val` to
`tag`. -/
theorem module_funcall_captures (p : Platform) (host : Host) (env : emacs_env_private)
    (w wc w1 w2 w3 : World) (fn : Nat) (nargs : Int) (args arglist cargs : List Nat)
    (pub ret : Nat) (priv priv1 priv2 : emacs_env_private)
    (henv : env.pending_non_local_exit = emacs_funcall_exit_return)
    (hroom : w.handlerlist.length + 2 ≤ w.handler_limit)
    (hsv : SAVE_VALUEP p wc (arglist.getD 0 Qnil) = true)
    (hst : wc.save_type (XUNTAG p (arglist.getD 0 Qnil) Lisp_Misc) = SAVE_POINTER)
    (har : (wc.fun_envs (wc.save_pointer (XUNTAG p (arglist.getD 0 Qnil) Lisp_Misc))).min_arity
        ≤ (arglist.length : Int) - 1 ∧
      (arglist.length : Int) - 1 ≤
        (if (wc.fun_envs (wc.save_pointer (XUNTAG p (arglist.getD 0 Qnil) Lisp_Misc))).max_arity
            < 0 then PTRDIFF_MAX p
         else
          (wc.fun_envs (wc.save_pointer (XUNTAG p (arglist.getD 0 Qnil) Lisp_Misc))).max_arity))
    (hinit : initialize_environment p wc pub priv = (priv1, HostResult.value () w1))
    (henc : (if plain_values p then (some (arglist.drop 1), w1)
        else lisp_to_value_args p w1
          ((arglist.drop 1).take ((arglist.length : Int) - 1).toNat)) = (some cargs, w2))
    (hsubr : host.subr
        (wc.fun_envs (wc.save_pointer (XUNTAG p (arglist.getD 0 Qnil) Lisp_Misc))).subr priv1 w2
        ((arglist.length : Int) - 1) cargs
        (wc.fun_envs (wc.save_pointer (XUNTAG p (arglist.getD 0 Qnil) Lisp_Misc))).data
      = (ret, priv2, w3))
    (hkeep : priv2 = (module_funcall p host env w fn nargs args).env) :
    (∀ sym data wf,
      host.Ffuncall
          { w with handlerlist :=
            handlertype.CATCHER_ALL :: handlertype.CONDITION_CASE :: w.handlerlist }
          (value_to_lisp p w fn :: (args.take nargs.toNat).map (value_to_lisp p w))
        = HostResult.signal sym data wf →
      module_funcall p host env w fn nargs args
        = ⟨module_nil, ⟨emacs_funcall_exit_signal, sym, data⟩,
            { wf with handlerlist := w.handlerlist }⟩ ∧
      Finternal_module_call p host wc arglist pub priv
        = HostResult.signal sym data (finalize_environment p w3)) ∧
    (∀ tag val wf,
      host.Ffuncall
          { w with handlerlist :=
            handlertype.CATCHER_ALL :: handlertype.CONDITION_CASE :: w.handlerlist }
          (value_to_lisp p w fn :: (args.take nargs.toNat).map (value_to_lisp p w))
        = HostResult.throw tag val wf →
      module_funcall p host env w fn nargs args
        = ⟨module_nil, ⟨emacs_funcall_exit_throw, tag, val⟩,
            { wf with handlerlist := w.handlerlist }⟩ ∧
      Finternal_module_call p host wc arglist pub priv
        = HostResult.throw tag val (finalize_environment p w3)) := by
  have hF := Finternal_module_call_invoke host hsv hst har hinit henc hsubr
  constructor
  · intro sym data wf hcall
    have hm := module_funcall_signal henv hroom hcall
    rw [hm] at hkeep
    refine ⟨hm, ?_⟩
    rw [hF, hkeep]
  · intro tag val wf hcall
    have hm := module_funcall_throw henv hroom hcall
    rw [hm] at hkeep
    refine ⟨hm, ?_⟩
    rw [hF, hkeep]

/-- C14 at a concrete input: on a 64-bit host the module function of
`World.with_function 1 1` is called with one argument; the foreign function of
`Host.relay` calls `funcall`, the host function signals `(40 . 7)`, and the
call of `internal--module-call` signals `(40 . 7)`. -/
theorem module_funcall_captures_witness :
    Finternal_module_call plain64 Host.relay (World.with_function 1 1) [9, 6] 1000
        emacs_env_private.normal
      = HostResult.signal 40 7
          (finalize_environment plain64
            (initialize_environment plain64 (World.with_function 1 1) 1000
              emacs_env_private.normal).2.world) :=
  ((module_funcall_captures plain64 Host.relay emacs_env_private.normal
    (initialize_environment plain64 (World.with_function 1 1) 1000
      emacs_env_private.normal).2.world
    (World.with_function 1 1) _ _ _ 6 0 [] [9, 6] [6] 1000 module_nil
    emacs_env_private.normal emacs_env_private.normal ⟨emacs_funcall_exit_signal, 40, 7⟩
    (by decide) (by decide) (by decide) (by decide) (by decide) rfl rfl rfl (by decide)).1
    40 7 _ rfl).2

/-! ## Properties of module loading -/

/-- The path of `Fmodule_load` through the initialization function: once the
file is a string, the library opens, the marker and the initialization
function are found and the environment is initialised, the outcome is decided
by the status `r` alone, after `finalize_environment`. -/
theorem Fmodule_load_run {p : Platform} {host : Host} {lib : Dynlib} {w w1 w2 : World}
    {file pub handle gpl init : Nat} {r : Int} {priv priv1 priv2 : emacs_env_private}
    (hstr : STRINGP p file = true)
    (hopen : lib.dynlib_open (SSDATA p w file) = some handle)
    (hgpl : lib.dynlib_sym handle "plugin_is_GPL_compatible" = some gpl)
    (hfunc : lib.dynlib_func handle "emacs_module_init" = some init)
    (hinit : initialize_environment p w pub priv = (priv1, HostResult.value () w1))
    (hrun : lib.module_init init pub priv1 w1 = (r, priv2, w2)) :
    Fmodule_load p host lib w file pub priv =
      if r ≠ 0 then
        if ¬ (MOST_NEGATIVE_FIXNUM p ≤ r ∧ r ≤ MOST_POSITIVE_FIXNUM p) then
          xsignal0 (finalize_environment p w2) host.Qoverflow_error
        else xsignal2 p (finalize_environment p w2) lib.Qmodule_load_failed file
          (make_number p r)
      else HostResult.value host.Qt (finalize_environment p w2) := by
  unfold Fmodule_load
  simp only [hstr, hopen, hgpl, hfunc, hinit, hrun, Bool.not_true, Bool.false_eq_true, if_false]

/-- C13. Status code of a module load: for a file that is a string, a library
that opens and has the marker and the initialization function, and an
environment that could be initialised, whatever `int` `r` the initialization
function returns, `Fmodule_load` returns `t` exactly when `r` is 0; for `r`
other than 0 within the fixnum range it signals `module-load-failed` with the
list of the file and `r` as soon as the list can be built; for `r` outside the
fixnum range it signals `overflow-error`.  In all cases the world it leaves has
been through `finalize_environment`: when the initialization function returns
with `Vmodule_environments` and the cdr of its head as it found them, the list
after the load is the list before it. -/
theorem Fmodule_load_status (p : Platform) (host : Host) (lib : Dynlib) (w w1 w2 : World)
    (file pub handle gpl init : Nat) (r : Int) (priv priv1 priv2 : emacs_env_private)
    (hp : p.Supported) (hok : w.FreeCellsOK p)
    (hstr : STRINGP p file = true)
    (hopen : lib.dynlib_open (SSDATA p w file) = some handle)
    (hgpl : lib.dynlib_sym handle "plugin_is_GPL_compatible" = some gpl)
    (hfunc : lib.dynlib_func handle "emacs_module_init" = some init)
    (hinit : initialize_environment p w pub priv = (priv1, HostResult.value () w1))
    (hrun : lib.module_init init pub priv1 w1 = (r, priv2, w2)) :
    ((∃ w3, Fmodule_load p host lib w file pub priv = HostResult.value host.Qt w3) ↔ r = 0) ∧
    (r = 0 →
      Fmodule_load p host lib w file pub priv
        = HostResult.value host.Qt (finalize_environment p w2)) ∧
    (r ≠ 0 → MOST_NEGATIVE_FIXNUM p ≤ r → r ≤ MOST_POSITIVE_FIXNUM p →
      ∀ data w3, list2 p (finalize_environment p w2) file (make_number p r) = (some data, w3) →
        Fmodule_load p host lib w file pub priv
          = HostResult.signal lib.Qmodule_load_failed data w3) ∧
    (r ≠ 0 → ¬ (MOST_NEGATIVE_FIXNUM p ≤ r ∧ r ≤ MOST_POSITIVE_FIXNUM p) →
      Fmodule_load p host lib w file pub priv
        = HostResult.signal host.Qoverflow_error Qnil (finalize_environment p w2)) ∧
    XCDR p w1 w1.Vmodule_environments = w.Vmodule_environments ∧
    (w2.Vmodule_environments = w1.Vmodule_environments →
      XCDR p w2 w2.Vmodule_environments = XCDR p w1 w1.Vmodule_environments →
      (Fmodule_load p host lib w file pub priv).world.Vmodule_environments
        = w.Vmodule_environments) := by
  have hF := @Fmodule_load_run p host lib w w1 w2 file pub handle gpl init r priv priv1 priv2
    hstr hopen hgpl hfunc hinit hrun
  obtain ⟨_, m, c, rest, hfree, _, hhead, hcdr, _⟩ := initialize_environment_spec hinit
  have hc := hok.2 c (by simp [hfree])
  have hX : XCONS p (make_lisp_ptr p c (Lisp_Cons p)) = c :=
    XCONS_make_lisp_ptr_of_supported hp hc.1 (fun h => (hc.2.2 h).2)
  have hcdr1 : XCDR p w1 w1.Vmodule_environments = w.Vmodule_environments := by
    simp only [XCDR]
    rw [hhead, hX, hcdr]
  refine ⟨?_, ?_, ?_, ?_, hcdr1, ?_⟩
  · constructor
    · rintro ⟨w3, h3⟩
      by_contra hr
      rw [hF, if_pos hr] at h3
      split at h3
      · exact absurd h3 (by simp [xsignal0])
      · unfold xsignal2 at h3
        split at h3
        · exact absurd h3 (by simp [memory_full])
        · exact absurd h3 (by simp)
    · intro hr
      exact ⟨finalize_environment p w2, by rw [hF]; simp [hr]⟩
  · intro hr
    rw [hF]; simp [hr]
  · intro hr h1 h2 data w3 hl
    rw [hF, if_pos hr, if_neg (not_not.2 ⟨h1, h2⟩)]
    simp only [xsignal2, hl]
  · intro hr hout
    rw [hF, if_pos hr, if_pos hout]
    rfl
  · intro e1 e2
    have hfin : (finalize_environment p w2).Vmodule_environments = w.Vmodule_environments := by
      simp only [finalize_environment]
      rw [e2, hcdr1]
    rw [hF]
    by_cases hr : r = 0
    · rw [if_neg (not_not.2 hr)]
      exact hfin
    · rw [if_pos hr]
      split
      · simp only [xsignal0, HostResult.world]
        exact hfin
      · unfold xsignal2
        rcases hl : list2 p (finalize_environment p w2) file (make_number p r) with ⟨_ | d, wl⟩
        · simp only [memory_full, HostResult.world]
          rw [list2_Vmodule_environments hl, hfin]
        · simp only [HostResult.world]
          rw [list2_Vmodule_environments hl, hfin]

/-- C13 at a concrete input: on a 64-bit host the initialization function of
the file `hi` returns 5; the load signals `module-load-failed` (the symbol
168 of `Dynlib.returning`) and `Vmodule_environments` is again what it was. -/
theorem Fmodule_load_status_witness :
    (∃ data w3,
      Fmodule_load plain64 Host.quiet (Dynlib.returning 5) World.with_file 12 1000
        emacs_env_private.normal = HostResult.signal 168 data w3) ∧
    (Fmodule_load plain64 Host.quiet (Dynlib.returning 5) World.with_file 12 1000
        emacs_env_private.normal).world.Vmodule_environments
      = World.with_file.Vmodule_environments :=
  have h := Fmodule_load_status plain64 Host.quiet (Dynlib.returning 5) World.with_file _ _
    12 1000 1 2 3 5 emacs_env_private.normal emacs_env_private.normal
    emacs_env_private.normal (by decide) (by decide) (by decide) rfl rfl rfl rfl rfl
  ⟨⟨_, _, h.2.2.1 (by decide) (by decide) (by decide) _ _ rfl⟩, h.2.2.2.2.2 rfl rfl⟩

/-- C12 fails on the code: on a 64-bit host the initialization function of
`Dynlib.signalling` records the error `(40)` in the environment of the load
and returns 0; `Fmodule_load` returns `t` all the same, where the claim has it
signal the error. -/
theorem Fmodule_load_ignores_pending_exit :
    (Dynlib.signalling.module_init 3 1000 emacs_env_private.normal
        (initialize_environment plain64 World.with_file 1000
          emacs_env_private.normal).2.world).2.1
      = ⟨emacs_funcall_exit_signal, 40, Qnil⟩ ∧
    ∃ w, Fmodule_load plain64 Host.quiet Dynlib.signalling World.with_file 12 1000
        emacs_env_private.normal = HostResult.value Host.quiet.Qt w :=
  ⟨by decide, _, rfl⟩

/-! ## Argument checks of the environment functions -/

theorem module_reset_handlerlist_pushed {w1 : World} {hl : List handlertype}
    (a b : handlertype) (h : w1.handlerlist = hl) :
    module_reset_handlerlist
      (module_reset_handlerlist { w1 with handlerlist := a :: b :: hl }) = w1 := by
  subst h
  rfl

/-- An environment function in the normal state, with room for its two
handlers, whose body records an error itself and returns. -/
theorem MODULE_FUNCTION_BEGIN_recorded {α : Type} {p : Platform} {retval a : α}
    {env : emacs_env_private} {w : World} {sym data : Nat}
    {body : World → emacs_env_private × HostResult α}
    (henv : env.pending_non_local_exit = emacs_funcall_exit_return)
    (hroom : w.handlerlist.length + 2 ≤ w.handler_limit)
    (hbody : body { w with handlerlist :=
        handlertype.CATCHER_ALL :: handlertype.CONDITION_CASE :: w.handlerlist }
      = (module_non_local_exit_signal_1 env sym data,
          HostResult.value a { w with handlerlist :=
            handlertype.CATCHER_ALL :: handlertype.CONDITION_CASE :: w.handlerlist })) :
    MODULE_FUNCTION_BEGIN p retval env w body
      = ⟨a, ⟨emacs_funcall_exit_signal, sym, data⟩, w⟩ := by
  rw [(MODULE_FUNCTION_BEGIN_value henv hroom hbody)]
  simp [module_non_local_exit_signal_1, henv, module_reset_handlerlist]

/-- An environment function in the normal state, with room for its two
handlers, whose body returns in a world with the handler stack it was given:
the function returns in that world, with the stack of before the call. -/
theorem MODULE_FUNCTION_BEGIN_returns {α : Type} {p : Platform} {retval a : α}
    {env env1 : emacs_env_private} {w w1 : World}
    {body : World → emacs_env_private × HostResult α}
    (henv : env.pending_non_local_exit = emacs_funcall_exit_return)
    (hroom : w.handlerlist.length + 2 ≤ w.handler_limit)
    (hhl : w1.handlerlist = w.handlerlist)
    (hbody : body { w with handlerlist :=
        handlertype.CATCHER_ALL :: handlertype.CONDITION_CASE :: w.handlerlist }
      = (env1, HostResult.value a { w1 with handlerlist :=
          handlertype.CATCHER_ALL :: handlertype.CONDITION_CASE :: w.handlerlist })) :
    MODULE_FUNCTION_BEGIN p retval env w body = ⟨a, env1, w1⟩ := by
  rw [(MODULE_FUNCTION_BEGIN_value henv hroom hbody),
    module_reset_handlerlist_pushed _ _ hhl]

theorem make_number_lt {p : Platform} (hp : p.Supported) (n : Int) :
    make_number p n < 2 ^ p.intBits := by
  rcases hp with ⟨hP, hE⟩ | ⟨hP, hE⟩ | ⟨hP, hE⟩ <;> cases hl : p.USE_LSB_TAG <;>
    simp only [make_number, XIL, INTTYPEBITS, GCTYPEBITS, VALBITS, Lisp_Int0, hE, hl,
      Bool.false_eq_true, if_false, if_true, Nat.reducePow, Nat.reduceSub, Nat.reduceMul,
      Nat.cast_ofNat] <;>
    omega

/-- C26. Length check of `module_make_string`: on an environment in the normal
state with room for the two handlers, a `length` above `STRING_BYTES_BOUND`
makes the function record `overflow-error` with nil as data and return
`module_nil`; the world is the one before the call, so no string was made. -/
theorem module_make_string_overflow (p : Platform) (host : Host) (env : emacs_env_private)
    (w : World) (str : List Nat) (length : Int)
    (henv : env.pending_non_local_exit = emacs_funcall_exit_return)
    (hroom : w.handlerlist.length + 2 ≤ w.handler_limit)
    (hlen : length > STRING_BYTES_BOUND p) :
    module_make_string p host env w str length
      = ⟨module_nil, ⟨emacs_funcall_exit_signal, host.Qoverflow_error, Qnil⟩, w⟩ := by
  unfold module_make_string
  exact MODULE_FUNCTION_BEGIN_recorded henv hroom (by simp only [hlen, if_true])

/-- C26 at a concrete input: on a 64-bit host a string of 2^61 bytes is asked
for; `overflow-error` is pending and the world has not changed. -/
theorem module_make_string_overflow_witness :
    module_make_string plain64 Host.quiet emacs_env_private.normal (World.start [8, 16] 0 [])
        [104, 105] (2 ^ 61)
      = ⟨module_nil, ⟨emacs_funcall_exit_signal, Host.quiet.Qoverflow_error, Qnil⟩,
          World.start [8, 16] 0 []⟩ :=
  module_make_string_overflow plain64 Host.quiet emacs_env_private.normal
    (World.start [8, 16] 0 []) [104, 105] (2 ^ 61) (by decide) (by decide) (by decide)

/-! The allocating functions do not look at the handler stack: run with
another one, they return the same object and leave the same world but for that
stack. -/

theorem Fcons_with_handlerlist (p : Platform) (w : World) (x y : Nat)
    (hl : List handlertype) :
    Fcons p { w with handlerlist := hl } x y
      = ((Fcons p w x y).1, { (Fcons p w x y).2 with handlerlist := hl }) := by
  unfold Fcons
  cases hf : w.free <;> simp only [hf]

theorem list2_with_handlerlist (p : Platform) (w : World) (x y : Nat)
    (hl : List handlertype) :
    list2 p { w with handlerlist := hl } x y
      = ((list2 p w x y).1, { (list2 p w x y).2 with handlerlist := hl }) := by
  unfold list2
  rw [Fcons_with_handlerlist]
  rcases Fcons p w y Qnil with ⟨_ | tl, w1⟩
  · rfl
  · simp only
    rw [Fcons_with_handlerlist]

theorem lisp_to_value_loop_with_handlerlist (p : Platform) (o : Nat)
    (hl : List handlertype) : ∀ (fuel : Nat) (w : World) (pair : Nat),
    lisp_to_value_loop p o fuel { w with handlerlist := hl } pair
      = ((lisp_to_value_loop p o fuel w pair).1,
          { (lisp_to_value_loop p o fuel w pair).2 with handlerlist := hl }) := by
  intro fuel
  induction fuel with
  | zero => intro w pair; rfl
  | succ k ih =>
    intro w pair
    unfold lisp_to_value_loop
    split
    · rw [Fcons_with_handlerlist]
      rcases Fcons p w o pair with ⟨_ | pair1, w1⟩
      · rfl
      · simp only
        exact ih w1 pair1
    · rfl

theorem lisp_to_value_with_handlerlist (p : Platform) (w : World) (o : Nat)
    (hl : List handlertype) :
    lisp_to_value p { w with handlerlist := hl } o
      = ((lisp_to_value p w o).1, { (lisp_to_value p w o).2 with handlerlist := hl }) := by
  unfold lisp_to_value
  simp only
  split
  · rw [Fcons_with_handlerlist]
    rcases Fcons p w o w.ltv_mark with ⟨_ | pair, w1⟩
    · rfl
    · simp only
      split
      · have h := lisp_to_value_loop_with_handlerlist p o hl (w1.free.length + 1) w1 pair
        simp only at h
        rw [h]
        rcases lisp_to_value_loop p o (w1.free.length + 1) w1 pair with ⟨_ | pair2, w2⟩
        · rfl
        · rfl
      · rfl
  · rfl

/-- C23. Range check of `module_make_integer`: on an environment in the normal
state with room for the two handlers, for every `intmax_t` `n`: when `n` is
outside `MOST_NEGATIVE_FIXNUM .. MOST_POSITIVE_FIXNUM` the function records
`overflow-error` and returns `module_nil`, leaving the world alone; when `n`
is inside, it returns the handle of `make_number (n)` and the environment is
as before, with no exit pending (there is memory for the handle: the fixnum is
compressible or an aligned cell is free).  So `overflow-error` is recorded
exactly for the `n` outside the range. -/
theorem module_make_integer_range (p : Platform) (host : Host) (env : emacs_env_private)
    (w : World) (n : Int) (hp : p.Supported) (hok : w.FreeCellsOK p)
    (henv : env.pending_non_local_exit = emacs_funcall_exit_return)
    (hroom : w.handlerlist.length + 2 ≤ w.handler_limit)
    (hmem : Compressible p (make_number p n) ∨ ∃ a ∈ w.free, a % GCALIGNMENT = 0) :
    (¬ (MOST_NEGATIVE_FIXNUM p ≤ n ∧ n ≤ MOST_POSITIVE_FIXNUM p) →
      module_make_integer p host env w n
        = ⟨module_nil, ⟨emacs_funcall_exit_signal, host.Qoverflow_error, Qnil⟩, w⟩) ∧
    ((MOST_NEGATIVE_FIXNUM p ≤ n ∧ n ≤ MOST_POSITIVE_FIXNUM p) →
      ∃ v w1, module_make_integer p host env w n = ⟨v, env, w1⟩ ∧
        (lisp_to_value p w (make_number p n)).1 = some v) ∧
    (((module_make_integer p host env w n).env.pending_non_local_exit
          = emacs_funcall_exit_signal ∧
        (module_make_integer p host env w n).env.non_local_exit_symbol
          = host.Qoverflow_error ∧
        (module_make_integer p host env w n).value = module_nil) ↔
      ¬ (MOST_NEGATIVE_FIXNUM p ≤ n ∧ n ≤ MOST_POSITIVE_FIXNUM p)) := by
  have hout : ¬ (MOST_NEGATIVE_FIXNUM p ≤ n ∧ n ≤ MOST_POSITIVE_FIXNUM p) →
      module_make_integer p host env w n
        = ⟨module_nil, ⟨emacs_funcall_exit_signal, host.Qoverflow_error, Qnil⟩, w⟩ := by
    intro h
    unfold module_make_integer
    exact MODULE_FUNCTION_BEGIN_recorded henv hroom (by simp only [h, not_false_eq_true, if_true])
  have hin : (MOST_NEGATIVE_FIXNUM p ≤ n ∧ n ≤ MOST_POSITIVE_FIXNUM p) →
      ∃ v w1, module_make_integer p host env w n = ⟨v, env, w1⟩ ∧
        (lisp_to_value p w (make_number p n)).1 = some v := by
    intro h
    have hs := lisp_to_value_isSome hp hok (make_number_lt hp n) hmem
    rcases e : lisp_to_value p w (make_number p n) with ⟨_ | v, w1⟩
    · simp [e] at hs
    have hcf := lisp_to_value_cells hp hok (make_number_lt hp n) e
    have hhl : w1.handlerlist = w.handlerlist := by rw [hcf.1]
    refine ⟨v, w1, ?_, rfl⟩
    unfold module_make_integer
    exact MODULE_FUNCTION_BEGIN_returns henv hroom hhl
      (by simp only [h, and_self, not_true_eq_false, if_false, return_lisp_to_value,
        lisp_to_value_with_handlerlist, e, or_memory_full])
  refine ⟨hout, hin, ?_⟩
  constructor
  · rintro ⟨h1, _, _⟩
    intro hr
    obtain ⟨v, w1, e, _⟩ := hin hr
    rw [e] at h1
    simp only at h1
    rw [henv] at h1
    exact absurd h1 (by decide)
  · intro h
    rw [hout h]
    exact ⟨rfl, rfl, rfl⟩

/-- C23 at a concrete input: on a 64-bit host 2^61, one more than
`MOST_POSITIVE_FIXNUM`, is refused with `overflow-error`, and for 5 no
`overflow-error` is recorded. -/
theorem module_make_integer_range_witness :
    module_make_integer plain64 Host.quiet emacs_env_private.normal (World.start [8] 0 [])
        (2 ^ 61)
      = ⟨module_nil, ⟨emacs_funcall_exit_signal, Host.quiet.Qoverflow_error, Qnil⟩,
          World.start [8] 0 []⟩ ∧
    ¬ ((module_make_integer plain64 Host.quiet emacs_env_private.normal
          (World.start [8] 0 []) 5).env.pending_non_local_exit = emacs_funcall_exit_signal ∧
        (module_make_integer plain64 Host.quiet emacs_env_private.normal
          (World.start [8] 0 []) 5).env.non_local_exit_symbol = Host.quiet.Qoverflow_error ∧
        (module_make_integer plain64 Host.quiet emacs_env_private.normal
          (World.start [8] 0 []) 5).value = module_nil) :=
  ⟨(module_make_integer_range plain64 Host.quiet emacs_env_private.normal
      (World.start [8] 0 []) (2 ^ 61) (by decide) (by decide) (by decide) (by decide)
      (by decide)).1 (by decide),
    fun h => (module_make_integer_range plain64 Host.quiet emacs_env_private.normal
      (World.start [8] 0 []) 5 (by decide) (by decide) (by decide) (by decide)
      (by decide)).2.2.1 h (by decide)⟩

/-! ## Vectors and user pointers -/

theorem list2_of_two_free (p : Platform) {w : World} (x y : Nat) (h : 2 ≤ w.free.length) :
    ∃ data w1, list2 p w x y = (some data, w1) := by
  rcases hf : w.free with _ | ⟨a, _ | ⟨b, rest⟩⟩
  · simp [hf] at h
  · simp [hf] at h
  · exact ⟨_, _, by simp only [list2, Fcons, hf]; rfl⟩

theorem list2_frame {p : Platform} {w w1 : World} {x y : Nat} {r : Option Nat}
    (h : list2 p w x y = (r, w1)) :
    w1.handlerlist = w.handlerlist ∧ w1.contents = w.contents ∧
      w1.user_ptr_p = w.user_ptr_p ∧ w1.user_ptr_finalizer = w.user_ptr_finalizer := by
  have hcf := (list2_cells h).1
  refine ⟨?_, ?_, ?_, ?_⟩ <;> rw [hcf]

/-- What `module_wrong_type` records when the list of the predicate and the
value can be built. -/
theorem module_wrong_type_recorded {p : Platform} {host : Host} {env : emacs_env_private}
    {w w1 : World} {predicate value data : Nat} (hl : List handlertype)
    (henv : env.pending_non_local_exit = emacs_funcall_exit_return)
    (h : list2 p w predicate value = (some data, w1)) :
    module_wrong_type p host env { w with handlerlist := hl } predicate value
      = (⟨emacs_funcall_exit_signal, host.Qwrong_type_argument, data⟩,
          HostResult.value () { w1 with handlerlist := hl }) := by
  unfold module_wrong_type
  rw [list2_with_handlerlist, h]
  simp [module_non_local_exit_signal_1, henv]

/-- What `module_args_out_of_range` records when the list of its two arguments
can be built. -/
theorem module_args_out_of_range_recorded {p : Platform} {host : Host}
    {env : emacs_env_private} {w w1 : World} {a1 a2 data : Nat} (hl : List handlertype)
    (henv : env.pending_non_local_exit = emacs_funcall_exit_return)
    (h : list2 p w a1 a2 = (some data, w1)) :
    module_args_out_of_range p host env { w with handlerlist := hl } a1 a2
      = (⟨emacs_funcall_exit_signal, host.Qargs_out_of_range, data⟩,
          HostResult.value () { w1 with handlerlist := hl }) := by
  unfold module_args_out_of_range
  rw [list2_with_handlerlist, h]
  simp [module_non_local_exit_signal_1, henv]

/-- C30. Non-vector arguments: on an environment in the normal state with room
for the two handlers and two free cells for the error data, for a handle that
does not decode to a vector, `module_vec_get`, `module_vec_set` and
`module_vec_size` record `wrong-type-argument` with the list of `vectorp` and
the value as data and return `module_nil`, nothing and 0; the elements of all
vectors are as before.  For the handle of an empty vector `module_vec_size`
returns 0 as well, with no exit pending. -/
theorem vec_wrong_type (p : Platform) (host : Host) (env : emacs_env_private) (w : World)
    (vec : Nat) (i : Int) (val : Nat)
    (henv : env.pending_non_local_exit = emacs_funcall_exit_return)
    (hroom : w.handlerlist.length + 2 ≤ w.handler_limit)
    (hmem : 2 ≤ w.free.length)
    (hvec : VECTORP p w (value_to_lisp p w vec) = false) :
    (∃ data w1,
      list2 p w host.Qvectorp (value_to_lisp p w vec) = (some data, w1) ∧
      module_vec_get p host env w vec i
        = ⟨module_nil, ⟨emacs_funcall_exit_signal, host.Qwrong_type_argument, data⟩, w1⟩ ∧
      module_vec_set p host env w vec i val
        = ⟨(), ⟨emacs_funcall_exit_signal, host.Qwrong_type_argument, data⟩, w1⟩ ∧
      module_vec_size p host env w vec
        = ⟨0, ⟨emacs_funcall_exit_signal, host.Qwrong_type_argument, data⟩, w1⟩ ∧
      w1.contents = w.contents) ∧
    (∀ vec0, VECTORP p w (value_to_lisp p w vec0) = true →
      ASIZE p w (value_to_lisp p w vec0) = 0 →
      module_vec_size p host env w vec0 = ⟨0, env, w⟩) := by
  have hv : ∀ x, value_to_lisp p { w with handlerlist :=
      handlertype.CATCHER_ALL :: handlertype.CONDITION_CASE :: w.handlerlist } x
      = value_to_lisp p w x := fun _ => rfl
  have hV : ∀ x, VECTORP p { w with handlerlist :=
      handlertype.CATCHER_ALL :: handlertype.CONDITION_CASE :: w.handlerlist } x
      = VECTORP p w x := fun _ => rfl
  constructor
  · obtain ⟨data, w1, hl⟩ := list2_of_two_free p host.Qvectorp (value_to_lisp p w vec) hmem
    have hfr := list2_frame hl
    have hwt := @module_wrong_type_recorded p host env w w1 host.Qvectorp
      (value_to_lisp p w vec) data
      (handlertype.CATCHER_ALL :: handlertype.CONDITION_CASE :: w.handlerlist) henv hl
    refine ⟨data, w1, hl, ?_, ?_, ?_, hfr.2.1⟩
    · unfold module_vec_get
      exact MODULE_FUNCTION_BEGIN_returns henv hroom hfr.1
        (by simp only [hv, hV, hvec, Bool.not_false, if_true, hwt, and_return,
          HostResult.bind])
    · unfold module_vec_set
      exact MODULE_FUNCTION_BEGIN_returns henv hroom hfr.1
        (by simp only [hv, hV, hvec, Bool.not_false, if_true, hwt])
    · unfold module_vec_size
      exact MODULE_FUNCTION_BEGIN_returns henv hroom hfr.1
        (by simp only [hv, hV, hvec, Bool.not_false, if_true, hwt, and_return,
          HostResult.bind])
  · intro vec0 h1 h2
    have hA : ASIZE p { w with handlerlist :=
        handlertype.CATCHER_ALL :: handlertype.CONDITION_CASE :: w.handlerlist }
        (value_to_lisp p w vec0) = ASIZE p w (value_to_lisp p w vec0) := rfl
    unfold module_vec_size
    exact MODULE_FUNCTION_BEGIN_returns henv hroom rfl
      (by simp only [hv, hV, h1, Bool.not_true, Bool.false_eq_true, if_false, hA, h2])

/-- C30 at a concrete input: on a 64-bit host nil (the handle 0) is not a
vector; `module_vec_size` returns 0 and `wrong-type-argument` is pending. -/
theorem vec_wrong_type_witness :
    (module_vec_size plain64 Host.quiet emacs_env_private.normal (World.start [8, 16] 0 [])
        0).value = 0 ∧
    (module_vec_size plain64 Host.quiet emacs_env_private.normal (World.start [8, 16] 0 [])
        0).env.pending_non_local_exit = emacs_funcall_exit_signal ∧
    (module_vec_size plain64 Host.quiet emacs_env_private.normal (World.start [8, 16] 0 [])
        0).env.non_local_exit_symbol = Host.quiet.Qwrong_type_argument := by
  obtain ⟨data, w1, _, _, _, hz, _⟩ :=
    (vec_wrong_type plain64 Host.quiet emacs_env_private.normal (World.start [8, 16] 0 []) 0 0
      0 (by decide) (by decide) (by decide) (by decide)).1
  rw [hz]
  exact ⟨rfl, rfl, rfl⟩

/-- C22. Vector bounds: on an environment in the normal state with room for the
two handlers and two free cells for the error data, for a handle that decodes
to a vector and an index `i` that is not in `0 .. ASIZE - 1`: when `i` is a
fixnum, `module_vec_get` returns `module_nil` and `module_vec_set` returns,
both with `args-out-of-range` recorded, the data being the list of the vector
and `make_number (i)`; otherwise both record `overflow-error`.  In either case
no element of a vector has changed. -/
theorem vec_out_of_bounds (p : Platform) (host : Host) (env : emacs_env_private) (w : World)
    (vec : Nat) (i : Int) (val : Nat)
    (henv : env.pending_non_local_exit = emacs_funcall_exit_return)
    (hroom : w.handlerlist.length + 2 ≤ w.handler_limit)
    (hmem : 2 ≤ w.free.length)
    (hvec : VECTORP p w (value_to_lisp p w vec) = true)
    (hout : ¬ (0 ≤ i ∧ i < ASIZE p w (value_to_lisp p w vec))) :
    ((MOST_NEGATIVE_FIXNUM p ≤ i ∧ i ≤ MOST_POSITIVE_FIXNUM p) →
      ∃ data w1,
        list2 p w (value_to_lisp p w vec) (make_number p i) = (some data, w1) ∧
        module_vec_get p host env w vec i
          = ⟨module_nil, ⟨emacs_funcall_exit_signal, host.Qargs_out_of_range, data⟩, w1⟩ ∧
        module_vec_set p host env w vec i val
          = ⟨(), ⟨emacs_funcall_exit_signal, host.Qargs_out_of_range, data⟩, w1⟩ ∧
        w1.contents = w.contents) ∧
    (¬ (MOST_NEGATIVE_FIXNUM p ≤ i ∧ i ≤ MOST_POSITIVE_FIXNUM p) →
      module_vec_get p host env w vec i
        = ⟨module_nil, ⟨emacs_funcall_exit_signal, host.Qoverflow_error, Qnil⟩, w⟩ ∧
      module_vec_set p host env w vec i val
        = ⟨(), ⟨emacs_funcall_exit_signal, host.Qoverflow_error, Qnil⟩, w⟩) := by
  have hv : ∀ x, value_to_lisp p { w with handlerlist :=
      handlertype.CATCHER_ALL :: handlertype.CONDITION_CASE :: w.handlerlist } x
      = value_to_lisp p w x := fun _ => rfl
  have hV : ∀ x, VECTORP p { w with handlerlist :=
      handlertype.CATCHER_ALL :: handlertype.CONDITION_CASE :: w.handlerlist } x
      = VECTORP p w x := fun _ => rfl
  have hA : ∀ x, ASIZE p { w with handlerlist :=
      handlertype.CATCHER_ALL :: handlertype.CONDITION_CASE :: w.handlerlist } x
      = ASIZE p w x := fun _ => rfl
  constructor
  · intro hfix
    obtain ⟨data, w1, hl⟩ :=
      list2_of_two_free p (value_to_lisp p w vec) (make_number p i) hmem
    have hfr := list2_frame hl
    have hor := @module_args_out_of_range_recorded p host env w w1 (value_to_lisp p w vec)
      (make_number p i) data
      (handlertype.CATCHER_ALL :: handlertype.CONDITION_CASE :: w.handlerlist) henv hl
    refine ⟨data, w1, hl, ?_, ?_, hfr.2.1⟩
    · unfold module_vec_get
      exact MODULE_FUNCTION_BEGIN_returns henv hroom hfr.1
        (by simp only [hv, hV, hA, hvec, Bool.not_true, Bool.false_eq_true, if_false, hout,
          not_false_eq_true, if_true, hfix, and_self, hor, and_return, HostResult.bind])
    · unfold module_vec_set
      exact MODULE_FUNCTION_BEGIN_returns henv hroom hfr.1
        (by simp only [hv, hV, hA, hvec, Bool.not_true, Bool.false_eq_true, if_false, hout,
          not_false_eq_true, if_true, hfix, and_self, hor])
  · intro hbig
    constructor
    · unfold module_vec_get
      exact MODULE_FUNCTION_BEGIN_recorded henv hroom
        (by simp only [hv, hV, hA, hvec, Bool.not_true, Bool.false_eq_true, if_false, hout,
          not_false_eq_true, if_true, hbig])
    · unfold module_vec_set
      exact MODULE_FUNCTION_BEGIN_recorded henv hroom
        (by simp only [hv, hV, hA, hvec, Bool.not_true, Bool.false_eq_true, if_false, hout,
          not_false_eq_true, if_true, hbig])

/-- C22 at concrete inputs: on a 64-bit host the vector of `World.with_vector`
has two elements; `module_vec_get` at its size 2 and at -1 records
`args-out-of-range`, and at 2^62, which is not a fixnum, `overflow-error`. -/
theorem vec_out_of_bounds_witness :
    (module_vec_get plain64 Host.quiet emacs_env_private.normal World.with_vector 13
        2).env.non_local_exit_symbol = Host.quiet.Qargs_out_of_range ∧
    (module_vec_get plain64 Host.quiet emacs_env_private.normal World.with_vector 13
        (-1)).env.non_local_exit_symbol = Host.quiet.Qargs_out_of_range ∧
    module_vec_get plain64 Host.quiet emacs_env_private.normal World.with_vector 13 (2 ^ 62)
      = ⟨module_nil, ⟨emacs_funcall_exit_signal, Host.quiet.Qoverflow_error, Qnil⟩,
          World.with_vector⟩ := by
  obtain ⟨_, _, _, h1, _, _⟩ :=
    (vec_out_of_bounds plain64 Host.quiet emacs_env_private.normal World.with_vector 13 2 0
      (by decide) (by decide) (by decide) (by decide) (by decide)).1 (by decide)
  obtain ⟨_, _, _, h2, _, _⟩ :=
    (vec_out_of_bounds plain64 Host.quiet emacs_env_private.normal World.with_vector 13 (-1) 0
      (by decide) (by decide) (by decide) (by decide) (by decide)).1 (by decide)
  have h3 :=
    ((vec_out_of_bounds plain64 Host.quiet emacs_env_private.normal World.with_vector 13
      (2 ^ 62) 0 (by decide) (by decide) (by decide) (by decide) (by decide)).2 (by decide)).1
  rw [h1, h2]
  exact ⟨rfl, rfl, h3⟩

/-- C25 fails on the code for the two setters: on a 64-bit host nil (the handle
0) is not a user pointer; `module_set_user_ptr` and
`module_set_user_finalizer` record `wrong-type-argument` and then store
through `XUSER_PTR (lisp)` all the same, so the fields at the address
`XUNTAG (nil, Lisp_Misc)`, 0 before the call, hold 99 and 77 after it. -/
theorem module_set_user_ptr_stores_after_wrong_type :
    USER_PTRP plain64 (World.start [8, 16] 0 [])
        (value_to_lisp plain64 (World.start [8, 16] 0 []) 0) = false ∧
    (module_set_user_ptr plain64 Host.quiet emacs_env_private.normal (World.start [8, 16] 0 [])
        0 99).env.non_local_exit_symbol = Host.quiet.Qwrong_type_argument ∧
    (World.start [8, 16] 0 []).user_ptr_p (XUNTAG plain64 Qnil Lisp_Misc) = 0 ∧
    (module_set_user_ptr plain64 Host.quiet emacs_env_private.normal (World.start [8, 16] 0 [])
        0 99).world.user_ptr_p (XUNTAG plain64 Qnil Lisp_Misc) = 99 ∧
    (module_set_user_finalizer plain64 Host.quiet emacs_env_private.normal
        (World.start [8, 16] 0 []) 0 77).env.non_local_exit_symbol
      = Host.quiet.Qwrong_type_argument ∧
    (World.start [8, 16] 0 []).user_ptr_finalizer (XUNTAG plain64 Qnil Lisp_Misc) = 0 ∧
    (module_set_user_finalizer plain64 Host.quiet emacs_env_private.normal
        (World.start [8, 16] 0 []) 0 77).world.user_ptr_finalizer
          (XUNTAG plain64 Qnil Lisp_Misc) = 77 := by
  decide

theorem ASIZE_ASET (p : Platform) (w : World) (x y : Nat) (i : Int) (val : Nat) :
    ASIZE p (ASET p w x i val) y = ASIZE p w y := by
  simp only [ASIZE, ASET]
  split <;> simp

theorem AREF_ASET_eq {p : Platform} {w : World} {x : Nat} {i : Int} (val : Nat)
    (h0 : 0 ≤ i) (h1 : i < ASIZE p w x) : AREF p (ASET p w x i val) x i = val := by
  simp only [ASIZE] at h1
  have hlt : i.toNat < (w.contents (XUNTAG p x Lisp_Vectorlike)).length := by omega
  simp [AREF, ASET, List.getD_eq_getElem?_getD, List.getElem?_set, hlt]

theorem AREF_ASET_ne {p : Platform} {w : World} {x : Nat} {i j : Int} (val : Nat)
    (h0 : 0 ≤ i) (hj : 0 ≤ j) (hne : j ≠ i) :
    AREF p (ASET p w x i val) x j = AREF p w x j := by
  have hn : i.toNat ≠ j.toNat := by omega
  simp [AREF, ASET, List.getD_eq_getElem?_getD, List.getElem?_set, hn]

/-- What `module_vec_set` does for a vector and an index within its bounds: the
element is stored, nothing else changes. -/
theorem module_vec_set_stores {p : Platform} {host : Host} {env : emacs_env_private}
    {w : World} {vec : Nat} {i : Int} (val : Nat)
    (henv : env.pending_non_local_exit = emacs_funcall_exit_return)
    (hroom : w.handlerlist.length + 2 ≤ w.handler_limit)
    (hvec : VECTORP p w (value_to_lisp p w vec) = true)
    (hin : 0 ≤ i ∧ i < ASIZE p w (value_to_lisp p w vec)) :
    module_vec_set p host env w vec i val
      = ⟨(), env, ASET p w (value_to_lisp p w vec) i (value_to_lisp p w val)⟩ := by
  have hv : ∀ x, value_to_lisp p { w with handlerlist :=
      handlertype.CATCHER_ALL :: handlertype.CONDITION_CASE :: w.handlerlist } x
      = value_to_lisp p w x := fun _ => rfl
  have hV : ∀ x, VECTORP p { w with handlerlist :=
      handlertype.CATCHER_ALL :: handlertype.CONDITION_CASE :: w.handlerlist } x
      = VECTORP p w x := fun _ => rfl
  have hA : ∀ x, ASIZE p { w with handlerlist :=
      handlertype.CATCHER_ALL :: handlertype.CONDITION_CASE :: w.handlerlist } x
      = ASIZE p w x := fun _ => rfl
  unfold module_vec_set
  exact MODULE_FUNCTION_BEGIN_returns henv hroom rfl
    (by simp only [hv, hV, hA, hvec, Bool.not_true, Bool.false_eq_true, if_false, hin,
      and_self, not_true_eq_false]; rfl)

/-- What `module_vec_get` does for a vector and an index within its bounds,
when the element is a host value and there is memory for its handle: the
handle returned decodes to the element. -/
theorem module_vec_get_element {p : Platform} (hp : p.Supported) {host : Host}
    {env : emacs_env_private} {w : World} {vec : Nat} {i : Int} (hok : w.FreeCellsOK p)
    (henv : env.pending_non_local_exit = emacs_funcall_exit_return)
    (hroom : w.handlerlist.length + 2 ≤ w.handler_limit)
    (hvec : VECTORP p w (value_to_lisp p w vec) = true)
    (hin : 0 ≤ i ∧ i < ASIZE p w (value_to_lisp p w vec))
    (hel : HostValue p w (AREF p w (value_to_lisp p w vec) i))
    (hmem : Compressible p (AREF p w (value_to_lisp p w vec) i) ∨
      ∃ a ∈ w.free, a % GCALIGNMENT = 0) :
    ∃ v w1, module_vec_get p host env w vec i = ⟨v, env, w1⟩ ∧
      value_to_lisp p w1 v = AREF p w (value_to_lisp p w vec) i ∧ w.CellsFrom w1 := by
  have hv : ∀ x, value_to_lisp p { w with handlerlist :=
      handlertype.CATCHER_ALL :: handlertype.CONDITION_CASE :: w.handlerlist } x
      = value_to_lisp p w x := fun _ => rfl
  have hV : ∀ x, VECTORP p { w with handlerlist :=
      handlertype.CATCHER_ALL :: handlertype.CONDITION_CASE :: w.handlerlist } x
      = VECTORP p w x := fun _ => rfl
  have hA : ∀ x, ASIZE p { w with handlerlist :=
      handlertype.CATCHER_ALL :: handlertype.CONDITION_CASE :: w.handlerlist } x
      = ASIZE p w x := fun _ => rfl
  have hR : ∀ x j, AREF p { w with handlerlist :=
      handlertype.CATCHER_ALL :: handlertype.CONDITION_CASE :: w.handlerlist } x j
      = AREF p w x j := fun _ _ => rfl
  have hs := lisp_to_value_isSome hp hok hel.1 hmem
  rcases e : lisp_to_value p w (AREF p w (value_to_lisp p w vec) i) with ⟨_ | v, w1⟩
  · simp [e] at hs
  have hcf := lisp_to_value_cells hp hok hel.1 e
  have hhl : w1.handlerlist = w.handlerlist := by rw [hcf.1]
  refine ⟨v, w1, ?_, value_to_lisp_of_lisp_to_value hp hok hel e, hcf⟩
  unfold module_vec_get
  exact MODULE_FUNCTION_BEGIN_returns henv hroom hhl
    (by simp only [hv, hV, hA, hR, hvec, Bool.not_true, Bool.false_eq_true, if_false, hin,
      and_self, not_true_eq_false, return_lisp_to_value, lisp_to_value_with_handlerlist, e,
      or_memory_full])

/-- With the free cells of `World.FreeCellsOK`, which with tags in the most
significant bits lie below `2 ^ (ptrBits - 1)`.
Vector set and get: on an environment in the normal state with room
for the two handlers, for a handle `vec` that decodes to a vector, an index
`i` within its bounds and a handle `val` that decodes to a host value,
`module_vec_set` stores the value and changes nothing else; afterwards
`module_vec_get` at `i` returns a handle that decodes to what `val` decodes
to, `module_vec_get` at any other index `j` within the bounds returns a handle
that decodes to the same element as before the store, `module_vec_size`
returns the size of before, and the environment is as it was, with no exit
pending.  There is memory for the handles `module_vec_get` returns (the
element is compressible or an aligned cell is free). -/
theorem vec_set_get (p : Platform) (host : Host) (env : emacs_env_private) (w : World)
    (vec : Nat) (i : Int) (val : Nat) (hp : p.Supported) (hok : w.FreeCellsOK p)
    (henv : env.pending_non_local_exit = emacs_funcall_exit_return)
    (hroom : w.handlerlist.length + 2 ≤ w.handler_limit)
    (hvec : VECTORP p w (value_to_lisp p w vec) = true)
    (hin : 0 ≤ i ∧ i < ASIZE p w (value_to_lisp p w vec))
    (hval : HostValue p w (value_to_lisp p w val))
    (hmem : Compressible p (value_to_lisp p w val) ∨ ∃ a ∈ w.free, a % GCALIGNMENT = 0) :
    module_vec_set p host env w vec i val
      = ⟨(), env, ASET p w (value_to_lisp p w vec) i (value_to_lisp p w val)⟩ ∧
    (∃ v w1,
      module_vec_get p host env (module_vec_set p host env w vec i val).world vec i
        = ⟨v, env, w1⟩ ∧
      value_to_lisp p w1 v = value_to_lisp p w val) ∧
    (∀ j, 0 ≤ j → j < ASIZE p w (value_to_lisp p w vec) → j ≠ i →
      HostValue p w (AREF p w (value_to_lisp p w vec) j) →
      (Compressible p (AREF p w (value_to_lisp p w vec) j) ∨
        ∃ a ∈ w.free, a % GCALIGNMENT = 0) →
      ∃ v w1 v0 w0,
        module_vec_get p host env (module_vec_set p host env w vec i val).world vec j
          = ⟨v, env, w1⟩ ∧
        module_vec_get p host env w vec j = ⟨v0, env, w0⟩ ∧
        value_to_lisp p w1 v = AREF p w (value_to_lisp p w vec) j ∧
        value_to_lisp p w0 v0 = AREF p w (value_to_lisp p w vec) j) ∧
    module_vec_size p host env w vec = ⟨ASIZE p w (value_to_lisp p w vec), env, w⟩ ∧
    module_vec_size p host env (module_vec_set p host env w vec i val).world vec
      = ⟨ASIZE p w (value_to_lisp p w vec), env,
          (module_vec_set p host env w vec i val).world⟩ := by
  have hset := @module_vec_set_stores p host env w vec i val henv hroom hvec hin
  have hsize : ∀ ws : World, VECTORP p ws (value_to_lisp p ws vec) = true →
      ws.handlerlist.length + 2 ≤ ws.handler_limit →
      module_vec_size p host env ws vec = ⟨ASIZE p ws (value_to_lisp p ws vec), env, ws⟩ := by
    intro ws h1 h2
    have hv : ∀ x, value_to_lisp p { ws with handlerlist :=
        handlertype.CATCHER_ALL :: handlertype.CONDITION_CASE :: ws.handlerlist } x
        = value_to_lisp p ws x := fun _ => rfl
    have hV : ∀ x, VECTORP p { ws with handlerlist :=
        handlertype.CATCHER_ALL :: handlertype.CONDITION_CASE :: ws.handlerlist } x
        = VECTORP p ws x := fun _ => rfl
    have hA : ∀ x, ASIZE p { ws with handlerlist :=
        handlertype.CATCHER_ALL :: handlertype.CONDITION_CASE :: ws.handlerlist } x
        = ASIZE p ws x := fun _ => rfl
    unfold module_vec_size
    exact MODULE_FUNCTION_BEGIN_returns henv h2 rfl
      (by simp only [hv, hV, hA, h1, Bool.not_true, Bool.false_eq_true, if_false])
  rw [hset]
  simp only
  generalize hws : ASET p w (value_to_lisp p w vec) i (value_to_lisp p w val) = ws
  have hvl : ∀ x, value_to_lisp p ws x = value_to_lisp p w x := by
    intro x; rw [← hws]; rfl
  have hVs : VECTORP p ws (value_to_lisp p ws vec) = true := by
    rw [hvl, ← hws]; exact hvec
  have hoks : ws.FreeCellsOK p := by rw [← hws]; exact hok
  have hrooms : ws.handlerlist.length + 2 ≤ ws.handler_limit := by rw [← hws]; exact hroom
  have hAs : ASIZE p ws (value_to_lisp p w vec) = ASIZE p w (value_to_lisp p w vec) := by
    rw [← hws]; exact ASIZE_ASET p w _ _ i _
  have hHV : ∀ x, HostValue p w x → HostValue p ws x := by
    intro x hx; rw [← hws]; exact hx
  have hfree : ws.free = w.free := by rw [← hws]; rfl
  refine ⟨trivial, ?_, ?_, hsize w hvec hroom, ?_⟩
  · have hAi : AREF p ws (value_to_lisp p w vec) i = value_to_lisp p w val := by
      rw [← hws]; exact AREF_ASET_eq _ hin.1 hin.2
    obtain ⟨v, w1, h1, h2, _⟩ := @module_vec_get_element p hp host env ws vec i hoks henv
      hrooms hVs (by rw [hvl, hAs]; exact hin) (by rw [hvl, hAi]; exact hHV _ hval)
      (by rw [hvl, hAi, hfree]; exact hmem)
    exact ⟨v, w1, h1, by rw [h2, hvl, hAi]⟩
  · intro j hj0 hj1 hne hel hm
    have hAj : AREF p ws (value_to_lisp p w vec) j = AREF p w (value_to_lisp p w vec) j := by
      rw [← hws]; exact AREF_ASET_ne _ hin.1 hj0 hne
    obtain ⟨v, w1, h1, h2, _⟩ := @module_vec_get_element p hp host env ws vec j hoks henv
      hrooms hVs (by rw [hvl, hAs]; exact ⟨hj0, hj1⟩) (by rw [hvl, hAj]; exact hHV _ hel)
      (by rw [hvl, hAj, hfree]; exact hm)
    obtain ⟨v0, w0, h3, h4, _⟩ := @module_vec_get_element p hp host env w vec j hok henv
      hroom hvec ⟨hj0, hj1⟩ hel hm
    exact ⟨v, w1, v0, w0, h1, h3, by rw [h2, hvl, hAj], h4⟩
  · rw [hsize ws hVs hrooms, hvl, hAs]

/-- The theorem `vec_set_get` at a concrete input:
on a 64-bit host the fixnum 3 (the handle 14) is
stored at index 1 of the vector of `World.with_vector`; `module_vec_get` at 1
then returns a handle that decodes to it. -/
theorem vec_set_get_witness :
    ∃ v w1,
      module_vec_get plain64 Host.quiet emacs_env_private.normal
          (module_vec_set plain64 Host.quiet emacs_env_private.normal World.with_vector 13 1
            14).world 13 1
        = ⟨v, emacs_env_private.normal, w1⟩ ∧
      value_to_lisp plain64 w1 v = value_to_lisp plain64 World.with_vector 14 :=
  (vec_set_get plain64 Host.quiet emacs_env_private.normal World.with_vector 13 1 14
    (by decide) (by decide) (by decide) (by decide) (by decide) (by decide) (by decide)
    (by decide)).2.1

/-! ## The counts of the global reference table -/

theorem Fcons_refs (p : Platform) (w : World) (x y : Nat) :
    (Fcons p w x y).2.Vmodule_refs_hash = w.Vmodule_refs_hash := by
  unfold Fcons
  cases w.free <;> rfl

theorem lisp_to_value_loop_refs (p : Platform) (o : Nat) : ∀ (fuel : Nat) (w : World)
    (pair : Nat),
    (lisp_to_value_loop p o fuel w pair).2.Vmodule_refs_hash = w.Vmodule_refs_hash := by
  intro fuel
  induction fuel with
  | zero => intro w pair; rfl
  | succ k ih =>
    intro w pair
    unfold lisp_to_value_loop
    split
    · have h := Fcons_refs p w o pair
      rcases e : Fcons p w o pair with ⟨_ | pair1, w1⟩
      · rw [e] at h
        exact h
      · rw [e] at h
        simp only at h ⊢
        rw [ih w1 pair1, h]
    · rfl

theorem lisp_to_value_refs (p : Platform) (w : World) (o : Nat) :
    (lisp_to_value p w o).2.Vmodule_refs_hash = w.Vmodule_refs_hash := by
  unfold lisp_to_value
  simp only
  split
  · have h := Fcons_refs p w o w.ltv_mark
    rcases e : Fcons p w o w.ltv_mark with ⟨_ | pair, w1⟩
    · rw [e] at h
      exact h
    · rw [e] at h
      simp only at h ⊢
      split
      · have h2 := lisp_to_value_loop_refs p o (w1.free.length + 1) w1 pair
        rcases e2 : lisp_to_value_loop p o (w1.free.length + 1) w1 pair with ⟨_ | pair2, w2⟩
        · rw [e2] at h2
          simp only at h2 ⊢
          rw [h2, h]
        · rw [e2] at h2
          simp only [XSETCDR] at h2 ⊢
          rw [h2, h]
      · exact h
  · rfl

/-- The table an environment function leaves is the one it found or the one
its body left, whatever the pending exit and the room for handlers. -/
theorem MODULE_FUNCTION_BEGIN_refs {α : Type} (p : Platform) (retval : α)
    (env : emacs_env_private) (w : World)
    (body : World → emacs_env_private × HostResult α) :
    (MODULE_FUNCTION_BEGIN p retval env w body).world.Vmodule_refs_hash
        = w.Vmodule_refs_hash ∨
    (MODULE_FUNCTION_BEGIN p retval env w body).world.Vmodule_refs_hash
        = (body { w with handlerlist :=
            handlertype.CATCHER_ALL :: handlertype.CONDITION_CASE :: w.handlerlist
          }).2.world.Vmodule_refs_hash := by
  by_cases h0 : env.pending_non_local_exit = emacs_funcall_exit_return
  · by_cases h1 : w.handlerlist.length < w.handler_limit
    · by_cases h2 : w.handlerlist.length + 1 < w.handler_limit
      · right
        rcases hb : body { w with handlerlist :=
            handlertype.CATCHER_ALL :: handlertype.CONDITION_CASE :: w.handlerlist }
            with ⟨env1, _ | _ | _⟩ <;>
          simp [module_non_local_exit_check, MODULE_FUNCTION_BEGIN, MODULE_HANDLE_NONLOCAL_EXIT,
            push_handler_nosignal, h0, h1, h2, hb, module_reset_handlerlist, HostResult.world]
      · left
        simp [module_non_local_exit_check, MODULE_FUNCTION_BEGIN, MODULE_HANDLE_NONLOCAL_EXIT,
          push_handler_nosignal, h0, h1, h2, module_reset_handlerlist]
    · left
      simp [module_non_local_exit_check, MODULE_FUNCTION_BEGIN, MODULE_HANDLE_NONLOCAL_EXIT,
        push_handler_nosignal, h0, h1]
  · left
    simp [module_non_local_exit_check, MODULE_FUNCTION_BEGIN, h0]

theorem mem_set_hash_value_slot {h : List (Nat × Nat)} {i v : Nat} {e : Nat × Nat} :
    e ∈ set_hash_value_slot h i v → e ∈ h ∨ e.2 = v := by
  induction h generalizing i with
  | nil => intro he; simp [set_hash_value_slot] at he
  | cons x rest ih =>
    cases i with
    | zero =>
      intro he
      simp only [set_hash_value_slot, List.mem_cons] at he
      rcases he with rfl | he
      · exact Or.inr rfl
      · exact Or.inl (List.mem_cons_of_mem _ he)
    | succ k =>
      intro he
      simp only [set_hash_value_slot, List.mem_cons] at he
      rcases he with rfl | he
      · exact Or.inl (List.mem_cons_self _ _)
      · rcases ih he with h1 | h1
        · exact Or.inl (List.mem_cons_of_mem _ h1)
        · exact Or.inr h1

theorem mem_hash_remove_from_table {h : List (Nat × Nat)} {k : Nat} {e : Nat × Nat} :
    e ∈ hash_remove_from_table h k → e ∈ h := by
  induction h with
  | nil => intro he; simp [hash_remove_from_table] at he
  | cons x rest ih =>
    intro he
    simp only [hash_remove_from_table] at he
    split at he
    · exact List.mem_cons_of_mem _ he
    · rcases List.mem_cons.1 he with rfl | h1
      · exact List.mem_cons_self _ _
      · exact List.mem_cons_of_mem _ (ih h1)

theorem HASH_VALUE_mem {h : List (Nat × Nat)} {i : Nat} (hi : i < h.length) :
    ∃ e ∈ h, HASH_VALUE h i = e.2 := by
  refine ⟨h[i], List.getElem_mem _, ?_⟩
  simp [HASH_VALUE, List.getD_eq_getElem?_getD, hi]

theorem MOST_POSITIVE_FIXNUM_pos {p : Platform} (hp : p.Supported) :
    1 ≤ MOST_POSITIVE_FIXNUM p := by
  rcases hp with ⟨_, hE⟩ | ⟨_, hE⟩ | ⟨_, hE⟩ <;>
    simp only [MOST_POSITIVE_FIXNUM, EMACS_INT_MAX, INTTYPEBITS, GCTYPEBITS, hE,
      Nat.reducePow, Nat.reduceSub, Nat.reduceDiv] <;>
    omega

/-- One `module_make_global_ref`, on any environment and world, keeps every
count of the table between 1 and `MOST_POSITIVE_FIXNUM`. -/
theorem module_make_global_ref_counts {p : Platform} (hp : p.Supported) (host : Host)
    (env : emacs_env_private) (w : World) (ref : Nat)
    (h : counts_positive p w.Vmodule_refs_hash) :
    counts_positive p (module_make_global_ref p host env w ref).world.Vmodule_refs_hash := by
  unfold module_make_global_ref
  rcases MODULE_FUNCTION_BEGIN_refs p module_nil env w _ with e | e
  · rw [e]; exact h
  rw [e]
  simp only
  rcases hl : hash_lookup w.Vmodule_refs_hash (value_to_lisp p
      { w with handlerlist :=
        handlertype.CATCHER_ALL :: handlertype.CONDITION_CASE :: w.handlerlist } ref)
    with _ | i
  · simp only [return_lisp_to_value]
    have hw : ∀ r : Option Nat × World,
        (or_memory_full p r : HostResult Nat).world = r.2 := by
      rintro ⟨_ | a, w1⟩ <;> rfl
    rw [hw, lisp_to_value_refs]
    intro e1 he1
    rcases List.mem_append.1 he1 with h1 | h1
    · exact h e1 h1
    · rw [List.mem_singleton.1 h1]
      simp only
      rw [XFASTINT_make_natnum hp (by omega) (MOST_POSITIVE_FIXNUM_pos hp)]
      exact ⟨le_refl _, MOST_POSITIVE_FIXNUM_pos hp⟩
  · simp only
    obtain ⟨e0, he0, hval⟩ := HASH_VALUE_mem (hash_lookup_lt hl)
    have hc := h e0 he0
    split
    · exact h
    · rename_i hle
      simp only [return_lisp_to_value]
      have hw : ∀ r : Option Nat × World,
          (or_memory_full p r : HostResult Nat).world = r.2 := by
        rintro ⟨_ | a, w1⟩ <;> rfl
      rw [hw, lisp_to_value_refs]
      intro e1 he1
      rcases mem_set_hash_value_slot he1 with h1 | h1
      · exact h e1 h1
      · rw [h1]
        have hv0 : HASH_VALUE w.Vmodule_refs_hash i = e0.2 := hval
        rw [hv0] at hle ⊢
        rw [XFASTINT_make_natnum hp (by omega) (by omega)]
        omega

/-- One `module_free_global_ref`, on any environment and world, keeps every
count of the table between 1 and `MOST_POSITIVE_FIXNUM`. -/
theorem module_free_global_ref_counts {p : Platform} (hp : p.Supported)
    (env : emacs_env_private) (w : World) (ref : Nat)
    (h : counts_positive p w.Vmodule_refs_hash) :
    counts_positive p (module_free_global_ref p env w ref).world.Vmodule_refs_hash := by
  unfold module_free_global_ref
  rcases MODULE_FUNCTION_BEGIN_refs p () env w _ with e | e
  · rw [e]; exact h
  rw [e]
  simp only
  rcases hl : hash_lookup w.Vmodule_refs_hash (value_to_lisp p
      { w with handlerlist :=
        handlertype.CATCHER_ALL :: handlertype.CONDITION_CASE :: w.handlerlist } ref)
    with _ | i
  · exact h
  · simp only
    obtain ⟨e0, he0, hval⟩ := HASH_VALUE_mem (hash_lookup_lt hl)
    have hc := h e0 he0
    have hv0 : HASH_VALUE w.Vmodule_refs_hash i = e0.2 := hval
    split
    · rename_i hgt
      intro e1 he1
      rcases mem_set_hash_value_slot he1 with h1 | h1
      · exact h e1 h1
      · rw [h1]
        rw [hv0] at hgt ⊢
        rw [XFASTINT_make_natnum hp (by omega) (by omega)]
        omega
    · intro e1 he1
      exact h e1 (mem_hash_remove_from_table he1)

theorem run_global_ref_calls_counts {p : Platform} (hp : p.Supported) (host : Host)
    (calls : List global_ref_call) : ∀ w : World, counts_positive p w.Vmodule_refs_hash →
    counts_positive p (run_global_ref_calls p host w calls).Vmodule_refs_hash := by
  induction calls with
  | nil => intro w h; exact h
  | cons c rest ih =>
    intro w h
    cases c with
    | make_global_ref env ref =>
      exact ih _ (module_make_global_ref_counts hp host env w ref h)
    | free_global_ref env ref =>
      exact ih _ (module_free_global_ref_counts hp env w ref h)

/-- C27. Positive reference counts: starting from a world whose table is empty,
after any finite sequence of calls of `module_make_global_ref` and
`module_free_global_ref`, on environments in any state and with any handles,
every entry of the table holds a count `c` with
`1 <= c <= MOST_POSITIVE_FIXNUM`; no entry holds 0 or a negative count. -/
theorem refcounts_positive (p : Platform) (host : Host) (w : World)
    (calls : List global_ref_call) (hp : p.Supported)
    (hempty : w.Vmodule_refs_hash = []) :
    ∀ e ∈ (run_global_ref_calls p host w calls).Vmodule_refs_hash,
      1 ≤ XFASTINT p e.2 ∧ XFASTINT p e.2 ≤ MOST_POSITIVE_FIXNUM p ∧ XFASTINT p e.2 ≠ 0 ∧
        ¬ XFASTINT p e.2 < 0 := by
  intro e he
  have h := run_global_ref_calls_counts hp host calls w
    (by rw [hempty]; intro e he; simp at he) e he
  exact ⟨h.1, h.2, by omega, by omega⟩

/-- C27 at a concrete input: on a 64-bit host, two references to nil are made
and one is freed; nil is in the table with the count 1. -/
theorem refcounts_positive_witness :
    1 ≤ XFASTINT plain64 (Qnil, make_natnum plain64 1).2 ∧
      XFASTINT plain64 (Qnil, make_natnum plain64 1).2 ≤ MOST_POSITIVE_FIXNUM plain64 ∧
      XFASTINT plain64 (Qnil, make_natnum plain64 1).2 ≠ 0 ∧
      ¬ XFASTINT plain64 (Qnil, make_natnum plain64 1).2 < 0 :=
  refcounts_positive plain64 Host.quiet (World.start [] 0 [])
    [global_ref_call.make_global_ref emacs_env_private.normal 0,
      global_ref_call.make_global_ref emacs_env_private.normal 0,
      global_ref_call.free_global_ref emacs_env_private.normal 0]
    (by decide) rfl (Qnil, make_natnum plain64 1)
    (by
      have h : (run_global_ref_calls plain64 Host.quiet (World.start [] 0 [])
          [global_ref_call.make_global_ref emacs_env_private.normal 0,
            global_ref_call.make_global_ref emacs_env_private.normal 0,
            global_ref_call.free_global_ref emacs_env_private.normal 0]).Vmodule_refs_hash
          = [(Qnil, make_natnum plain64 1)] := by decide
      rw [h]
      exact List.mem_singleton_self _)

/-- C28 fails on the code: on a 64-bit host the table holds nil with the count
1 and the fixnum 1 (the word 6) with the count 3; `module_free_global_ref` on
the handle of nil leaves nil in the table and removes the entry of the fixnum
1, a value other than the one freed. -/
theorem module_free_global_ref_removes_other :
    refcount plain64
        (World.start [] 0 [(Qnil, make_natnum plain64 1),
          (make_number plain64 1, make_natnum plain64 3)]) (make_number plain64 1)
      = some 3 ∧
    refcount plain64
        (module_free_global_ref plain64 emacs_env_private.normal
          (World.start [] 0 [(Qnil, make_natnum plain64 1),
            (make_number plain64 1, make_natnum plain64 3)]) 0).world
        (make_number plain64 1)
      = none ∧
    refcount plain64
        (module_free_global_ref plain64 emacs_env_private.normal
          (World.start [] 0 [(Qnil, make_natnum plain64 1),
            (make_number plain64 1, make_natnum plain64 3)]) 0).world Qnil
      = some 1 := by
  decide

/-! ## A wrong-type error from the foreign function to the host -/

/-- What `initialize_environment` leaves alone when memory is at hand: the
mark, the handler stack, and every cell but the new head of
`Vmodule_environments`. -/
theorem initialize_environment_frame {p : Platform} {w w1 : World} {pub : Nat}
    {priv priv1 : emacs_env_private}
    (h : initialize_environment p w pub priv = (priv1, HostResult.value () w1)) :
    ∃ m c rest, w.free = m :: c :: rest ∧ w1.free = rest ∧
      w1.ltv_mark = w.ltv_mark ∧ w1.handlerlist = w.handlerlist ∧
      w1.handler_limit = w.handler_limit ∧
      (∀ a, a ≠ c → w1.cdr a = w.cdr a ∧ w1.car a = w.car a) ∧
      w1.Vmodule_environments = make_lisp_ptr p c (Lisp_Cons p) ∧
      w1.cdr c = w.Vmodule_environments := by
  unfold initialize_environment at h
  simp only [Prod.mk.injEq] at h
  obtain ⟨_, h2⟩ := h
  rcases hf : w.free with _ | ⟨m, _ | ⟨c, rest⟩⟩
  · simp [make_save_ptr, allocate, hf, or_memory_full, memory_full, HostResult.bind] at h2
  · simp [make_save_ptr, allocate, hf, or_memory_full, memory_full, HostResult.bind, Fcons] at h2
  · simp only [make_save_ptr, allocate, hf, or_memory_full, HostResult.bind, Fcons,
      HostResult.value.injEq, true_and] at h2
    subst h2
    refine ⟨m, c, rest, rfl, rfl, rfl, rfl, rfl, ?_, rfl, by simp⟩
    intro a ha
    simp [ha]

theorem value_to_lisp_of_plain {p : Platform} (hpl : plain_values p = true) (w : World)
    (v : Nat) : value_to_lisp p w v = v := by
  have he : p.ptrBits = p.intBits := by simpa [plain_values] using hpl
  simp [value_to_lisp, value_to_lisp_bits, hpl, XIL, intptr_to_EMACS_INT, he]

/-- The single argument of a call of `internal--module-call`, as the foreign
function receives it: a handle that decodes to the argument. -/
theorem encoded_argument_decodes {p : Platform} (hp : p.Supported) {w1 w2 : World}
    {v : Nat} {args : List Nat} (hok1 : w1.FreeCellsOK p) (hv : HostValue p w1 v)
    (henc : (if plain_values p then (some [v], w1)
        else lisp_to_value_args p w1 [v]) = (some args, w2)) :
    value_to_lisp p w2 (args.getD 0 module_nil) = v ∧
      (∀ c, c ∉ w1.free → w2.cdr c = w1.cdr c) ∧
      w2.Vmodule_environments = w1.Vmodule_environments ∧ w2.free <:+ w1.free := by
  cases hpl : plain_values p with
  | true =>
    simp only [hpl, if_true, Prod.mk.injEq, Option.some.injEq] at henc
    obtain ⟨rfl, rfl⟩ := henc
    exact ⟨value_to_lisp_of_plain hpl _ _, fun _ _ => rfl, rfl, List.suffix_refl _⟩
  | false =>
    simp only [hpl, Bool.false_eq_true, if_false, lisp_to_value_args] at henc
    rcases e : lisp_to_value p w1 v with ⟨_ | h, w0⟩
    · simp [e] at henc
    · simp only [e, Prod.mk.injEq, Option.some.injEq] at henc
      obtain ⟨rfl, rfl⟩ := henc
      have hcf := lisp_to_value_cells hp hok1 hv.1 e
      exact ⟨value_to_lisp_of_lisp_to_value hp hok1 hv e, fun c hc => (hcf.2.2 c hc).2,
        by rw [hcf.1], hcf.2.1⟩

/-- With the free cells of `World.FreeCellsOK`, which with tags in the most
significant bits lie below `2 ^ (ptrBits - 1)`.
Wrong-type error, end to end: a module function whose arity is exactly
one and whose foreign function calls `extract_integer` on its argument and
returns is called with one argument `v`, a host value that is not an integer.
When the environment can be initialised, the argument encoded, and there is
room for the two handlers and two free cells for the error data,
`module_extract_integer` returns 0 and records `wrong-type-argument` with the
list of `integerp` and `v` as data; `internal--module-call` signals
`wrong-type-argument` with that data; and the environment that was pushed on
`Vmodule_environments` has been removed again, the list being the one before
the call. -/
theorem wrong_type_end_to_end (p : Platform) (host : Host) (w w1 w2 : World)
    (envobj v pub ret : Nat) (priv priv1 : emacs_env_private) (args : List Nat)
    (hp : p.Supported) (hok : w.FreeCellsOK p)
    (hsv : SAVE_VALUEP p w envobj = true)
    (hst : w.save_type (XUNTAG p envobj Lisp_Misc) = SAVE_POINTER)
    (hmin : (w.fun_envs (w.save_pointer (XUNTAG p envobj Lisp_Misc))).min_arity = 1)
    (hmax : (w.fun_envs (w.save_pointer (XUNTAG p envobj Lisp_Misc))).max_arity = 1)
    (hv : HostValue p w v) (hnint : INTEGERP p v = false)
    (hinit : initialize_environment p w pub priv = (priv1, HostResult.value () w1))
    (henc : (if plain_values p then (some [v], w1)
        else lisp_to_value_args p w1 [v]) = (some args, w2))
    (hroom : w2.handlerlist.length + 2 ≤ w2.handler_limit)
    (hmem : 2 ≤ w2.free.length)
    (hsubr : host.subr (w.fun_envs (w.save_pointer (XUNTAG p envobj Lisp_Misc))).subr priv1 w2
        1 args (w.fun_envs (w.save_pointer (XUNTAG p envobj Lisp_Misc))).data
      = (ret, (module_extract_integer p host priv1 w2 (args.getD 0 module_nil)).env,
          (module_extract_integer p host priv1 w2 (args.getD 0 module_nil)).world)) :
    ∃ data w3,
      list2 p w2 host.Qintegerp v = (some data, w3) ∧
      module_extract_integer p host priv1 w2 (args.getD 0 module_nil)
        = ⟨0, ⟨emacs_funcall_exit_signal, host.Qwrong_type_argument, data⟩, w3⟩ ∧
      Finternal_module_call p host w [envobj, v] pub priv
        = HostResult.signal host.Qwrong_type_argument data (finalize_environment p w3) ∧
      XCDR p w2 w2.Vmodule_environments = w.Vmodule_environments ∧
      (finalize_environment p w3).Vmodule_environments = w.Vmodule_environments := by
  obtain ⟨m, c, rest, hfree, hfree1, hmark1, _, _, hcells1, hhead, hcdr⟩ :=
    initialize_environment_frame hinit
  have hpriv1 : priv1.pending_non_local_exit = emacs_funcall_exit_return := by
    rw [(initialize_environment_spec hinit).1]
  have hcm : c ∈ w.free := by simp [hfree]
  have hc := hok.2 c hcm
  have hX : XCONS p (make_lisp_ptr p c (Lisp_Cons p)) = c :=
    XCONS_make_lisp_ptr_of_supported hp hc.1 (fun h => (hc.2.2 h).2)
  have hnd : c ∉ rest := by
    have := hok.1
    rw [hfree] at this
    exact (List.nodup_cons.1 (List.nodup_cons.1 this).2).1
  have hsuf : w1.free <:+ w.free := by rw [hfree, hfree1]; exact ⟨[m, c], rfl⟩
  have hok1 : w1.FreeCellsOK p := hok.of_suffix hsuf
  have hv1 : HostValue p w1 v := by
    refine ⟨hv.1, fun hpl hcons => ?_⟩
    obtain ⟨h1, h2⟩ := hv.2 hpl hcons
    refine ⟨fun h => h1 (hsuf.subset h), ?_⟩
    have hne : XCONS p v ≠ c := fun h => h1 (h ▸ hcm)
    simp only [XCDR] at h2 ⊢
    rw [(hcells1 _ hne).1, hmark1]
    exact h2
  obtain ⟨hdec, hcdr2, henv2, hsuf2⟩ := encoded_argument_decodes hp hok1 hv1 henc
  have hc2 : c ∉ w2.free := fun h => hnd (hfree1 ▸ hsuf2.subset h)
  obtain ⟨data, w3, hl⟩ := list2_of_two_free p host.Qintegerp v hmem
  have hfr := list2_frame hl
  have hcf3 := list2_cells hl
  have hvv : ∀ x, value_to_lisp p { w2 with handlerlist :=
      handlertype.CATCHER_ALL :: handlertype.CONDITION_CASE :: w2.handlerlist } x
      = value_to_lisp p w2 x := fun _ => rfl
  have hwt := @module_wrong_type_recorded p host priv1 w2 w3 host.Qintegerp v data
    (handlertype.CATCHER_ALL :: handlertype.CONDITION_CASE :: w2.handlerlist) hpriv1 hl
  have hex : module_extract_integer p host priv1 w2 (args.getD 0 module_nil)
      = ⟨0, ⟨emacs_funcall_exit_signal, host.Qwrong_type_argument, data⟩, w3⟩ := by
    unfold module_extract_integer
    exact MODULE_FUNCTION_BEGIN_returns hpriv1 hroom hfr.1
      (by simp only [hvv, hdec, hnint, Bool.not_false, if_true, hwt, and_return,
        HostResult.bind])
  rw [hex] at hsubr
  have har : (w.fun_envs (w.save_pointer
        (XUNTAG p ([envobj, v].getD 0 Qnil) Lisp_Misc))).min_arity
        ≤ (([envobj, v] : List Nat).length : Int) - 1 ∧
      (([envobj, v] : List Nat).length : Int) - 1 ≤
        (if (w.fun_envs (w.save_pointer
            (XUNTAG p ([envobj, v].getD 0 Qnil) Lisp_Misc))).max_arity < 0
          then PTRDIFF_MAX p
         else (w.fun_envs (w.save_pointer
            (XUNTAG p ([envobj, v].getD 0 Qnil) Lisp_Misc))).max_arity) := by
    simp [hmin, hmax]
  have hF := @Finternal_module_call_invoke p host w w1 w2 w3 [envobj, v] args pub ret priv
    priv1 ⟨emacs_funcall_exit_signal, host.Qwrong_type_argument, data⟩ hsv hst har hinit
    (by simpa using henc) (by simpa using hsubr)
  have hcdr2' : XCDR p w2 w2.Vmodule_environments = w.Vmodule_environments := by
    simp only [XCDR]
    rw [henv2, hhead, hX, hcdr2 c (by rw [hfree1]; exact hnd), hcdr]
  refine ⟨data, w3, hl, hex, hF, hcdr2', ?_⟩
  simp only [finalize_environment, XCDR]
  rw [list2_Vmodule_environments hl, henv2, hhead, hX, (hcf3.2.2 c hc2).2,
    hcdr2 c (by rw [hfree1]; exact hnd), hcdr]

/-- The theorem `wrong_type_end_to_end` at a concrete input:
on a 64-bit host the module function of
`World.with_function 1 1`, with the foreign function of `Host.extracting`, is
called with nil; the call signals `wrong-type-argument` and
`Vmodule_environments` is again what it was. -/
theorem wrong_type_end_to_end_witness :
    ∃ data w4,
      Finternal_module_call plain64 Host.extracting (World.with_function 1 1) [9, Qnil] 1000
          emacs_env_private.normal
        = HostResult.signal Host.quiet.Qwrong_type_argument data w4 ∧
      w4.Vmodule_environments = (World.with_function 1 1).Vmodule_environments := by
  obtain ⟨data, w3, _, _, hF, _, hfin⟩ :=
    wrong_type_end_to_end plain64 Host.extracting (World.with_function 1 1) _ _ 9 Qnil 1000
      module_nil emacs_env_private.normal emacs_env_private.normal [Qnil]
      (by decide) (by decide) (by decide) (by decide) (by decide) (by decide) (by decide)
      (by decide) rfl rfl (by decide) (by decide) rfl
  exact ⟨data, _, hF, hfin⟩

/-! ## The nil handle, the predicates, and the raw bits of the codec -/

/-- C35. The sentinel handle is the nil handle: on every platform, in every
world, `value_to_lisp (module_nil)` is `Qnil`, as `syms_of_module` asserts;
and `lisp_to_value (Qnil)` is `module_nil`, without allocating.  So the
`module_nil` a function returns on error is the handle it returns for nil. -/
theorem value_to_lisp_module_nil (p : Platform) (w : World) :
    value_to_lisp p w module_nil = Qnil ∧ NILP (value_to_lisp p w module_nil) = true ∧
      module_nil = 0 ∧ lisp_to_value p w Qnil = (some module_nil, w) := by
  have hb : value_to_lisp_bits p 0 = 0 := by
    cases hl : p.USE_LSB_TAG <;> cases hpl : plain_values p <;>
      simp [value_to_lisp_bits, hl, hpl, XIL, intptr_to_EMACS_INT, GCALIGNMENT, Lisp_Int0,
        Lisp_Int1]
  have hc : CONSP p 0 = false := by
    cases hl : p.USE_LSB_TAG <;> simp [CONSP, XTYPE, Lisp_Cons, hl]
  have hv : value_to_lisp p w module_nil = Qnil := by
    simp [value_to_lisp, module_nil, hb, hc, Qnil]
  have hi : INTEGERP p 0 = false := by
    cases hl : p.USE_LSB_TAG <;> simp [INTEGERP, XTYPE, Lisp_Int0, Lisp_Int1, hl]
  have hlb : lisp_to_value_bits p 0 = 0 := by
    cases hl : p.USE_LSB_TAG <;> cases hpl : plain_values p <;>
      simp [lisp_to_value_bits, hl, hpl, XLI, hi, XTYPE]
  refine ⟨hv, by rw [hv]; rfl, rfl, ?_⟩
  simp [lisp_to_value, Qnil, module_nil, hlb, hb, EQ]

/-- C34. The predicates on an environment in the normal state: `module_eq`
returns true exactly when its two handles decode to the identical host value,
`module_is_not_nil` returns true exactly when its handle does not decode to
nil, and both leave the environment and the world as they were. -/
theorem predicates_when_normal (p : Platform) (env : emacs_env_private) (w : World)
    (a b : Nat) (henv : env.pending_non_local_exit = emacs_funcall_exit_return) :
    ((module_eq p env w a b).value = true ↔ value_to_lisp p w a = value_to_lisp p w b) ∧
    ((module_is_not_nil p env w a).value = true ↔ value_to_lisp p w a ≠ Qnil) ∧
    (module_eq p env w a b).env = env ∧ (module_eq p env w a b).world = w ∧
    (module_is_not_nil p env w a).env = env ∧ (module_is_not_nil p env w a).world = w := by
  simp [module_eq, module_is_not_nil, module_non_local_exit_check, henv, EQ, NILP]

/-- C34 at a concrete input: on a 32-bit host with wide integers and tags in
the most significant bits the fixnum 1 is encoded twice, in the containers at
16 and 24; the two handles 22 and 30 differ and compare `eq`. -/
theorem predicates_when_normal_witness :
    (module_eq msb_wide emacs_env_private.normal
      (lisp_to_value msb_wide
        (lisp_to_value msb_wide (World.start [16, 24] 806 []) (make_number msb_wide 1)).2
        (make_number msb_wide 1)).2 22 30).value = true :=
  (predicates_when_normal msb_wide emacs_env_private.normal
    (lisp_to_value msb_wide
      (lisp_to_value msb_wide (World.start [16, 24] 806 []) (make_number msb_wide 1)).2
      (make_number msb_wide 1)).2 22 30 (by decide)).1.2 (by decide)

/-- With plain values or tags in the low bits the raw conversions are inverse
to each other on every handle. -/
theorem lisp_to_value_bits_value_to_lisp_bits {p : Platform} (hp : p.Supported)
    (h : plain_values p = true ∨ p.USE_LSB_TAG = true) {v : Nat} (hv : v < 2 ^ p.ptrBits) :
    lisp_to_value_bits p (value_to_lisp_bits p v) = v := by
  have hor : (plain_values p || p.USE_LSB_TAG) = true := by
    rcases h with h | h <;> simp [h]
  simp only [lisp_to_value_bits, value_to_lisp_bits, hor, if_true, XIL, XLI,
    intptr_to_EMACS_INT]
  rcases hp with ⟨hP, hE⟩ | ⟨hP, hE⟩ | ⟨hP, hE⟩ <;>
    simp only [hP, hE, Nat.reducePow, Nat.reduceSub] at hv ⊢ <;>
    split <;> omega

/-- C37 fails on the code with tags in the most significant bits: on a 32-bit
host with wide integers the handle 10 carries the tag of an integer and
`value_to_lisp_bits` makes it the fixnum 1, which `lisp_to_value_bits` turns
into 2, not 10 (it shifts the integer left by `VALBITS`, so nothing but the tag
is left in a pointer); and the handle 2^31 + 8, negative as an `intptr_t`,
comes back as 2^31 + 15, the sign extension having changed the tag. -/
theorem lisp_to_value_bits_not_inverse :
    value_to_lisp_bits msb_wide 10 = make_number msb_wide 1 ∧
    INTEGERP msb_wide (value_to_lisp_bits msb_wide 10) = true ∧
    lisp_to_value_bits msb_wide (value_to_lisp_bits msb_wide 10) = 2 ∧
    lisp_to_value_bits msb_wide (value_to_lisp_bits msb_wide (2 ^ 31 + 8)) = 2 ^ 31 + 15 ∧
    lisp_to_value_bits lsb_wide (value_to_lisp_bits lsb_wide 10) = 10 ∧
    lisp_to_value_bits plain64 (value_to_lisp_bits plain64 10) = 10 := by
  decide

/-! ## Properties of the memory limit warnings -/

theorem get_lim_data_le (p : Platform) (rlimit : Option Nat) :
    get_lim_data p rlimit ≤ SIZE_MAX p := by
  unfold get_lim_data
  split
  · split
    · assumption
    · exact le_refl _
  · exact le_refl _

/-- The multiples of `five_percent` that `check_memory_limits` forms do not
wrap around. -/
theorem size_mul_five_percent {p : Platform} {lim k : Nat} (hlim : lim ≤ SIZE_MAX p)
    (hk : k ≤ 20) : size_mul p (lim / 20) k = lim / 20 * k := by
  unfold size_mul
  apply Nat.mod_eq_of_lt
  have h1 : lim / 20 * k ≤ lim / 20 * 20 := Nat.mul_le_mul_left _ hk
  have h2 : lim / 20 * 20 ≤ lim := Nat.div_mul_le_self lim 20
  have h3 : 0 < 2 ^ p.ptrBits := Nat.two_pow_pos _
  unfold SIZE_MAX at hlim
  omega



/-- With a warning function installed, the level and the messages that
`check_memory_limits` leaves, with the products of `size_t` written as exact
products. -/
theorem check_memory_limits_level (p : Platform) (DATA_SEG_BITS : Nat) (s : vm_limit)
    (rlimit : Option Nat) (cp five_percent data_size : Nat)
    (hw : s.warn_function = true) (hlim : s.lim_data ≤ SIZE_MAX p)
    (hfive : five_percent
      = (if s.lim_data = 0 then get_lim_data p rlimit else s.lim_data) / 20)
    (hsize : data_size = (cp + 2 ^ p.ptrBits - s.data_space_start) % 2 ^ p.ptrBits) :
    (check_memory_limits p DATA_SEG_BITS s rlimit cp).1.warnlevel
      = (if (new_warnlevel p five_percent data_size).toNat > s.warnlevel.toNat ∨
            new_warnlevel p five_percent data_size = warnlevel.warned_95 then
          new_warnlevel p five_percent data_size
        else if data_size < five_percent * 14 then warnlevel.not_warned
        else if s.warnlevel.toNat > 1 ∧ data_size < five_percent * 16 then
          warnlevel.warned_75
        else if s.warnlevel.toNat > 2 ∧ data_size < five_percent * 18 then
          warnlevel.warned_85
        else s.warnlevel) ∧
    ((check_memory_limits p DATA_SEG_BITS s rlimit cp).2
        = (if (new_warnlevel p five_percent data_size).toNat > s.warnlevel.toNat ∨
              new_warnlevel p five_percent data_size = warnlevel.warned_95 then
            match new_warnlevel p five_percent data_size with
            | warnlevel.warned_75 => ["Warning: past 75% of memory limit"]
            | warnlevel.warned_85 => ["Warning: past 85% of memory limit"]
            | warnlevel.warned_95 => ["Warning: past 95% of memory limit"]
            | warnlevel.not_warned => []
          else [])
          ++ (if exceeds_lisp_ptr p DATA_SEG_BITS cp then
            ["Warning: memory in use exceeds lisp pointer size"] else [])) := by
  have hl : (if s.lim_data = 0 then get_lim_data p rlimit else s.lim_data) ≤ SIZE_MAX p := by
    split
    · exact get_lim_data_le p rlimit
    · exact hlim
  have h14 := @size_mul_five_percent p _ 14 hl (by decide)
  have h16 := @size_mul_five_percent p _ 16 hl (by decide)
  have h18 := @size_mul_five_percent p _ 18 hl (by decide)
  rw [← hfive] at h14 h16 h18
  have e1 : warnlevel.warned_75.toNat = 1 := rfl
  have e2 : warnlevel.warned_85.toNat = 2 := rfl
  have hx1 : ∀ (r : vm_limit × List String),
      (if exceeds_lisp_ptr p DATA_SEG_BITS cp = true then
        (r.1, r.2 ++ ["Warning: memory in use exceeds lisp pointer size"]) else r).1 = r.1 := by
    intro r; split <;> rfl
  have hx2 : ∀ (r : vm_limit × List String),
      (if exceeds_lisp_ptr p DATA_SEG_BITS cp = true then
        (r.1, r.2 ++ ["Warning: memory in use exceeds lisp pointer size"]) else r).2
        = r.2 ++ (if exceeds_lisp_ptr p DATA_SEG_BITS cp then
            ["Warning: memory in use exceeds lisp pointer size"] else []) := by
    intro r; split <;> simp
  unfold check_memory_limits
  by_cases h0 : s.lim_data = 0
  · simp only [h0, if_true] at hfive
    simp only [h0, if_true, hw, ← hfive, ← hsize, h14, h16, h18, e1, e2, Bool.not_true,
      Bool.false_eq_true, if_false, hx1, hx2]
    generalize new_warnlevel p five_percent data_size = nw
    by_cases hc : nw.toNat > s.warnlevel.toNat ∨ nw = warnlevel.warned_95
    · rw [if_pos hc, if_pos hc, if_pos hc]
      cases nw <;> exact ⟨rfl, rfl⟩
    · rw [if_neg hc, if_neg hc, if_neg hc]
      constructor <;> split_ifs <;> rfl
  · simp only [h0, if_false] at hfive
    simp only [h0, if_false, hw, ← hfive, ← hsize, h14, h16, h18, e1, e2, Bool.not_true,
      Bool.false_eq_true, hx1, hx2]
    generalize new_warnlevel p five_percent data_size = nw
    by_cases hc : nw.toNat > s.warnlevel.toNat ∨ nw = warnlevel.warned_95
    · rw [if_pos hc, if_pos hc, if_pos hc]
      cases nw <;> exact ⟨rfl, rfl⟩
    · rw [if_neg hc, if_neg hc, if_neg hc]
      constructor <;> split_ifs <;> rfl

/-- The demanded level is 95%, at least 85%, at least 75% exactly when the
usage is above 19, 17, 15 twentieths of the limit. -/
theorem new_warnlevel_thresholds {p : Platform} {lim : Nat} (hlim : lim ≤ SIZE_MAX p)
    (data_size : Nat) :
    (new_warnlevel p (lim / 20) data_size = warnlevel.warned_95 ↔ data_size > lim / 20 * 19) ∧
    (2 ≤ (new_warnlevel p (lim / 20) data_size).toNat ↔ data_size > lim / 20 * 17) ∧
    (1 ≤ (new_warnlevel p (lim / 20) data_size).toNat ↔ data_size > lim / 20 * 15) := by
  have h15 := @size_mul_five_percent p _ 15 hlim (by decide)
  have h17 := @size_mul_five_percent p _ 17 hlim (by decide)
  have h19 := @size_mul_five_percent p _ 19 hlim (by decide)
  unfold new_warnlevel
  rw [h15, h17, h19]
  split_ifs <;> simp [warnlevel.toNat] <;> omega

/-- C36. With a warning function installed, `check_memory_limits` issues a
usage warning exactly when the level demanded by the usage (above 15, 17 or 19
twentieths of the limit) is strictly higher than the stored level or is the
95% level; the stored level is then the demanded level and the first message
is the text of that level.  Otherwise the stored level is only lowered: to
none below 14 twentieths, to 75% below 16, to 85% below 18.  In both cases the
stored level is at least the demanded level afterwards. -/
theorem check_memory_limits_levels (p : Platform) (DATA_SEG_BITS : Nat) (s : vm_limit)
    (rlimit : Option Nat) (cp five_percent data_size : Nat)
    (hw : s.warn_function = true) (hlim : s.lim_data ≤ SIZE_MAX p)
    (hfive : five_percent
      = (if s.lim_data = 0 then get_lim_data p rlimit else s.lim_data) / 20)
    (hsize : data_size = (cp + 2 ^ p.ptrBits - s.data_space_start) % 2 ^ p.ptrBits) :
    ((new_warnlevel p five_percent data_size = warnlevel.warned_95
        ↔ data_size > five_percent * 19) ∧
      (2 ≤ (new_warnlevel p five_percent data_size).toNat ↔ data_size > five_percent * 17) ∧
      (1 ≤ (new_warnlevel p five_percent data_size).toNat ↔ data_size > five_percent * 15)) ∧
    ((∃ m ∈ (check_memory_limits p DATA_SEG_BITS s rlimit cp).2, m ∈ usage_warnings) ↔
      ((new_warnlevel p five_percent data_size).toNat > s.warnlevel.toNat ∨
        new_warnlevel p five_percent data_size = warnlevel.warned_95)) ∧
    (((new_warnlevel p five_percent data_size).toNat > s.warnlevel.toNat ∨
        new_warnlevel p five_percent data_size = warnlevel.warned_95) →
      (check_memory_limits p DATA_SEG_BITS s rlimit cp).1.warnlevel
        = new_warnlevel p five_percent data_size ∧
      (new_warnlevel p five_percent data_size = warnlevel.warned_75 →
        (check_memory_limits p DATA_SEG_BITS s rlimit cp).2.head?
          = some "Warning: past 75% of memory limit") ∧
      (new_warnlevel p five_percent data_size = warnlevel.warned_85 →
        (check_memory_limits p DATA_SEG_BITS s rlimit cp).2.head?
          = some "Warning: past 85% of memory limit") ∧
      (new_warnlevel p five_percent data_size = warnlevel.warned_95 →
        (check_memory_limits p DATA_SEG_BITS s rlimit cp).2.head?
          = some "Warning: past 95% of memory limit")) ∧
    (¬ ((new_warnlevel p five_percent data_size).toNat > s.warnlevel.toNat ∨
        new_warnlevel p five_percent data_size = warnlevel.warned_95) →
      (check_memory_limits p DATA_SEG_BITS s rlimit cp).1.warnlevel.toNat
        ≤ s.warnlevel.toNat ∧
      (data_size < five_percent * 14 →
        (check_memory_limits p DATA_SEG_BITS s rlimit cp).1.warnlevel
          = warnlevel.not_warned) ∧
      (five_percent * 14 ≤ data_size → data_size < five_percent * 16 →
        s.warnlevel.toNat > 1 →
        (check_memory_limits p DATA_SEG_BITS s rlimit cp).1.warnlevel
          = warnlevel.warned_75) ∧
      (five_percent * 16 ≤ data_size → data_size < five_percent * 18 →
        s.warnlevel.toNat > 2 →
        (check_memory_limits p DATA_SEG_BITS s rlimit cp).1.warnlevel
          = warnlevel.warned_85)) ∧
    (new_warnlevel p five_percent data_size).toNat
      ≤ (check_memory_limits p DATA_SEG_BITS s rlimit cp).1.warnlevel.toNat := by
  have hl : (if s.lim_data = 0 then get_lim_data p rlimit else s.lim_data) ≤ SIZE_MAX p := by
    split
    · exact get_lim_data_le p rlimit
    · exact hlim
  have hth := new_warnlevel_thresholds hl data_size
  rw [← hfive] at hth
  obtain ⟨hlev, hmsg⟩ := check_memory_limits_level p DATA_SEG_BITS s rlimit cp five_percent
    data_size hw hlim hfive hsize
  rw [hlev, hmsg]
  generalize new_warnlevel p five_percent data_size = nw at hth ⊢
  obtain ⟨t95, t85, t75⟩ := hth
  have hex : ∀ m, m ∈ (if exceeds_lisp_ptr p DATA_SEG_BITS cp = true then
      ["Warning: memory in use exceeds lisp pointer size"] else []) → m ∉ usage_warnings := by
    intro m hm
    split at hm
    · rw [List.mem_singleton.1 hm]; decide
    · simp at hm
  have k0 : warnlevel.not_warned.toNat = 0 := rfl
  have k1 : warnlevel.warned_75.toNat = 1 := rfl
  have k2 : warnlevel.warned_85.toNat = 2 := rfl
  refine ⟨⟨t95, t85, t75⟩, ?_, ?_, ?_, ?_⟩
  · constructor
    · rintro ⟨m, hm, hu⟩
      by_contra hc
      rw [if_neg hc] at hm
      exact hex m (by simpa using hm) hu
    · intro hc
      rw [if_pos hc]
      cases nw
      · simp [warnlevel.toNat] at hc
      · exact ⟨"Warning: past 75% of memory limit", by simp, by decide⟩
      · exact ⟨"Warning: past 85% of memory limit", by simp, by decide⟩
      · exact ⟨"Warning: past 95% of memory limit", by simp, by decide⟩
  · intro hc
    rw [if_pos hc, if_pos hc]
    refine ⟨rfl, ?_, ?_, ?_⟩ <;> intro h <;> subst h <;> rfl
  · intro hc
    rw [if_neg hc]
    refine ⟨?_, ?_, ?_, ?_⟩
    · split_ifs <;> (try simp only [k0, k1, k2]) <;> omega
    · intro h; rw [if_pos h]
    · intro h1 h2 h3; rw [if_neg (by omega), if_pos ⟨h3, h2⟩]
    · intro h1 h2 h3
      rw [if_neg (by omega), if_neg (by omega), if_pos ⟨h3, h2⟩]
  · by_cases hc : nw.toNat > s.warnlevel.toNat ∨ nw = warnlevel.warned_95
    · rw [if_pos hc]
    · rw [if_neg hc]
      have hc1 : nw.toNat ≤ s.warnlevel.toNat := by
        by_contra h; exact hc (Or.inl (by omega))
      have hc2 : nw ≠ warnlevel.warned_95 := fun h => hc (Or.inr h)
      have hc3 : ¬ data_size > five_percent * 19 := fun h => hc2 (t95.2 h)
      have hc4 : nw.toNat ≤ 2 := by
        cases nw
        · decide
        · decide
        · decide
        · exact absurd rfl hc2
      split_ifs <;> (try simp only [k0, k1, k2]) <;> omega

theorem check_memory_limits_levels_witness :
    (vm_limit.mk warnlevel.not_warned true 0 2000).warn_function = true ∧
    (vm_limit.mk warnlevel.not_warned true 0 2000).lim_data ≤ SIZE_MAX plain64 ∧
    (check_memory_limits plain64 0 (vm_limit.mk warnlevel.not_warned true 0 2000) none
      1600).1.warnlevel = warnlevel.warned_75 ∧
    (check_memory_limits plain64 0 (vm_limit.mk warnlevel.not_warned true 0 2000) none
      1600).2.head? = some "Warning: past 75% of memory limit" := by
  have h := check_memory_limits_levels plain64 0 (vm_limit.mk warnlevel.not_warned true 0 2000)
    none 1600 100 1600 rfl (by decide) (by decide) (by decide)
  have hn : new_warnlevel plain64 100 1600 = warnlevel.warned_75 := by decide
  have hc := h.2.2.1 (Or.inl (by rw [hn]; decide))
  exact ⟨rfl, by decide, hc.1.trans hn, hc.2.1 hn⟩


/-! ## Round trips through the environment functions -/

/-- The tag of a fixnum made by `make_number` is one of the two integer tags. -/
theorem XTYPE_make_number {p : Platform} (hp : p.Supported) (n : Int) :
    XTYPE p (make_number p n) = Lisp_Int0 ∨ XTYPE p (make_number p n) = Lisp_Int1 p := by
  rcases hp with ⟨hP, hE⟩ | ⟨hP, hE⟩ | ⟨hP, hE⟩ <;> cases hl : p.USE_LSB_TAG <;>
    simp only [XTYPE, make_number, XIL, INTTYPEBITS, GCTYPEBITS, VALBITS, Lisp_Int0, Lisp_Int1,
      hE, hl, Bool.false_eq_true, if_false, if_true, Nat.reducePow, Nat.reduceSub,
      Nat.reduceMul, Nat.cast_ofNat] <;>
    omega

theorem INTEGERP_make_number {p : Platform} (hp : p.Supported) (n : Int) :
    INTEGERP p (make_number p n) = true := by
  rcases XTYPE_make_number hp n with h | h <;> cases hl : p.USE_LSB_TAG <;>
    simp only [INTEGERP, h, Lisp_Int0, Lisp_Int1, hl, Bool.false_eq_true, if_false, if_true] <;>
    decide

theorem CONSP_make_number {p : Platform} (hp : p.Supported) (n : Int) :
    CONSP p (make_number p n) = false := by
  rcases XTYPE_make_number hp n with h | h <;> cases hl : p.USE_LSB_TAG <;>
    simp only [CONSP, h, Lisp_Int0, Lisp_Int1, Lisp_Cons, hl, Bool.false_eq_true, if_false,
      if_true] <;>
    decide

theorem HostValue_make_number {p : Platform} (hp : p.Supported) (w : World) (n : Int) :
    HostValue p w (make_number p n) :=
  ⟨make_number_lt hp n, fun _ hc => by rw [CONSP_make_number hp n] at hc; cases hc⟩

theorem XINT_make_number {p : Platform} (hp : p.Supported) {n : Int}
    (h0 : MOST_NEGATIVE_FIXNUM p ≤ n) (h1 : n ≤ MOST_POSITIVE_FIXNUM p) :
    XINT p (make_number p n) = n := by
  rcases hp with ⟨hP, hE⟩ | ⟨hP, hE⟩ | ⟨hP, hE⟩ <;> cases hl : p.USE_LSB_TAG <;>
    simp only [XINT, make_number, MOST_NEGATIVE_FIXNUM, MOST_POSITIVE_FIXNUM, EMACS_INT_MAX,
      INTTYPEBITS, GCTYPEBITS, VALBITS, Lisp_Int0, XIL, XLI, hE, hl, Bool.false_eq_true,
      if_false, if_true, Nat.reducePow, Nat.reduceSub, Nat.reduceMul, Nat.reduceDiv,
      Nat.cast_ofNat, Int.reducePow, Int.reduceMul] at h0 h1 ⊢ <;>
    split_ifs <;> omega

/-- With the free cells of `World.FreeCellsOK`, which with tags in the most
significant bits lie below `2 ^ (ptrBits - 1)`.
Integer round trip: on a supported platform, on an environment in the
normal state with room for the two handlers, for `n` within
`[MOST_NEGATIVE_FIXNUM, MOST_POSITIVE_FIXNUM]`, `module_make_integer` returns a
handle and leaves the state normal, and `module_extract_integer` of that
handle, in the world `module_make_integer` left, returns `n`, leaves the state
normal and changes nothing.  Where the fixnum does not fit a handle an aligned
free cell is assumed for its container. -/
theorem extract_integer_make_integer (p : Platform) (host : Host) (env : emacs_env_private)
    (w : World) (n : Int) (hp : p.Supported) (hok : w.FreeCellsOK p)
    (henv : env.pending_non_local_exit = emacs_funcall_exit_return)
    (hroom : w.handlerlist.length + 2 ≤ w.handler_limit)
    (hn : MOST_NEGATIVE_FIXNUM p ≤ n ∧ n ≤ MOST_POSITIVE_FIXNUM p)
    (hmem : Compressible p (make_number p n) ∨ ∃ a ∈ w.free, a % GCALIGNMENT = 0) :
    (module_make_integer p host env w n).env = env ∧
    module_extract_integer p host env (module_make_integer p host env w n).world
        (module_make_integer p host env w n).value
      = ⟨n, env, (module_make_integer p host env w n).world⟩ := by
  obtain ⟨v, w1, hret, hcf, hdec⟩ := return_lisp_to_value_ok hp env
    (w := { w with
      handlerlist := handlertype.CATCHER_ALL :: handlertype.CONDITION_CASE :: w.handlerlist })
    hok (HostValue_make_number hp _ n) hmem
  have hr : module_make_integer p host env w n
      = ⟨v, env, module_reset_handlerlist (module_reset_handlerlist w1)⟩ := by
    unfold module_make_integer
    apply MODULE_FUNCTION_BEGIN_value henv hroom
    show (if ¬ (MOST_NEGATIVE_FIXNUM p ≤ n ∧ n ≤ MOST_POSITIVE_FIXNUM p) then _ else _) = _
    rw [if_neg (not_not.2 hn)]
    exact hret
  have hhl : (module_reset_handlerlist (module_reset_handlerlist w1)).handlerlist
      = w.handlerlist := by
    rw [hcf.1]; rfl
  have hlim : (module_reset_handlerlist (module_reset_handlerlist w1)).handler_limit
      = w.handler_limit := by
    rw [hcf.1]; rfl
  rw [hr]
  refine ⟨rfl, ?_⟩
  unfold module_extract_integer
  apply MODULE_FUNCTION_BEGIN_returns henv (by rw [hhl, hlim]; exact hroom) rfl
  have hv : ∀ hl, value_to_lisp p
      { module_reset_handlerlist (module_reset_handlerlist w1) with handlerlist := hl } v
      = make_number p n := fun hl => (value_to_lisp_congr (w := w1) rfl rfl rfl v).trans hdec
  simp only [hv, INTEGERP_make_number hp n, XINT_make_number hp hn.1 hn.2, Bool.not_true,
    Bool.false_eq_true, if_false]

theorem extract_integer_make_integer_witness :
    (World.start [16, 24] 5 []).FreeCellsOK msb_wide ∧
    (MOST_NEGATIVE_FIXNUM msb_wide ≤ -7 ∧ -7 ≤ MOST_POSITIVE_FIXNUM msb_wide) ∧
    (∃ a ∈ (World.start [16, 24] 5 []).free, a % GCALIGNMENT = 0) ∧
    (module_make_integer msb_wide Host.quiet emacs_env_private.normal
      (World.start [16, 24] 5 []) (-7)).value = 22 ∧
    (module_extract_integer msb_wide Host.quiet emacs_env_private.normal
      (module_make_integer msb_wide Host.quiet emacs_env_private.normal
        (World.start [16, 24] 5 []) (-7)).world
      (module_make_integer msb_wide Host.quiet emacs_env_private.normal
        (World.start [16, 24] 5 []) (-7)).value).value = -7 :=
  ⟨by decide, by decide, by decide, by decide,
    congrArg Result.value (extract_integer_make_integer msb_wide Host.quiet
      emacs_env_private.normal (World.start [16, 24] 5 []) (-7) (by decide) (by decide) rfl
      (by decide) (by decide) (Or.inr (by decide))).2⟩

/-- A misc object at an aligned address the allocator may hand out is
compressible. -/
theorem Compressible_make_lisp_ptr_misc {p : Platform} (hp : p.Supported) {a : Nat}
    (ha : a < 2 ^ p.ptrBits) (hal : a % GCALIGNMENT = 0)
    (hlow : p.USE_LSB_TAG = false → a < 2 ^ (p.ptrBits - 1) ∧ a < 2 ^ VALBITS p) :
    Compressible p (make_lisp_ptr p a Lisp_Misc) := by
  cases hpl : plain_values p with
  | true => exact Compressible_of_plain hpl (make_lisp_ptr_lt hp _ _)
  | false =>
    obtain ⟨hP, hE⟩ := wide_of_not_plain hp hpl
    have hM := MISCP_make_lisp_ptr hp ha hal (fun h => (hlow h).2)
    have hx : XTYPE p (make_lisp_ptr p a Lisp_Misc) = 1 := by
      simpa [MISCP, Lisp_Misc] using hM
    have hI : INTEGERP p (make_lisp_ptr p a Lisp_Misc) = false := by
      cases hl : p.USE_LSB_TAG <;>
        simp only [INTEGERP, hx, Lisp_Int0, Lisp_Int1, hl, Bool.false_eq_true, if_false,
          if_true] <;> decide
    cases hl : p.USE_LSB_TAG
    · have h2 := hlow hl
      simp only [hP, hE, VALBITS, GCTYPEBITS, GCALIGNMENT, Nat.reducePow, Nat.reduceSub]
        at ha hal h2
      have hb : lisp_to_value_bits p (make_lisp_ptr p a Lisp_Misc) = a + 1 := by
        simp only [lisp_to_value_bits, hpl, hl, Bool.or_false, Bool.false_eq_true, if_false,
          hI, hx, XLI]
        simp only [make_lisp_ptr, Lisp_Misc, XIL, VALBITS, GCTYPEBITS, hl, hE, hP,
          Bool.false_eq_true, if_false, Nat.reducePow, Nat.reduceSub, Nat.reduceMul]
        omega
      unfold Compressible
      rw [hb]
      simp only [value_to_lisp_bits, hpl, hl, Bool.or_false, Bool.false_eq_true, if_false,
        make_lisp_ptr, Lisp_Misc, Lisp_Int0, Lisp_Int1, XIL, intptr_to_EMACS_INT, VALBITS,
        GCTYPEBITS, GCALIGNMENT, hP, hE, Nat.reducePow, Nat.reduceSub, Nat.reduceMul]
      have ht : (a + 1) % 8 = 1 := by omega
      rw [ht]
      simp only [OfNat.ofNat_ne_one, OfNat.one_ne_ofNat, or_self, if_false, one_mul]
      split <;> omega
    · unfold Compressible
      simp only [lisp_to_value_bits, value_to_lisp_bits, hpl, hl, Bool.or_true, if_true, XLI,
        make_lisp_ptr, Lisp_Misc, XIL, intptr_to_EMACS_INT, hP, hE, Nat.reducePow,
        Nat.reduceSub]
      simp only [hP, Nat.reducePow] at ha
      split_ifs <;> omega

/-- The four accessors of a user pointer, for a handle `u` that decodes to the
user pointer object `o` at `addr`, on an environment in the normal state with
room for the two handlers. -/
theorem user_ptr_accessors {p : Platform} (host : Host) {env : emacs_env_private}
    {W : World} {u o addr : Nat}
    (henv : env.pending_non_local_exit = emacs_funcall_exit_return)
    (hroom : W.handlerlist.length + 2 ≤ W.handler_limit)
    (hdec : ∀ W1 : World, value_to_lisp p W1 u = o) (hM : MISCP p o = true)
    (hU : XUNTAG p o Lisp_Misc = addr) (hty : W.misc_type addr = Lisp_Misc_User_Ptr) :
    module_get_user_ptr p host env W u = ⟨W.user_ptr_p addr, env, W⟩ ∧
    module_get_user_finalizer p host env W u = ⟨W.user_ptr_finalizer addr, env, W⟩ ∧
    (∀ q, module_set_user_ptr p host env W u q
      = ⟨(), env, { W with user_ptr_p := fun a => if a = addr then q else W.user_ptr_p a }⟩) ∧
    (∀ g, module_set_user_finalizer p host env W u g
      = ⟨(), env, { W with
          user_ptr_finalizer := fun a => if a = addr then g else W.user_ptr_finalizer a }⟩) := by
  have hP : ∀ hl, USER_PTRP p { W with handlerlist := hl } o = true := by
    intro hl
    simp only [USER_PTRP, hM, XMISCTYPE, hU, hty, beq_self_eq_true, Bool.and_self]
  have hc : module_non_local_exit_check env = emacs_funcall_exit_return := henv
  refine ⟨?_, ?_, ?_, ?_⟩
  · unfold module_get_user_ptr
    apply MODULE_FUNCTION_BEGIN_returns henv hroom rfl
    simp only [hdec, hP, hU, Bool.not_true, Bool.false_eq_true, if_false]
  · unfold module_get_user_finalizer
    apply MODULE_FUNCTION_BEGIN_returns henv hroom rfl
    simp only [hdec, hP, hU, Bool.not_true, Bool.false_eq_true, if_false]
  · intro q
    unfold module_set_user_ptr
    apply @MODULE_FUNCTION_BEGIN_returns _ p () () env env W
      { W with user_ptr_p := fun a => if a = addr then q else W.user_ptr_p a } _ henv hroom rfl
    simp only [hc, ne_eq, not_true_eq_false, if_false, hdec, hP, hU, Bool.not_true,
      Bool.false_eq_true, HostResult.bind]
  · intro g
    unfold module_set_user_finalizer
    apply @MODULE_FUNCTION_BEGIN_returns _ p () () env env W
      { W with user_ptr_finalizer := fun a => if a = addr then g else W.user_ptr_finalizer a }
      _ henv hroom rfl
    simp only [hdec, hP, hU, Bool.not_true, Bool.false_eq_true, if_false,
      HostResult.bind]

/-- With the free cells of `World.FreeCellsOK`, which with tags in the most
significant bits lie below `2 ^ (ptrBits - 1)`.
User-pointer round trip: on a supported platform, on an environment
in the normal state with room for the two handlers and an aligned free
address for the object, `module_make_user_ptr (fin, ptr)` returns a handle `u`
with the state normal; `module_get_user_ptr (u)` is `ptr` and
`module_get_user_finalizer (u)` is `fin`; after `module_set_user_ptr (u, q)`
the pointer is `q` and the finalizer still `fin`; after
`module_set_user_finalizer (u, g)` the finalizer is `g` and the pointer still
`ptr`.  Every call leaves the state normal, and the getters change nothing. -/
theorem user_ptr_round_trip (p : Platform) (host : Host) (env : emacs_env_private)
    (w : World) (fin ptr : Nat) (hp : p.Supported) (hok : w.FreeCellsOK p)
    (henv : env.pending_non_local_exit = emacs_funcall_exit_return)
    (hroom : w.handlerlist.length + 2 ≤ w.handler_limit) (hroomy : w.Roomy 1) :
    ∃ u w1, module_make_user_ptr p env w fin ptr = ⟨u, env, w1⟩ ∧
      module_get_user_ptr p host env w1 u = ⟨ptr, env, w1⟩ ∧
      module_get_user_finalizer p host env w1 u = ⟨fin, env, w1⟩ ∧
      (∀ q, ∃ w2, module_set_user_ptr p host env w1 u q = ⟨(), env, w2⟩ ∧
        module_get_user_ptr p host env w2 u = ⟨q, env, w2⟩ ∧
        module_get_user_finalizer p host env w2 u = ⟨fin, env, w2⟩) ∧
      (∀ g, ∃ w2, module_set_user_finalizer p host env w1 u g = ⟨(), env, w2⟩ ∧
        module_get_user_finalizer p host env w2 u = ⟨g, env, w2⟩ ∧
        module_get_user_ptr p host env w2 u = ⟨ptr, env, w2⟩) := by
  obtain ⟨hlen, hal⟩ := hroomy
  rcases hf : w.free with _ | ⟨addr, rest⟩
  · simp [hf] at hlen
  have ha := hok.2 addr (by simp [hf])
  have hal1 := hal addr (by simp [hf])
  have hfit : p.USE_LSB_TAG = false → addr < 2 ^ VALBITS p := fun h => (ha.2.2 h).2
  have hc := Compressible_make_lisp_ptr_misc hp ha.1 hal1 ha.2.2
  have hM := MISCP_make_lisp_ptr hp ha.1 hal1 hfit
  have hU := XUNTAG_make_lisp_ptr_misc hp ha.1 hfit
  have hcons : CONSP p (make_lisp_ptr p addr Lisp_Misc) = false := by
    have hx : XTYPE p (make_lisp_ptr p addr Lisp_Misc) = 1 := by
      simpa [MISCP, Lisp_Misc] using hM
    cases hl : p.USE_LSB_TAG <;> simp [CONSP, hx, Lisp_Cons, hl]
  have hdec : ∀ W1 : World,
      value_to_lisp p W1 (lisp_to_value_bits p (make_lisp_ptr p addr Lisp_Misc))
        = make_lisp_ptr p addr Lisp_Misc := fun W1 =>
    value_to_lisp_direct hc
      ⟨make_lisp_ptr_lt hp _ _, fun _ h => by rw [hcons] at h; cases h⟩
  have hmake : module_make_user_ptr p env w fin ptr
      = ⟨lisp_to_value_bits p (make_lisp_ptr p addr Lisp_Misc), env,
          { w with
            free := rest
            misc_type := fun a => if a = addr then Lisp_Misc_User_Ptr else w.misc_type a
            user_ptr_finalizer := fun a => if a = addr then fin else w.user_ptr_finalizer a
            user_ptr_p := fun a => if a = addr then ptr else w.user_ptr_p a }⟩ := by
    unfold module_make_user_ptr
    refine MODULE_FUNCTION_BEGIN_returns henv hroom ?_ ?_
    · rfl
    · simp only [make_user_ptr, allocate, hf, or_memory_full, HostResult.bind,
        lisp_to_value_direct hc]
  have acc := fun (W : World) (hr : W.handlerlist.length + 2 ≤ W.handler_limit)
      (hty : W.misc_type addr = Lisp_Misc_User_Ptr) =>
    @user_ptr_accessors p host env W _ _ addr henv hr hdec hM hU hty
  have acc1 := acc _ (show ({ w with
      free := rest
      misc_type := fun a => if a = addr then Lisp_Misc_User_Ptr else w.misc_type a
      user_ptr_finalizer := fun a => if a = addr then fin else w.user_ptr_finalizer a
      user_ptr_p := fun a => if a = addr then ptr else w.user_ptr_p a } : World
      ).handlerlist.length + 2 ≤ _ from hroom) (if_pos rfl)
  simp only [if_true] at acc1
  refine ⟨_, _, hmake, acc1.1, acc1.2.1, ?_, ?_⟩
  · intro q
    have acc2 := acc _ (show ({ w with
        free := rest
        misc_type := fun a => if a = addr then Lisp_Misc_User_Ptr else w.misc_type a
        user_ptr_finalizer := fun a => if a = addr then fin else w.user_ptr_finalizer a
        user_ptr_p := fun a => if a = addr then q else
          (if a = addr then ptr else w.user_ptr_p a) } : World
        ).handlerlist.length + 2 ≤ _ from hroom) (if_pos rfl)
    simp only [if_true] at acc2
    exact ⟨_, acc1.2.2.1 q, acc2.1, acc2.2.1⟩
  · intro g
    have acc2 := acc _ (show ({ w with
        free := rest
        misc_type := fun a => if a = addr then Lisp_Misc_User_Ptr else w.misc_type a
        user_ptr_finalizer := fun a => if a = addr then g else
          (if a = addr then fin else w.user_ptr_finalizer a)
        user_ptr_p := fun a => if a = addr then ptr else w.user_ptr_p a } : World
        ).handlerlist.length + 2 ≤ _ from hroom) (if_pos rfl)
    simp only [if_true] at acc2
    exact ⟨_, acc1.2.2.2 g, acc2.2.1, acc2.1⟩

theorem user_ptr_round_trip_witness :
    (World.start [16, 24] 5 []).FreeCellsOK msb_wide ∧ (World.start [16, 24] 5 []).Roomy 1 ∧
    (module_make_user_ptr msb_wide emacs_env_private.normal (World.start [16, 24] 5 [])
      3 77).value = 17 ∧
    (module_get_user_ptr msb_wide Host.quiet emacs_env_private.normal
      (module_set_user_ptr msb_wide Host.quiet emacs_env_private.normal
        (module_make_user_ptr msb_wide emacs_env_private.normal (World.start [16, 24] 5 [])
          3 77).world 17 78).world 17).value = 78 ∧
    ∃ u w1, module_make_user_ptr msb_wide emacs_env_private.normal
        (World.start [16, 24] 5 []) 3 77 = ⟨u, emacs_env_private.normal, w1⟩ ∧
      module_get_user_ptr msb_wide Host.quiet emacs_env_private.normal w1 u
        = ⟨77, emacs_env_private.normal, w1⟩ ∧
      module_get_user_finalizer msb_wide Host.quiet emacs_env_private.normal w1 u
        = ⟨3, emacs_env_private.normal, w1⟩ ∧
      (∀ q, ∃ w2, module_set_user_ptr msb_wide Host.quiet emacs_env_private.normal w1 u q
          = ⟨(), emacs_env_private.normal, w2⟩ ∧
        module_get_user_ptr msb_wide Host.quiet emacs_env_private.normal w2 u
          = ⟨q, emacs_env_private.normal, w2⟩ ∧
        module_get_user_finalizer msb_wide Host.quiet emacs_env_private.normal w2 u
          = ⟨3, emacs_env_private.normal, w2⟩) ∧
      (∀ g, ∃ w2, module_set_user_finalizer msb_wide Host.quiet emacs_env_private.normal w1 u g
          = ⟨(), emacs_env_private.normal, w2⟩ ∧
        module_get_user_finalizer msb_wide Host.quiet emacs_env_private.normal w2 u
          = ⟨g, emacs_env_private.normal, w2⟩ ∧
        module_get_user_ptr msb_wide Host.quiet emacs_env_private.normal w2 u
          = ⟨77, emacs_env_private.normal, w2⟩) :=
  ⟨by decide, by decide, by decide, by decide,
    user_ptr_round_trip msb_wide Host.quiet emacs_env_private.normal
      (World.start [16, 24] 5 []) 3 77 (by decide) (by decide) rfl (by decide) (by decide)⟩

/-! ## The call of the foreign function -/

/-- The handles that the encoding loop of `Finternal_module_call` makes decode
to the arguments, in order, in the world the loop leaves. -/
theorem lisp_to_value_args_decode {p : Platform} (hp : p.Supported) :
    ∀ (l : List Nat) (w w1 : World) (args : List Nat), w.FreeCellsOK p →
      (∀ o ∈ l, HostValue p w o) → lisp_to_value_args p w l = (some args, w1) →
      args.length = l.length ∧ w.CellsFrom w1 ∧
        ∀ i, i < l.length → value_to_lisp p w1 (args.getD i module_nil) = l.getD i Qnil := by
  intro l
  induction l with
  | nil =>
    intro w w1 args _ _ h
    simp only [lisp_to_value_args, Prod.mk.injEq, Option.some.injEq] at h
    obtain ⟨rfl, rfl⟩ := h
    exact ⟨rfl, World.CellsFrom.refl _, fun i hi => absurd hi (Nat.not_lt_zero i)⟩
  | cons o rest ih =>
    intro w w1 args hok hv h
    simp only [lisp_to_value_args] at h
    rcases hl : lisp_to_value p w o with ⟨_ | v, w0⟩
    · simp [hl] at h
    · have ho := hv o (by simp)
      have hcf := lisp_to_value_cells hp hok ho.1 hl
      have hok0 : w0.FreeCellsOK p := hok.of_suffix hcf.2.1
      have hrest : ∀ o ∈ rest, HostValue p w0 o := fun o ho =>
        (hv o (by simp [ho])).mono hcf
      simp only [hl] at h
      rcases hr : lisp_to_value_args p w0 rest with ⟨_ | r0, w00⟩
      · simp [hr] at h
      · rw [hr] at h
        simp only [Prod.mk.injEq, Option.some.injEq] at h
        obtain ⟨rfl, rfl⟩ := h
        obtain ⟨hlen, hcf0, hdec⟩ := ih w0 w00 r0 hok0 hrest hr
        refine ⟨by simp [hlen], hcf.trans hcf0, ?_⟩
        intro i hi
        cases i with
        | zero => exact value_to_lisp_stable hp hok ho hl hcf0
        | succ j =>
          have := hdec j (by simpa using hi)
          simpa using this

/-- A host value of before `initialize_environment` is one after it. -/
theorem HostValue_initialize_environment {p : Platform} {w w1 : World} {pub o : Nat}
    {priv priv1 : emacs_env_private} (ho : HostValue p w o)
    (h : initialize_environment p w pub priv = (priv1, HostResult.value () w1)) :
    HostValue p w1 o := by
  obtain ⟨m, c, rest, hfree, hfree1, hmark1, _, _, hcells1, _, _⟩ :=
    initialize_environment_frame h
  have hcm : c ∈ w.free := by simp [hfree]
  have hsuf : w1.free <:+ w.free := by rw [hfree, hfree1]; exact ⟨[m, c], rfl⟩
  refine ⟨ho.1, fun hpl hcons => ?_⟩
  obtain ⟨h1, h2⟩ := ho.2 hpl hcons
  refine ⟨fun h => h1 (hsuf.subset h), ?_⟩
  have hne : XCONS p o ≠ c := fun h => h1 (h ▸ hcm)
  simp only [XCDR] at h2 ⊢
  rw [(hcells1 _ hne).1, hmark1]
  exact h2

/-- With the free cells of `World.FreeCellsOK`, which with tags in the most
significant bits lie below `2 ^ (ptrBits - 1)`.
Invocation call shape: a call of `internal--module-call` whose first
argument is the function environment registered with the arity bounds, the
foreign function pointer `subr` and the user data `data`, and which passes the
arity check with host values as arguments, when the environment can be
initialised and the arguments encoded: the private part of the new environment
has no exit pending; the handles are as many as the arguments and handle `i`
decodes to argument `i`; and the result of the call is the outcome of the one
application of the foreign code to `subr`, that environment, the argument
count, those handles and `data`, whatever else the foreign code would do. -/
theorem Finternal_module_call_shape (p : Platform) (host : Host) (w w1 w2 : World)
    (arglist args : List Nat) (pub : Nat) (priv priv1 : emacs_env_private)
    (min_arity max_arity : Int) (subr data : Nat)
    (hp : p.Supported) (hok : w.FreeCellsOK p)
    (hsv : SAVE_VALUEP p w (arglist.getD 0 Qnil) = true)
    (hst : w.save_type (XUNTAG p (arglist.getD 0 Qnil) Lisp_Misc) = SAVE_POINTER)
    (hreg : w.fun_envs (w.save_pointer (XUNTAG p (arglist.getD 0 Qnil) Lisp_Misc))
      = ⟨min_arity, max_arity, subr, data⟩)
    (h0 : 0 ≤ min_arity)
    (har : min_arity ≤ (arglist.length : Int) - 1 ∧
      (arglist.length : Int) - 1 ≤ (if max_arity < 0 then PTRDIFF_MAX p else max_arity))
    (hargs : ∀ o ∈ arglist.drop 1, HostValue p w o)
    (hinit : initialize_environment p w pub priv = (priv1, HostResult.value () w1))
    (henc : (if plain_values p then (some (arglist.drop 1), w1)
        else lisp_to_value_args p w1
          ((arglist.drop 1).take ((arglist.length : Int) - 1).toNat)) = (some args, w2)) :
    priv1.pending_non_local_exit = emacs_funcall_exit_return ∧
    (args.length : Int) = (arglist.length : Int) - 1 ∧
    (∀ i, i + 1 < arglist.length →
      value_to_lisp p w2 (args.getD i module_nil) = arglist.getD (i + 1) Qnil) ∧
    (∀ host1 : Host,
      host1.subr subr priv1 w2 ((arglist.length : Int) - 1) args data
        = host.subr subr priv1 w2 ((arglist.length : Int) - 1) args data →
      Finternal_module_call p host1 w arglist pub priv =
        match (host.subr subr priv1 w2 ((arglist.length : Int) - 1) args
          data).2.1.pending_non_local_exit with
        | emacs_funcall_exit_return =>
          HostResult.value
            (value_to_lisp p
              (finalize_environment p
                (host.subr subr priv1 w2 ((arglist.length : Int) - 1) args data).2.2)
              (host.subr subr priv1 w2 ((arglist.length : Int) - 1) args data).1)
            (finalize_environment p
              (host.subr subr priv1 w2 ((arglist.length : Int) - 1) args data).2.2)
        | emacs_funcall_exit_signal =>
          HostResult.signal
            (host.subr subr priv1 w2 ((arglist.length : Int) - 1) args
              data).2.1.non_local_exit_symbol
            (host.subr subr priv1 w2 ((arglist.length : Int) - 1) args
              data).2.1.non_local_exit_data
            (finalize_environment p
              (host.subr subr priv1 w2 ((arglist.length : Int) - 1) args data).2.2)
        | emacs_funcall_exit_throw =>
          HostResult.throw
            (host.subr subr priv1 w2 ((arglist.length : Int) - 1) args
              data).2.1.non_local_exit_symbol
            (host.subr subr priv1 w2 ((arglist.length : Int) - 1) args
              data).2.1.non_local_exit_data
            (finalize_environment p
              (host.subr subr priv1 w2 ((arglist.length : Int) - 1) args data).2.2)) := by
  have hpos : 1 ≤ arglist.length := by omega
  have hlen : ((arglist.length : Int) - 1).toNat = arglist.length - 1 := by omega
  have hdl : (arglist.drop 1).length = arglist.length - 1 := by simp
  have hsuf : w1.free <:+ w.free := by
    obtain ⟨m, c, rest, hfree, hfree1, _⟩ := initialize_environment_frame hinit
    rw [hfree, hfree1]; exact ⟨[m, c], rfl⟩
  have hok1 : w1.FreeCellsOK p := hok.of_suffix hsuf
  have hargs1 : ∀ o ∈ arglist.drop 1, HostValue p w1 o := fun o ho =>
    HostValue_initialize_environment (hargs o ho) hinit
  have hget : ∀ i, (arglist.drop 1).getD i Qnil = arglist.getD (i + 1) Qnil := by
    intro i
    simp [List.getD_eq_getElem?_getD, List.getElem?_drop, Nat.add_comm]
  have hshape : args.length = arglist.length - 1 ∧
      ∀ i, i + 1 < arglist.length →
        value_to_lisp p w2 (args.getD i module_nil) = arglist.getD (i + 1) Qnil := by
    cases hpl : plain_values p with
    | true =>
      simp only [hpl, if_true, Prod.mk.injEq, Option.some.injEq] at henc
      obtain ⟨rfl, rfl⟩ := henc
      refine ⟨hdl, fun i _ => ?_⟩
      rw [value_to_lisp_of_plain hpl]
      by_cases hi : i < (arglist.drop 1).length
      · rw [← hget i]
        simp [List.getD_eq_getElem?_getD, module_nil, Qnil]
      · omega
    | false =>
      simp only [hpl, Bool.false_eq_true, if_false, hlen] at henc
      rw [← hdl, List.take_length] at henc
      obtain ⟨h1, _, h3⟩ := lisp_to_value_args_decode hp _ _ _ _ hok1 hargs1 henc
      refine ⟨by rw [h1, hdl], fun i hi => ?_⟩
      rw [h3 i (by omega), hget]
  refine ⟨by rw [(initialize_environment_spec hinit).1], by omega, hshape.2, ?_⟩
  intro host1 hsame
  have har1 : (w.fun_envs (w.save_pointer (XUNTAG p (arglist.getD 0 Qnil) Lisp_Misc))).min_arity
        ≤ (arglist.length : Int) - 1 ∧
      (arglist.length : Int) - 1 ≤
        (if (w.fun_envs (w.save_pointer (XUNTAG p (arglist.getD 0 Qnil) Lisp_Misc))).max_arity
            < 0 then PTRDIFF_MAX p
         else (w.fun_envs
            (w.save_pointer (XUNTAG p (arglist.getD 0 Qnil) Lisp_Misc))).max_arity) := by
    rw [hreg]; exact har
  have hF := @Finternal_module_call_invoke p host1 w w1 w2
    (host.subr subr priv1 w2 ((arglist.length : Int) - 1) args data).2.2 arglist args pub
    (host.subr subr priv1 w2 ((arglist.length : Int) - 1) args data).1 priv priv1
    (host.subr subr priv1 w2 ((arglist.length : Int) - 1) args data).2.1 hsv hst har1 hinit henc
    (by rw [hreg]; exact hsame)
  exact hF

/-- The theorem `Finternal_module_call_shape` at a concrete input:
on a 32-bit host with wide integers and tags in
the most significant bits the module function of `World.with_function 1 1` is
called with the fixnum 7.  Its handle is the container at 40, which decodes to
the fixnum in the world the foreign function is entered with, and the call
ends as the foreign function of `Host.failing` says. -/
theorem Finternal_module_call_shape_witness :
    (∀ o ∈ [make_lisp_ptr msb_wide 8 Lisp_Misc, make_number msb_wide 7].drop 1,
      HostValue msb_wide (World.with_function 1 1) o) ∧
    value_to_lisp msb_wide
      (lisp_to_value_args msb_wide
        (initialize_environment msb_wide (World.with_function 1 1) 1000
          emacs_env_private.normal).2.world [make_number msb_wide 7]).2 46
      = make_number msb_wide 7 ∧
    Finternal_module_call msb_wide Host.failing (World.with_function 1 1)
        [make_lisp_ptr msb_wide 8 Lisp_Misc, make_number msb_wide 7] 1000
        emacs_env_private.normal
      = HostResult.signal Host.quiet.Qwrong_type_argument Qnil
          (finalize_environment msb_wide
            (lisp_to_value_args msb_wide
              (initialize_environment msb_wide (World.with_function 1 1) 1000
                emacs_env_private.normal).2.world [make_number msb_wide 7]).2) :=
  ⟨by decide,
    (Finternal_module_call_shape msb_wide Host.failing (World.with_function 1 1) _ _
      [make_lisp_ptr msb_wide 8 Lisp_Misc, make_number msb_wide 7] [46] 1000
      emacs_env_private.normal emacs_env_private.normal 1 1 77 5
      (by decide) (by decide) (by decide) (by decide) rfl (by decide) (by decide) (by decide)
      rfl rfl).2.2.1 0 (by decide),
    (Finternal_module_call_shape msb_wide Host.failing (World.with_function 1 1) _ _
      [make_lisp_ptr msb_wide 8 Lisp_Misc, make_number msb_wide 7] [46] 1000
      emacs_env_private.normal emacs_env_private.normal 1 1 77 5
      (by decide) (by decide) (by decide) (by decide) rfl (by decide) (by decide) (by decide)
      rfl rfl).2.2.2 Host.failing rfl⟩

/-! ## Free cells in the upper half of a 32-bit address space

With tags in the most significant bits `value_to_lisp_bits` computes
`i - tag` from the `intptr_t` `i`, so a handle whose bit 31 is set is
sign-extended into the tag bits, where its comment has pointers zero-extended.
The container that `lisp_to_value` makes at such an address does not decode to
what it holds, and `eassert (EQ (o, value_to_lisp (v)))` fails.  The theorems
below evaluate the functions in `World.high`. -/

/-- C1 fails on the code: on a 32-bit host with wide integers and tags in the
most significant bits, in a world whose free cells are distinct, aligned and
below `2 ^ 32`, addresses that `exceeds_lisp_ptr` of vm-limit.c accepts, the
fixnum 1 is encoded as the container at `2 ^ 31 + 16`, the handle 2147483670,
and `value_to_lisp` of that handle is the word 13835058053134680080, with the
tag of a vector, not the fixnum. -/
theorem value_to_lisp_lisp_to_value_high :
    World.high.free.Nodup ∧
    (∀ a ∈ World.high.free,
      a < 2 ^ msb_wide.ptrBits ∧ a % GCALIGNMENT = 0 ∧ a < 2 ^ VALBITS msb_wide ∧
        exceeds_lisp_ptr msb_wide 0 a = false) ∧
    HostValue msb_wide World.high (make_number msb_wide 1) ∧
    (lisp_to_value msb_wide World.high (make_number msb_wide 1)).1 = some 2147483670 ∧
    value_to_lisp msb_wide (lisp_to_value msb_wide World.high (make_number msb_wide 1)).2
      2147483670 = 13835058053134680080 ∧
    make_number msb_wide 1 = 4611686018427387905 ∧
    XTYPE msb_wide 13835058053134680080 = Lisp_Vectorlike := by
  decide

/-- C31 fails on the code: on a 32-bit host with wide integers and tags in the
most significant bits, in `World.high`, `module_make_integer (5)` returns the
handle 2147483670 with the state normal, and `module_extract_integer` of that
handle returns 0 and records `wrong-type-argument`. -/
theorem extract_integer_make_integer_high :
    (module_make_integer msb_wide Host.quiet emacs_env_private.normal World.high 5).value
      = 2147483670 ∧
    (module_make_integer msb_wide Host.quiet emacs_env_private.normal World.high 5).env
      = emacs_env_private.normal ∧
    (module_extract_integer msb_wide Host.quiet emacs_env_private.normal
      (module_make_integer msb_wide Host.quiet emacs_env_private.normal World.high 5).world
      2147483670).value = 0 ∧
    (module_extract_integer msb_wide Host.quiet emacs_env_private.normal
      (module_make_integer msb_wide Host.quiet emacs_env_private.normal World.high 5).world
      2147483670).env.pending_non_local_exit = emacs_funcall_exit_signal ∧
    (module_extract_integer msb_wide Host.quiet emacs_env_private.normal
      (module_make_integer msb_wide Host.quiet emacs_env_private.normal World.high 5).world
      2147483670).env.non_local_exit_symbol = Host.quiet.Qwrong_type_argument := by
  decide

/-- C10 fails on the code: on a 32-bit host with wide integers and tags in the
most significant bits, in `World.high` with an empty table,
`module_make_global_ref` on the handle 10 of the fixnum 1 gives the fixnum the
count 1 and leaves the state normal, but the handle it returns, 2147483670,
decodes to the word 13835058053134680080, not to the fixnum. -/
theorem module_make_global_ref_high :
    value_to_lisp msb_wide World.high 10 = make_number msb_wide 1 ∧
    (module_make_global_ref msb_wide Host.quiet emacs_env_private.normal World.high 10).value
      = 2147483670 ∧
    (module_make_global_ref msb_wide Host.quiet emacs_env_private.normal World.high 10).env
      = emacs_env_private.normal ∧
    refcount msb_wide
      (module_make_global_ref msb_wide Host.quiet emacs_env_private.normal World.high 10).world
      (make_number msb_wide 1) = some 1 ∧
    value_to_lisp msb_wide
      (module_make_global_ref msb_wide Host.quiet emacs_env_private.normal World.high 10).world
      2147483670 = 13835058053134680080 ∧
    make_number msb_wide 1 = 4611686018427387905 := by
  decide

/-- C16 fails on the code: on a 32-bit host with wide integers and tags in the
most significant bits, in `World.high`, after `module_non_local_exit_signal`
on the handles 10 (the fixnum 1) and 0 (nil), `module_non_local_exit_get`
returns `emacs_funcall_exit_signal` and stores the handles 2147483670 and 0;
the first decodes to the word 13835058053134680080, not to the fixnum. -/
theorem signal_then_get_high :
    value_to_lisp msb_wide World.high 10 = make_number msb_wide 1 ∧
    (module_non_local_exit_get msb_wide
      (module_non_local_exit_signal msb_wide emacs_env_private.normal World.high 10 0).env
      (module_non_local_exit_signal msb_wide emacs_env_private.normal World.high 10
        0).world).returned
      = some (emacs_funcall_exit_signal, some 2147483670, some 0) ∧
    value_to_lisp msb_wide
      (module_non_local_exit_get msb_wide
        (module_non_local_exit_signal msb_wide emacs_env_private.normal World.high 10 0).env
        (module_non_local_exit_signal msb_wide emacs_env_private.normal World.high 10
          0).world).world
      2147483670 = 13835058053134680080 ∧
    make_number msb_wide 1 = 4611686018427387905 := by
  decide

/-- C29 fails on the code: on a 32-bit host with wide integers and tags in the
most significant bits, in `World.high_with_vector`, `module_vec_set` stores
the fixnum 1 (the handle 10) at index 0 of the vector (the handle 13) and
leaves the state normal; `module_vec_get` at index 0 then returns the handle
2147483670 with the state normal, which decodes to the word
13835058053134680080, not to the fixnum. -/
theorem vec_set_get_high :
    value_to_lisp msb_wide World.high_with_vector 10 = make_number msb_wide 1 ∧
    (module_vec_set msb_wide Host.quiet emacs_env_private.normal World.high_with_vector 13 0
      10).env = emacs_env_private.normal ∧
    (module_vec_get msb_wide Host.quiet emacs_env_private.normal
      (module_vec_set msb_wide Host.quiet emacs_env_private.normal World.high_with_vector 13 0
        10).world 13 0).value = 2147483670 ∧
    (module_vec_get msb_wide Host.quiet emacs_env_private.normal
      (module_vec_set msb_wide Host.quiet emacs_env_private.normal World.high_with_vector 13 0
        10).world 13 0).env = emacs_env_private.normal ∧
    value_to_lisp msb_wide
      (module_vec_get msb_wide Host.quiet emacs_env_private.normal
        (module_vec_set msb_wide Host.quiet emacs_env_private.normal World.high_with_vector 13
          0 10).world 13 0).world
      2147483670 = 13835058053134680080 ∧
    make_number msb_wide 1 = 4611686018427387905 := by
  decide

/-- C32 fails on the code: on a 32-bit host with wide integers and tags in the
most significant bits, in `World.high`, `module_make_user_ptr (3, 77)` returns
the handle 2147483678 of a container with the state normal;
`module_get_user_ptr` of that handle returns `NULL`, not 77, and records
`wrong-type-argument`, and `module_get_user_finalizer` returns `NULL`, not
3. -/
theorem user_ptr_round_trip_high :
    (module_make_user_ptr msb_wide emacs_env_private.normal World.high 3 77).value
      = 2147483678 ∧
    (module_make_user_ptr msb_wide emacs_env_private.normal World.high 3 77).env
      = emacs_env_private.normal ∧
    (module_get_user_ptr msb_wide Host.quiet emacs_env_private.normal
      (module_make_user_ptr msb_wide emacs_env_private.normal World.high 3 77).world
      2147483678).value = 0 ∧
    (module_get_user_ptr msb_wide Host.quiet emacs_env_private.normal
      (module_make_user_ptr msb_wide emacs_env_private.normal World.high 3 77).world
      2147483678).env.pending_non_local_exit = emacs_funcall_exit_signal ∧
    (module_get_user_ptr msb_wide Host.quiet emacs_env_private.normal
      (module_make_user_ptr msb_wide emacs_env_private.normal World.high 3 77).world
      2147483678).env.non_local_exit_symbol = Host.quiet.Qwrong_type_argument ∧
    (module_get_user_finalizer msb_wide Host.quiet emacs_env_private.normal
      (module_make_user_ptr msb_wide emacs_env_private.normal World.high 3 77).world
      2147483678).value = 0 := by
  decide

/-- C33 fails on the code: on a 32-bit host with wide integers and tags in the
most significant bits the module function of `World.high_with_function 1 1`
is called with the fixnum 7 and passes the arity check.  The foreign function
receives the handle 2147483686, which decodes to the word
13835058053134680096 in the world it is entered with, not to the fixnum; the
foreign function of `Host.identity` returns that handle and the call returns
that word. -/
theorem Finternal_module_call_shape_high :
    (lisp_to_value_args msb_wide
      (initialize_environment msb_wide (World.high_with_function 1 1) 1000
        emacs_env_private.normal).2.world [make_number msb_wide 7]).1 = some [2147483686] ∧
    value_to_lisp msb_wide
      (lisp_to_value_args msb_wide
        (initialize_environment msb_wide (World.high_with_function 1 1) 1000
          emacs_env_private.normal).2.world [make_number msb_wide 7]).2 2147483686
      = 13835058053134680096 ∧
    make_number msb_wide 7 = 4611686018427387911 ∧
    (Finternal_module_call msb_wide Host.identity (World.high_with_function 1 1)
      [make_lisp_ptr msb_wide 8 Lisp_Misc, make_number msb_wide 7] 1000
      emacs_env_private.normal).returned = some 13835058053134680096 := by
  decide

/-- C24 fails on the code: on a 32-bit host with wide integers and tags in the
most significant bits the module function of `World.high_with_function 1 1`,
with the foreign function of `Host.extracting_on`, is called with the string
at `2 ^ 31 + 8`, the word 9223372039002259464.  The call signals
`wrong-type-argument` with a list of `integerp` and the word
13835058053134680096, which is not the argument. -/
theorem wrong_type_end_to_end_high :
    make_lisp_ptr msb_wide 2147483656 Lisp_String = 9223372039002259464 ∧
    INTEGERP msb_wide 9223372039002259464 = false ∧
    HostValue msb_wide (World.high_with_function 1 1) 9223372039002259464 ∧
    (Finternal_module_call msb_wide (Host.extracting_on msb_wide)
      (World.high_with_function 1 1)
      [make_lisp_ptr msb_wide 8 Lisp_Misc, 9223372039002259464] 1000
      emacs_env_private.normal).signaled
      = some (Host.quiet.Qwrong_type_argument, 13835058057429647408) ∧
    nth msb_wide
      (Finternal_module_call msb_wide (Host.extracting_on msb_wide)
        (World.high_with_function 1 1)
        [make_lisp_ptr msb_wide 8 Lisp_Misc, 9223372039002259464] 1000
        emacs_env_private.normal).world 0 13835058057429647408 = Host.quiet.Qintegerp ∧
    nth msb_wide
      (Finternal_module_call msb_wide (Host.extracting_on msb_wide)
        (World.high_with_function 1 1)
        [make_lisp_ptr msb_wide 8 Lisp_Misc, 9223372039002259464] 1000
        emacs_env_private.normal).world 1 13835058057429647408 = 13835058053134680096 := by
  decide

/-- C7 fails on the code: on a 32-bit host with wide integers and tags in the
most significant bits, in `World.high`, `module_make_function` with the
minimum 1 and the variadic marker as maximum returns the handle 2147483782
with the state normal, but the handle decodes to the word
13835058053134680192, which is not a cons: what is returned is not the lambda
form, no callable. -/
theorem module_make_function_high :
    (module_make_function msb_wide Host.quiet emacs_env_private.normal World.high 1
      emacs_variadic_function 77 none 5).value = 2147483782 ∧
    (module_make_function msb_wide Host.quiet emacs_env_private.normal World.high 1
      emacs_variadic_function 77 none 5).env = emacs_env_private.normal ∧
    value_to_lisp msb_wide
      (module_make_function msb_wide Host.quiet emacs_env_private.normal World.high 1
        emacs_variadic_function 77 none 5).world 2147483782 = 13835058053134680192 ∧
    CONSP msb_wide 13835058053134680192 = false := by
  decide

end EmacsModule
